import Mathlib

/-!
Shallow embedding of the IndexedDB key machinery of cions/leveldb-cli:
the idb_cmp1 comparator (src/indexeddb/comparer.go) and the prefix range
engine (the prefix.go source of the indexeddb package).

Bytes are modelled as natural numbers (always below 256 in the Go domain;
the bit manipulations are written so that they agree with the Go code on
that domain). Go panics are modelled with Except Unit; the deferred
recover of idbCmp1.Compare turns a panic into the zero return value 0.
Go nil slices are modelled as the empty list wherever the code only ever
tests emptiness or concatenates.
-/

namespace IDB

/-- Three-way comparison of naturals, as Go cmp.Compare on integral values. -/
def natCmp (x y : Nat) : Int :=
  if x < y then -1 else if y < x then 1 else 0

/-- Three-way comparison of integers, as Go cmp.Compare on int64. -/
def intCmp (x y : Int) : Int :=
  if x < y then -1 else if y < x then 1 else 0

/-- Lexicographic byte-sequence comparison, as Go bytes.Compare. -/
def bytesCmp : List Nat → List Nat → Int
  | [], [] => 0
  | [], _ :: _ => -1
  | _ :: _, [] => 1
  | x :: xs, y :: ys => if x < y then -1 else if y < x then 1 else bytesCmp xs ys

/-- Little-endian value of a byte sequence (the Go loops or byte i shifted
by 8*i; for bytes below 256 the groups are disjoint, so the or is a sum). -/
def leNat : List Nat → Nat
  | [] => 0
  | x :: xs => x + 256 * leNat xs

/-- Reading of a 64-bit pattern as a signed value: the Go int64 cast. -/
def toInt64 (v : Nat) : Int :=
  if v < 2 ^ 63 then (v : Int) else (v : Int) - 2 ^ 64

/-- Go indexeddb.decodeInt: little-endian unsigned decode of 1 to 8 bytes
into an int64; zero or more than 8 bytes panic. -/
def decodeInt (a : List Nat) : Except Unit Int :=
  if a.length = 0 ∨ a.length > 8 then .error () else .ok (toInt64 (leNat a))

/-- Loop of Go indexeddb.decodeVarInt: i is the group index, v the bits
accumulated so far. The tests x % 128 (low seven bits) and x % 256 < 128
(continuation bit clear) agree with the Go bit operations on every natural. -/
def decodeVarIntAux : List Nat → Nat → Nat → Except Unit (List Nat × Nat)
  | [], _, _ => .error ()
  | x :: xs, i, v =>
    if i ≥ 9 then .error ()
    else
      let v := v + x % 128 * 2 ^ (7 * i)
      if x % 256 < 128 then .ok (xs, v) else decodeVarIntAux xs (i + 1) v

/-- Go indexeddb.decodeVarInt: at most 9 little-endian 7-bit groups, so the
value stays below 2^63 and the int64 result is the plain natural value. -/
def decodeVarInt (a : List Nat) : Except Unit (List Nat × Nat) :=
  decodeVarIntAux a 0 0

/-- Go indexeddb.compareBinary: a varint length then that many payload bytes
on each side; if a declared length exceeds the available bytes, only the
shared available payload is compared and the declared lengths break the tie. -/
def compareBinary (a b : List Nat) : Except Unit (List Nat × List Nat × Int) :=
  match decodeVarInt a with
  | .error e => .error e
  | .ok (a, len1) =>
    match decodeVarInt b with
    | .error e => .error e
    | .ok (b, len2) =>
      if a.length < len1 ∨ b.length < len2 then
        let minlen := min (min len1 len2) (min a.length b.length)
        let ret := bytesCmp (a.take minlen) (b.take minlen)
        if ret ≠ 0 then .ok ([], [], ret)
        else .ok ([], [], natCmp len1 len2)
      else
        .ok (a.drop len1, b.drop len2, bytesCmp (a.take len1) (b.take len2))

/-- Go indexeddb.compareStringWithLength: as compareBinary, but the varint
counts characters and the payload is twice that many bytes. -/
def compareStringWithLength (a b : List Nat) : Except Unit (List Nat × List Nat × Int) :=
  match decodeVarInt a with
  | .error e => .error e
  | .ok (a, v1) =>
    match decodeVarInt b with
    | .error e => .error e
    | .ok (b, v2) =>
      let len1 := 2 * v1
      let len2 := 2 * v2
      if a.length < len1 ∨ b.length < len2 then
        let minlen := min (min len1 len2) (min a.length b.length)
        let ret := bytesCmp (a.take minlen) (b.take minlen)
        if ret ≠ 0 then .ok ([], [], ret)
        else .ok ([], [], natCmp v1 v2)
      else
        .ok (a.drop len1, b.drop len2, bytesCmp (a.take len1) (b.take len2))

/-- Whether a 64-bit pattern is an IEEE-754 double NaN: exponent all ones
and a nonzero mantissa. -/
def isNaN64 (v : Nat) : Bool :=
  v / 2 ^ 52 % 2 ^ 11 == 0x7ff && v % 2 ^ 52 != 0

/-- Order key of a non-NaN double bit pattern: sign bit gives the sign, and
for a fixed sign the remaining 63 bits are monotone in the absolute value
(IEEE-754 exponent-then-mantissa layout), with both zeros mapping to 0.
Comparing these integers is comparing the doubles. -/
def doubleKey (v : Nat) : Int :=
  if v / 2 ^ 63 = 1 then -((v % 2 ^ 63 : Nat) : Int) else ((v % 2 ^ 63 : Nat) : Int)

/-- Go cmp.Compare on two float64 bit patterns: NaN sorts before everything
else and equals NaN; otherwise numeric comparison via doubleKey. -/
def floatCmp (x y : Nat) : Int :=
  if isNaN64 x then (if isNaN64 y then 0 else -1)
  else if isNaN64 y then 1
  else intCmp (doubleKey x) (doubleKey y)

/-- Go indexeddb.compareDouble: 8 little-endian (native on the supported
targets) bytes on each side reinterpreted as float64 and compared. -/
def compareDouble (a b : List Nat) : Except Unit (List Nat × List Nat × Int) :=
  if a.length < 8 ∨ b.length < 8 then .error ()
  else .ok (a.drop 8, b.drop 8, floatCmp (leNat (a.take 8)) (leNat (b.take 8)))

/-- Go indexeddb.keyTypeByteToKeyType: rank of an encoded-value type tag,
unknown tags ranking with null as invalid. -/
def keyTypeByteToKeyType (b : Nat) : Nat :=
  if b = 0 then 0
  else if b = 4 then 1
  else if b = 6 then 2
  else if b = 1 then 3
  else if b = 2 then 4
  else if b = 3 then 5
  else if b = 5 then 7
  else 0

mutual

/-- Go indexeddb.compareEncodedIDBKeys with explicit recursion fuel: none
signals exhausted fuel, which the wrapper's fuel choice never reaches. On
nonempty inputs the type-tag ranks are compared first; on a rank tie the
dispatch follows the first argument's tag byte. -/
def cmpIDBKeys : Nat → List Nat → List Nat → Option (Except Unit (List Nat × List Nat × Int))
  | 0, _, _ => none
  | f + 1, a, b =>
    match a, b with
    | x :: a1, y :: b1 =>
      let ret := natCmp (keyTypeByteToKeyType x) (keyTypeByteToKeyType y)
      if ret ≠ 0 then some (.ok (a1, b1, ret))
      else if x = 0 ∨ x = 5 then some (.ok (a1, b1, 0))
      else if x = 4 then
        if a1.length = 0 ∨ b1.length = 0 then some (.ok (a1, b1, natCmp a1.length b1.length))
        else
          match decodeVarInt a1, decodeVarInt b1 with
          | .ok (a2, len1), .ok (b2, len2) =>
            match cmpIDBLoop f (min len1 len2) a2 b2 with
            | none => none
            | some (.error e) => some (.error e)
            | some (.ok (a3, b3, some r)) => some (.ok (a3, b3, r))
            | some (.ok (a3, b3, none)) => some (.ok (a3, b3, natCmp len1 len2))
          | _, _ => some (.error ())
      else if x = 6 then
        if a1.length = 0 ∨ b1.length = 0 then some (.ok (a1, b1, natCmp a1.length b1.length))
        else some (compareBinary a1 b1)
      else if x = 1 then
        if a1.length = 0 ∨ b1.length = 0 then some (.ok (a1, b1, natCmp a1.length b1.length))
        else some (compareStringWithLength a1 b1)
      else if x = 2 ∨ x = 3 then
        if a1.length = 0 ∨ b1.length = 0 then some (.ok (a1, b1, natCmp a1.length b1.length))
        else some (compareDouble a1 b1)
      else some (.error ())
    | a, b => some (.ok (a, b, natCmp a.length b.length))

/-- Loop of the array case of Go compareEncodedIDBKeys: up to n element
comparisons; some r in the result signals an early nonzero return, none that
the loop ended (by count or by an empty side). -/
def cmpIDBLoop : Nat → Nat → List Nat → List Nat → Option (Except Unit (List Nat × List Nat × Option Int))
  | 0, _, _, _ => none
  | _ + 1, 0, a, b => some (.ok (a, b, none))
  | f + 1, n + 1, a, b =>
    if a.length = 0 ∨ b.length = 0 then some (.ok (a, b, none))
    else
      match cmpIDBKeys f a b with
      | none => none
      | some (.error e) => some (.error e)
      | some (.ok (a1, b1, r)) =>
        if r ≠ 0 then some (.ok (a1, b1, some r)) else cmpIDBLoop f n a1 b1

end

/-- Go indexeddb.compareEncodedIDBKeys: the fuel below always suffices
(lemma cmpIDBKeys_isSome), so the default is never taken. -/
def compareEncodedIDBKeys (a b : List Nat) : Except Unit (List Nat × List Nat × Int) :=
  (cmpIDBKeys (a.length + b.length + 1) a b).getD (.error ())

/-- Go indexeddb.keyPrefix: the decoded (databaseId, objectStoreId, indexId)
triple of int64 values. -/
structure KeyPrefix where
  databaseId : Int
  objectStoreId : Int
  indexId : Int
deriving DecidableEq

/-- Go keyPrefix.Type, with the source's constants inlined: 0 globalMetadata,
1 databaseMetadata, 2 objectStoreData, 3 existsEntry, 6 blobEntry,
4 indexData, 5 invalidType. -/
def KeyPrefix.type (p : KeyPrefix) : Nat :=
  if p.databaseId = 0 then 0
  else if p.objectStoreId = 0 then 1
  else if p.indexId = 1 then 2
  else if p.indexId = 2 then 3
  else if p.indexId = 3 then 6
  else if p.indexId ≥ 30 then 4
  else 5

/-- Go indexeddb.decodeKeyPrefix: a header byte packs the three field widths
(bits 7-5, 4-2, 1-0, each width minus one), then the three little-endian
fields follow; too few bytes panic. -/
def decodeKeyPrefix : List Nat → Except Unit (List Nat × KeyPrefix)
  | [] => .error ()
  | firstByte :: a =>
    let dbBytes := firstByte / 32 % 8 + 1
    let osBytes := firstByte / 4 % 8 + 1
    let idxBytes := firstByte % 4 + 1
    if a.length < dbBytes + osBytes + idxBytes then .error ()
    else
      match decodeInt (a.take dbBytes) with
      | .error e => .error e
      | .ok databaseId =>
        match decodeInt ((a.drop dbBytes).take osBytes) with
        | .error e => .error e
        | .ok objectStoreId =>
          match decodeInt (((a.drop dbBytes).drop osBytes).take idxBytes) with
          | .error e => .error e
          | .ok indexId =>
            .ok (((a.drop dbBytes).drop osBytes).drop idxBytes,
              ⟨databaseId, objectStoreId, indexId⟩)

/-- Go indexeddb.compareKeyPrefix: lexicographic on the three id fields. -/
def compareKeyPrefix (p q : KeyPrefix) : Int :=
  if intCmp p.databaseId q.databaseId ≠ 0 then intCmp p.databaseId q.databaseId
  else if intCmp p.objectStoreId q.objectStoreId ≠ 0 then intCmp p.objectStoreId q.objectStoreId
  else intCmp p.indexId q.indexId

/-- Payload grammar shared by the databaseFreeList (global, 100) and
objectStoreFreeList (database, 150) discriminators of Go idbCmp1.Compare:
one varint id on each side, rests ignored. -/
def oneVarIntCmp (a1 b1 : List Nat) : Except Unit Int :=
  if a1.length = 0 ∨ b1.length = 0 then .ok (natCmp a1.length b1.length)
  else
    match decodeVarInt a1, decodeVarInt b1 with
    | .ok (_, ia), .ok (_, ib) => .ok (natCmp ia ib)
    | _, _ => .error ()

/-- Payload grammar of the databaseName discriminator (global, 201) of
Go idbCmp1.Compare: origin string, then database name string. -/
def twoStringCmp (a1 b1 : List Nat) : Except Unit Int :=
  if a1.length = 0 ∨ b1.length = 0 then .ok (natCmp a1.length b1.length)
  else
    match compareStringWithLength a1 b1 with
    | .error e => .error e
    | .ok (a2, b2, r) =>
      if r ≠ 0 then .ok r
      else if a2.length = 0 ∨ b2.length = 0 then .ok (natCmp a2.length b2.length)
      else
        match compareStringWithLength a2 b2 with
        | .error e => .error e
        | .ok (_, _, r2) => .ok r2

/-- Payload grammar of the objectStoreMetaData discriminator (database, 50)
of Go idbCmp1.Compare: varint objectStoreId, then one metadata type byte. -/
def varIntByteCmp (a1 b1 : List Nat) : Except Unit Int :=
  if a1.length = 0 ∨ b1.length = 0 then .ok (natCmp a1.length b1.length)
  else
    match decodeVarInt a1, decodeVarInt b1 with
    | .ok (a2, ia), .ok (b2, ib) =>
      if natCmp ia ib ≠ 0 then .ok (natCmp ia ib)
      else if a2.length = 0 ∨ b2.length = 0 then .ok (natCmp a2.length b2.length)
      else .ok (natCmp (a2.headD 0) (b2.headD 0))
    | _, _ => .error ()

/-- Payload grammar of the indexMetaData discriminator (database, 100) of
Go idbCmp1.Compare: varint objectStoreId, varint indexId, one type byte. -/
def twoVarIntByteCmp (a1 b1 : List Nat) : Except Unit Int :=
  if a1.length = 0 ∨ b1.length = 0 then .ok (natCmp a1.length b1.length)
  else
    match decodeVarInt a1, decodeVarInt b1 with
    | .ok (a2, ia), .ok (b2, ib) =>
      if natCmp ia ib ≠ 0 then .ok (natCmp ia ib)
      else varIntByteCmp a2 b2
    | _, _ => .error ()

/-- Payload grammar of the indexFreeList discriminator (database, 151) of
Go idbCmp1.Compare: varint objectStoreId, then varint indexId, rests
ignored. -/
def twoVarIntCmp (a1 b1 : List Nat) : Except Unit Int :=
  if a1.length = 0 ∨ b1.length = 0 then .ok (natCmp a1.length b1.length)
  else
    match decodeVarInt a1, decodeVarInt b1 with
    | .ok (a2, ia), .ok (b2, ib) =>
      if natCmp ia ib ≠ 0 then .ok (natCmp ia ib)
      else oneVarIntCmp a2 b2
    | _, _ => .error ()

/-- Payload grammar of the objectStoreNames discriminator (database, 200)
of Go idbCmp1.Compare: one string, rests ignored. -/
def oneStringCmp (a1 b1 : List Nat) : Except Unit Int :=
  if a1.length = 0 ∨ b1.length = 0 then .ok (natCmp a1.length b1.length)
  else
    match compareStringWithLength a1 b1 with
    | .error e => .error e
    | .ok (_, _, r) => .ok r

/-- Payload grammar of the indexNames discriminator (database, 201) of
Go idbCmp1.Compare: varint objectStoreId, then one string. -/
def varIntStringCmp (a1 b1 : List Nat) : Except Unit Int :=
  if a1.length = 0 ∨ b1.length = 0 then .ok (natCmp a1.length b1.length)
  else
    match decodeVarInt a1, decodeVarInt b1 with
    | .ok (a2, ia), .ok (b2, ib) =>
      if natCmp ia ib ≠ 0 then .ok (natCmp ia ib)
      else oneStringCmp a2 b2
    | _, _ => .error ()

/-- Body comparison of the globalMetadata case of Go idbCmp1.Compare: a
discriminator byte, then per-discriminator payload grammars (50 scopes,
100 database free list, 201 database name); unknown discriminators at or
above 7 panic. The helper defs above carry the inline payload code of the
source, split one discriminator per definition. -/
def globalMetaCmp (a b : List Nat) : Except Unit Int :=
  match a, b with
  | x :: a1, y :: b1 =>
    if x ≠ y then .ok (natCmp x y)
    else if x < 7 then .ok 0
    else if x = 50 then .ok (bytesCmp a1 b1)
    else if x = 100 then oneVarIntCmp a1 b1
    else if x = 201 then twoStringCmp a1 b1
    else .error ()
  | a, b => .ok (natCmp a.length b.length)

/-- Body comparison of the databaseMetadata case of Go idbCmp1.Compare: a
discriminator byte, then per-discriminator payload grammars (50 object
store metadata, 100 index metadata, 150 object store free list, 151 index
free list, 200 object store names, 201 index names); unknown discriminators
at or above 6 panic. -/
def databaseMetaCmp (a b : List Nat) : Except Unit Int :=
  match a, b with
  | x :: a1, y :: b1 =>
    if x ≠ y then .ok (natCmp x y)
    else if x < 6 then .ok 0
    else if x = 50 then varIntByteCmp a1 b1
    else if x = 100 then twoVarIntByteCmp a1 b1
    else if x = 150 then oneVarIntCmp a1 b1
    else if x = 151 then twoVarIntCmp a1 b1
    else if x = 200 then oneStringCmp a1 b1
    else if x = 201 then varIntStringCmp a1 b1
    else .error ()
  | a, b => .ok (natCmp a.length b.length)

/-- Go idbCmp1.Compare without its recover wrapper: Except models the panic.
The kind dispatch follows keyPrefix.Type of the (equal) decoded prefixes;
index-data keys compare the encoded key, then optional sequence numbers
(absent reads as -1), then the primary key, then the sequence numbers. -/
def CompareE (a0 b0 : List Nat) : Except Unit Int :=
  match decodeKeyPrefix a0 with
  | .error e => .error e
  | .ok (a, prefixA) =>
    match decodeKeyPrefix b0 with
    | .error e => .error e
    | .ok (b, prefixB) =>
      if compareKeyPrefix prefixA prefixB ≠ 0 then .ok (compareKeyPrefix prefixA prefixB)
      else if prefixA.type = 0 then globalMetaCmp a b
      else if prefixA.type = 1 then databaseMetaCmp a b
      else if prefixA.type = 2 ∨ prefixA.type = 3 ∨ prefixA.type = 6 then
        match compareEncodedIDBKeys a b with
        | .error e => .error e
        | .ok (_, _, r) => .ok r
      else if prefixA.type = 4 then
        match compareEncodedIDBKeys a b with
        | .error e => .error e
        | .ok (a1, b1, r) =>
          if r ≠ 0 then .ok r
          else
            match (if a1.length > 0 then
                (decodeVarInt a1).map (fun p => (p.1, (p.2 : Int)))
              else .ok (a1, (-1 : Int))) with
            | .error e => .error e
            | .ok (a2, sa) =>
              match (if b1.length > 0 then
                  (decodeVarInt b1).map (fun p => (p.1, (p.2 : Int)))
                else .ok (b1, (-1 : Int))) with
              | .error e => .error e
              | .ok (b2, sb) =>
                if a2.length = 0 ∨ b2.length = 0 then .ok (natCmp a2.length b2.length)
                else
                  match compareEncodedIDBKeys a2 b2 with
                  | .error e => .error e
                  | .ok (_, _, r2) =>
                    if r2 ≠ 0 then .ok r2 else .ok (intCmp sa sb)
      else .error ()

/-- Go idbCmp1.Compare: the deferred recover catches every panic, logs, and
lets the function return its zero value 0. -/
def Compare (a b : List Nat) : Int :=
  match CompareE a b with
  | .ok r => r
  | .error _ => 0

/-- Go indexeddb.succBytes: increment the last byte below 0xFF and drop what
follows it; the empty result plays the role of Go's nil (no successor: the
input was empty or all 0xFF bytes). -/
def succBytes : List Nat → List Nat
  | [] => []
  | x :: xs =>
    match succBytes xs with
    | [] => if x < 255 then [x + 1] else []
    | s => x :: s

/-- Go indexeddb.validVarInt: one of the first 9 bytes has a clear
continuation bit. -/
def validVarInt (p : List Nat) : Bool :=
  (p.take 9).any (fun x => x % 256 < 128)

/-- Go indexeddb.encodeVarInt for values in [0, 2^63): little-endian 7-bit
groups with a continuation bit. Every call site passes a value below 2^63,
which fits the Go 9-group bound, so the out-of-range panic is unreachable. -/
def encodeVarInt (v : Nat) : List Nat :=
  if v < 128 then [v] else (v % 128 + 128) :: encodeVarInt (v / 128)

/-- Loop of Go prefixVarInt: scans groups accumulating the known low bits v
at group index i; returns (minv, maxv, rest) as after the loop and the two
or-with-v assignments, with none for the invalid 9-continuation-bytes case.
On exhausted input minv gains the continuation bit of the last group read
and maxv keeps the untouched high bits of MaxInt64; the ors with v land in
disjoint bit ranges and are written as sums. -/
def pvCore : List Nat → Nat → Nat → Option (Nat × Nat × List Nat)
  | [], i, v => some ((if i = 0 then 0 else 2 ^ (7 * i)) + v, 2 ^ 63 - 2 ^ (7 * i) + v, [])
  | x :: xs, i, v =>
    let v := v + x % 128 * 2 ^ (7 * i)
    if x % 256 < 128 then some (v, v, xs)
    else if i = 8 then none
    else pvCore xs (i + 1) v

/-- Descriptors for the Go prefixComponent closures: each constructor names
the Go function that the source ever places in a nexts list. -/
inductive PComp where
  | pByte
  | pVarInt
  | pBinary
  | pStringWithLength
  | pDouble
  | pIDBKeys
deriving DecidableEq

theorem pvCore_rest (p : List Nat) (i v : Nat) :
    ∀ mn mx rest, pvCore p i v = some (mn, mx, rest) → rest.length < p.length ∨ rest = [] := by
  induction p generalizing i v with
  | nil =>
    intro mn mx rest h
    simp [pvCore] at h
    simp [h.2.2.symm]
  | cons x xs ih =>
    intro mn mx rest h
    simp only [pvCore] at h
    split at h
    · simp at h
      obtain ⟨-, -, hrest⟩ := h
      subst hrest
      simp [Nat.lt_succ_of_le]
    · split at h
      · simp at h
      · rcases ih _ _ _ _ _ h with h1 | h1
        · exact Or.inl (Nat.lt_succ_of_lt h1)
        · exact Or.inr h1

theorem decodeVarIntAux_rest (a : List Nat) (i v : Nat) :
    ∀ rest w, decodeVarIntAux a i v = .ok (rest, w) → rest.length < a.length := by
  induction a generalizing i v with
  | nil => intro rest w h; simp [decodeVarIntAux] at h
  | cons x xs ih =>
    intro rest w h
    simp only [decodeVarIntAux] at h
    split at h
    · simp at h
    · split at h
      · simp at h
        simp [h.1.symm, Nat.lt_succ_of_le]
      · exact Nat.lt_succ_of_lt (ih _ _ _ _ h)

theorem decodeVarInt_rest (a rest : List Nat) (w : Nat)
    (h : decodeVarInt a = .ok (rest, w)) : rest.length < a.length :=
  decodeVarIntAux_rest a 0 0 rest w h

mutual

/-- Go prefixByte: one literal byte, then the next component on the rest;
with no deeper limit the limit is the incremented byte (or absent at 0xFF).
Every call site passes a nonempty prefix, so the empty case is unreachable
(Go would panic reading prefix[0]). -/
def prefixByte (p : List Nat) (nexts : List PComp) : List Nat × List Nat :=
  match p with
  | [] => ([], [])
  | x :: t =>
    let tails :=
      if h : t ≠ [] ∧ nexts ≠ [] then runComp (nexts.head h.2) t nexts.tail else ([], [])
    if tails.2 ≠ [] then (x :: tails.1, x :: tails.2)
    else if x < 255 then (x :: tails.1, [x + 1])
    else (x :: tails.1, [])
termination_by (p.length, 1)
decreasing_by
  apply Prod.Lex.left
  simp <;> omega

/-- Go prefixVarInt: bracket the partially read varint between minv and maxv;
with no deeper limit the limit encodes maxv + 1 (absent at MaxInt64). -/
def prefixVarInt (p : List Nat) (nexts : List PComp) : List Nat × List Nat :=
  match hpv : pvCore p 0 0 with
  | none => ([], [])
  | some (minv, maxv, rest) =>
    let tails :=
      if h : rest ≠ [] ∧ nexts ≠ [] then runComp (nexts.head h.2) rest nexts.tail else ([], [])
    let start := encodeVarInt minv
    if tails.2 ≠ [] then (start ++ tails.1, start ++ tails.2)
    else if maxv < 2 ^ 63 - 1 then (start ++ tails.1, encodeVarInt (maxv + 1))
    else (start ++ tails.1, [])
termination_by (p.length, 0)
decreasing_by
  apply Prod.Lex.left
  rcases pvCore_rest _ _ _ _ _ _ hpv with h1 | h1
  · exact h1
  · exact absurd h1 h.1

/-- Go prefixBinary: varint length then payload; a complete payload recurses
past it, a truncated one takes the successor of the available payload, and
failing that the length itself is incremented. An invalid length varint
falls back to prefixVarInt without the queue. -/
def prefixBinary (p : List Nat) (nexts : List PComp) : List Nat × List Nat :=
  if validVarInt p = false then prefixVarInt p []
  else
    match hdv : decodeVarInt p with
    | .error _ => ([], [])
    | .ok (p1, length) =>
      let body := if p1.length > length then p1.take length else p1
      let tails :=
        if h : p1.length > length ∧ nexts ≠ [] then
          runComp (nexts.head h.2) (p1.drop length) nexts.tail
        else ([], [])
      let start := encodeVarInt length
      if tails.2 ≠ [] then (start ++ body ++ tails.1, start ++ body ++ tails.2)
      else
        match succBytes body with
        | [] =>
          if length < 2 ^ 63 - 1 then (start ++ body ++ tails.1, encodeVarInt (length + 1))
          else (start ++ body ++ tails.1, [])
        | s => (start ++ body ++ tails.1, start ++ s)
termination_by (p.length, 1)
decreasing_by
  · apply Prod.Lex.right
    omega
  · apply Prod.Lex.left
    have := decodeVarInt_rest _ _ _ hdv
    simp <;> omega

/-- Go prefixStringWithLength: as prefixBinary with a character count and a
payload of twice that many bytes. -/
def prefixStringWithLength (p : List Nat) (nexts : List PComp) : List Nat × List Nat :=
  if validVarInt p = false then prefixVarInt p []
  else
    match hdv : decodeVarInt p with
    | .error _ => ([], [])
    | .ok (p1, v) =>
      let length := 2 * v
      let body := if p1.length > length then p1.take length else p1
      let tails :=
        if h : p1.length > length ∧ nexts ≠ [] then
          runComp (nexts.head h.2) (p1.drop length) nexts.tail
        else ([], [])
      let start := encodeVarInt v
      if tails.2 ≠ [] then (start ++ body ++ tails.1, start ++ body ++ tails.2)
      else
        match succBytes body with
        | [] =>
          if v < 2 ^ 63 - 1 then (start ++ body ++ tails.1, encodeVarInt (v + 1))
          else (start ++ body ++ tails.1, [])
        | s => (start ++ body ++ tails.1, start ++ s)
termination_by (p.length, 1)
decreasing_by
  · apply Prod.Lex.right
    omega
  · apply Prod.Lex.left
    have := decodeVarInt_rest _ _ _ hdv
    simp <;> omega

/-- Go prefixDouble: eight literal bytes; a double contributes no limit of
its own. -/
def prefixDouble (p : List Nat) (nexts : List PComp) : List Nat × List Nat :=
  if p.length < 8 then ([], [])
  else
    let body := p.take 8
    let tails :=
      if h : p.length > 8 ∧ nexts ≠ [] then runComp (nexts.head h.2) (p.drop 8) nexts.tail
      else ([], [])
    if tails.2 ≠ [] then (body ++ tails.1, body ++ tails.2)
    else (body ++ tails.1, [])
termination_by (p.length, 1)
decreasing_by
  apply Prod.Lex.left
  simp <;> omega

/-- Go prefixEncodedIDBKeys: dispatch on the type tag; each case owns the
tag byte as start and the next tag in rank order as fallback limit (none
after min-key). An array expands its element count into that many pIDBKeys
components in front of the queue. Unknown tags return the nil pair, which
the shared final combination reproduces here with empty start and limit.
Every call site passes a nonempty prefix, so the empty case is unreachable. -/
def prefixEncodedIDBKeys (p : List Nat) (nexts : List PComp) : List Nat × List Nat :=
  match p with
  | [] => ([], [])
  | typeByte :: t =>
    let parts : List Nat × List Nat × List Nat × List Nat :=
      if typeByte = 0 then
        let tails :=
          if h : t ≠ [] ∧ nexts ≠ [] then runComp (nexts.head h.2) t nexts.tail else ([], [])
        ([0], [4], tails.1, tails.2)
      else if typeByte = 4 then
        let tails :=
          if t = [] then ([], [])
          else if validVarInt t = false then prefixVarInt t []
          else
            match decodeVarInt t with
            | .error _ => ([], [])
            | .ok (_, length) => prefixVarInt t (List.replicate length .pIDBKeys ++ nexts)
        ([4], [6], tails.1, tails.2)
      else if typeByte = 6 then
        let tails := if t ≠ [] then prefixBinary t nexts else ([], [])
        ([6], [1], tails.1, tails.2)
      else if typeByte = 1 then
        let tails := if t ≠ [] then prefixStringWithLength t nexts else ([], [])
        ([1], [2], tails.1, tails.2)
      else if typeByte = 2 then
        let tails := if t ≠ [] then prefixDouble t nexts else ([], [])
        ([2], [3], tails.1, tails.2)
      else if typeByte = 3 then
        let tails := if t ≠ [] then prefixDouble t nexts else ([], [])
        ([3], [5], tails.1, tails.2)
      else if typeByte = 5 then
        let tails :=
          if h : t ≠ [] ∧ nexts ≠ [] then runComp (nexts.head h.2) t nexts.tail else ([], [])
        ([5], [], tails.1, tails.2)
      else ([], [], [], [])
    match parts with
    | (start, limit, startTail, limitTail) =>
      if limitTail ≠ [] then (start ++ startTail, start ++ limitTail)
      else (start ++ startTail, limit)
termination_by (p.length, 1)
decreasing_by
  all_goals first
    | (apply Prod.Lex.left; simp <;> omega)
    | (apply Prod.Lex.right; omega)

/-- Dispatch of a PComp descriptor to its Go function: the source call
nexts[0](rest, nexts[1:]...) becomes runComp on the head of the queue. -/
def runComp (c : PComp) (p : List Nat) (q : List PComp) : List Nat × List Nat :=
  match c with
  | .pByte => prefixByte p q
  | .pVarInt => prefixVarInt p q
  | .pBinary => prefixBinary p q
  | .pStringWithLength => prefixStringWithLength p q
  | .pDouble => prefixDouble p q
  | .pIDBKeys => prefixEncodedIDBKeys p q
termination_by (p.length, 2)
decreasing_by
  all_goals apply Prod.Lex.right
  all_goals omega

end

/-- Go prefixKeyBody: choose the body grammar from the record kind and the
discriminator byte. Every call site passes a nonempty prefix, so the empty
case is unreachable (Go would panic reading prefix[0]). -/
def prefixKeyBody (p : List Nat) (k : KeyPrefix) : List Nat × List Nat :=
  match p with
  | [] => ([], [])
  | d :: _ =>
    if k.type = 0 then
      if d = 50 then (p, succBytes p)
      else if d = 100 then prefixByte p [.pVarInt]
      else if d = 201 then prefixByte p [.pStringWithLength, .pStringWithLength]
      else prefixByte p []
    else if k.type = 1 then
      if d = 50 then prefixByte p [.pVarInt, .pByte]
      else if d = 100 then prefixByte p [.pVarInt, .pVarInt, .pByte]
      else if d = 150 then prefixByte p [.pVarInt]
      else if d = 151 then prefixByte p [.pVarInt, .pVarInt]
      else if d = 200 then prefixByte p [.pStringWithLength]
      else if d = 201 then prefixByte p [.pVarInt, .pStringWithLength]
      else prefixByte p []
    else if k.type = 2 ∨ k.type = 3 ∨ k.type = 6 ∨ k.type = 4 then
      prefixEncodedIDBKeys p []
    else ([], [])

/-- Bit length of a value below 2^64, as Go bits.Len64 (and bits.Len32 on
values below 2^32); the fuel only bounds the recursion. -/
def bitLenAux : Nat → Nat → Nat
  | 0, _ => 0
  | fuel + 1, v => if v = 0 then 0 else bitLenAux fuel (v / 2) + 1

def bitLen (v : Nat) : Nat := bitLenAux 64 v

/-- Low w bytes of a value, little-endian: Go binary.LittleEndian.PutUint64
(or PutUint32) followed by taking the first w buffer bytes. -/
def leBytes : Nat → Nat → List Nat
  | 0, _ => []
  | w + 1, v => v % 256 :: leBytes w (v / 256)

/-- Go indexeddb.encodeKeyPrefix on a non-nil receiver: minimal field widths
from the bit lengths (indexId truncated through uint32, databaseId and
objectStoreId through uint64), then the header byte and the three
little-endian fields. -/
def encodeKeyPrefix (k : KeyPrefix) : List Nat :=
  let dbu := (k.databaseId % 2 ^ 64).toNat
  let osu := (k.objectStoreId % 2 ^ 64).toNat
  let idxu := (k.indexId % 2 ^ 32).toNat
  let dbBytes := max ((bitLen dbu + 7) / 8) 1
  let osBytes := max ((bitLen osu + 7) / 8) 1
  let idxBytes := max ((bitLen idxu + 7) / 8) 1
  ((dbBytes - 1) * 32 + (osBytes - 1) * 4 + (idxBytes - 1)) ::
    (leBytes dbBytes dbu ++ leBytes osBytes osu ++ leBytes idxBytes idxu)

/-- Go encodeKeyPrefix including its nil case: nil in, nil out. -/
def encodeKeyPrefixO : Option KeyPrefix → List Nat
  | none => []
  | some k => encodeKeyPrefix k

/-- Go indexeddb.succKeyPrefix: increment indexId below MaxUint32, else
carry into objectStoreId and then databaseId below MaxInt64; none once all
three are at their maxima. -/
def succKeyPrefix (k : KeyPrefix) : Option KeyPrefix :=
  if k.indexId < 2 ^ 32 - 1 then some ⟨k.databaseId, k.objectStoreId, k.indexId + 1⟩
  else if k.objectStoreId < 2 ^ 63 - 1 then some ⟨k.databaseId, k.objectStoreId + 1, 0⟩
  else if k.databaseId < 2 ^ 63 - 1 then some ⟨k.databaseId + 1, 0, 0⟩
  else none

/-- Go prefixPartialKeyPrefix: a prefix too short for its own header widths.
Fully present fields pin both bounds; a partially present field keeps its
known low bytes and brackets the missing high bytes (the or with the known
value v always lands in cleared low bits and is written as addition; the
and-not with the low mask is division and multiplication by its power of
two). The empty case is unreachable (the caller read p[0] already). -/
def prefixPartialKeyPrefix (p : List Nat) : List Nat × List Nat :=
  match p with
  | [] => ([], [])
  | h :: t =>
    let dbBytes := h / 32 % 8 + 1
    let osBytes := h / 4 % 8 + 1
    let idxBytes := h % 4 + 1
    let dbStep : Int × Int × List Nat :=
      if t.length ≥ dbBytes then
        (toInt64 (leNat (t.take dbBytes)), toInt64 (leNat (t.take dbBytes)), t.drop dbBytes)
      else
        let lo : Nat := if dbBytes > 1 then 2 ^ (8 * (dbBytes - 1)) else 0
        let hi : Nat := if dbBytes < 8 then 2 ^ (8 * dbBytes) - 1 else 2 ^ 63 - 1
        if t.length > 0 then
          let v := leNat t
          ((lo + v : Nat), (hi / 2 ^ (8 * t.length) * 2 ^ (8 * t.length) + v : Nat), [])
        else ((lo : Nat), (hi : Nat), [])
    let t1 := dbStep.2.2
    let osStep : Int × Int × List Nat :=
      if t1.length ≥ osBytes then
        (toInt64 (leNat (t1.take osBytes)), toInt64 (leNat (t1.take osBytes)), t1.drop osBytes)
      else
        let lo : Nat := if osBytes > 1 then 2 ^ (8 * (osBytes - 1)) else 0
        let hi : Nat := if osBytes < 8 then 2 ^ (8 * osBytes) - 1 else 2 ^ 63 - 1
        if t1.length > 0 then
          let v := leNat t1
          ((lo + v : Nat), (hi / 2 ^ (8 * t1.length) * 2 ^ (8 * t1.length) + v : Nat), [])
        else ((lo : Nat), (hi : Nat), [])
    let t2 := osStep.2.2
    let idxLo : Nat := if idxBytes > 1 then 2 ^ (8 * (idxBytes - 1)) else 0
    let idxHi : Nat := 2 ^ (8 * idxBytes) - 1
    let idxStep : Int × Int :=
      if t2.length > 0 then
        let v := leNat t2
        ((idxLo + v : Nat), (idxHi / 2 ^ (8 * t2.length) * 2 ^ (8 * t2.length) + v : Nat))
      else ((idxLo : Nat), (idxHi : Nat))
    (encodeKeyPrefix ⟨dbStep.1, osStep.1, idxStep.1⟩,
      encodeKeyPrefixO (succKeyPrefix ⟨dbStep.2.1, osStep.2.1, idxStep.2⟩))

/-- Go prefixKeyPrefix: a complete key prefix recurses into the body grammar
and falls back to the successor key prefix for the limit; an incomplete one
goes to the partial-bracket path. The empty case is unreachable (Prefix
rejects the empty input first; Go would panic reading prefix[0]), and the
decode cannot fail after the length test. -/
def prefixKeyPrefix (p : List Nat) : List Nat × List Nat :=
  match p with
  | [] => ([], [])
  | h :: _ =>
    let dbBytes := h / 32 % 8 + 1
    let osBytes := h / 4 % 8 + 1
    let idxBytes := h % 4 + 1
    if p.length < 1 + dbBytes + osBytes + idxBytes then prefixPartialKeyPrefix p
    else
      match decodeKeyPrefix p with
      | .error _ => ([], [])
      | .ok (rest, kp) =>
        let tails := if rest.length > 0 then prefixKeyBody rest kp else ([], [])
        let start := encodeKeyPrefix kp
        if tails.2 ≠ [] then (start ++ tails.1, start ++ tails.2)
        else (start ++ tails.1, encodeKeyPrefixO (succKeyPrefix kp))

/-- Go util.Range as Prefix builds it: Limit is empty when the range is
unbounded above (Go leaves the field nil). -/
structure GoRange where
  Start : List Nat
  Limit : List Nat
deriving DecidableEq

/-- Go indexeddb.Prefix: none for the empty input (Go returns a nil range,
read as no restriction); otherwise the computed start and limit. -/
def Prefix (p : List Nat) : Option GoRange :=
  if p = [] then none
  else
    let r := prefixKeyPrefix p
    some ⟨r.1, r.2⟩

/-- Whether every element of a list is a byte value. -/
def isBytes (l : List Nat) : Prop := ∀ x ∈ l, x < 256

/-- The three values a Go three-way comparison can return. -/
def isOrd (r : Int) : Prop := r = -1 ∨ r = 0 ∨ r = 1

theorem natCmp_isOrd (x y : Nat) : isOrd (natCmp x y) := by
  unfold natCmp isOrd
  split
  · simp
  · split <;> simp

theorem intCmp_isOrd (x y : Int) : isOrd (intCmp x y) := by
  unfold intCmp isOrd
  split
  · simp
  · split <;> simp

theorem bytesCmp_isOrd (a b : List Nat) : isOrd (bytesCmp a b) := by
  induction a generalizing b with
  | nil => cases b <;> simp [bytesCmp, isOrd]
  | cons x xs ih =>
    cases b with
    | nil => simp [bytesCmp, isOrd]
    | cons y ys =>
      simp only [bytesCmp]
      split
      · simp [isOrd]
      · split
        · simp [isOrd]
        · exact ih ys

theorem floatCmp_isOrd (x y : Nat) : isOrd (floatCmp x y) := by
  unfold floatCmp
  split
  · split <;> simp [isOrd]
  · split
    · simp [isOrd]
    · exact intCmp_isOrd _ _

theorem natCmp_self (x : Nat) : natCmp x x = 0 := by simp [natCmp]

theorem intCmp_self (x : Int) : intCmp x x = 0 := by simp [intCmp]

theorem bytesCmp_self (a : List Nat) : bytesCmp a a = 0 := by
  induction a with
  | nil => rfl
  | cons x xs ih => simp [bytesCmp, ih]

theorem floatCmp_self (x : Nat) : floatCmp x x = 0 := by
  unfold floatCmp
  split
  · simp
  · simp [intCmp_self]

theorem natCmp_swap (x y : Nat) : natCmp y x = -natCmp x y := by
  unfold natCmp
  split <;> split <;> omega

theorem intCmp_swap (x y : Int) : intCmp y x = -intCmp x y := by
  unfold intCmp
  split <;> split <;> omega

theorem bytesCmp_swap (a b : List Nat) : bytesCmp b a = -bytesCmp a b := by
  induction a generalizing b with
  | nil => cases b <;> simp [bytesCmp]
  | cons x xs ih =>
    cases b with
    | nil => simp [bytesCmp]
    | cons y ys =>
      simp only [bytesCmp]
      rcases Nat.lt_trichotomy x y with h | h | h
      · simp [h, Nat.lt_asymm h]
      · subst h
        simp [ih]
      · simp [h, Nat.lt_asymm h]

theorem isOrd_zero : isOrd 0 := Or.inr (Or.inl rfl)

theorem compareBinary_isOrd (a b x y : List Nat) (r : Int)
    (h : compareBinary a b = .ok (x, y, r)) : isOrd r := by
  unfold compareBinary at h
  split at h
  · simp at h
  · split at h
    · simp at h
    · dsimp only at h
      split at h
      · split at h
        · simp at h
          exact h.2.2 ▸ bytesCmp_isOrd _ _
        · simp at h
          exact h.2.2 ▸ natCmp_isOrd _ _
      · simp at h
        exact h.2.2 ▸ bytesCmp_isOrd _ _

theorem compareStringWithLength_isOrd (a b x y : List Nat) (r : Int)
    (h : compareStringWithLength a b = .ok (x, y, r)) : isOrd r := by
  unfold compareStringWithLength at h
  split at h
  · simp at h
  · split at h
    · simp at h
    · dsimp only at h
      split at h
      · split at h
        · simp at h
          exact h.2.2 ▸ bytesCmp_isOrd _ _
        · simp at h
          exact h.2.2 ▸ natCmp_isOrd _ _
      · simp at h
        exact h.2.2 ▸ bytesCmp_isOrd _ _

theorem compareDouble_isOrd (a b x y : List Nat) (r : Int)
    (h : compareDouble a b = .ok (x, y, r)) : isOrd r := by
  unfold compareDouble at h
  split at h
  · simp at h
  · simp at h
    exact h.2.2 ▸ floatCmp_isOrd _ _

theorem cmpIDB_isOrd (f : Nat) :
    (∀ a b x y r, cmpIDBKeys f a b = some (.ok (x, y, r)) → isOrd r) ∧
    (∀ n a b x y r, cmpIDBLoop f n a b = some (.ok (x, y, some r)) → isOrd r) := by
  induction f with
  | zero =>
    refine ⟨fun a b x y r h => ?_, fun n a b x y r h => ?_⟩ <;>
      simp [cmpIDBKeys, cmpIDBLoop] at h
  | succ f ih =>
    refine ⟨fun a b x y r h => ?_, fun n a b x y r h => ?_⟩
    · unfold cmpIDBKeys at h
      split at h
      next xa a1 yb b1 =>
        dsimp only at h
        repeat' split at h
        all_goals try simp at h
        all_goals try (exact h.2.2 ▸ natCmp_isOrd _ _)
        all_goals try (exact h.2.2 ▸ isOrd_zero)
        all_goals try (exact compareBinary_isOrd _ _ _ _ _ h)
        all_goals try (exact compareStringWithLength_isOrd _ _ _ _ _ h)
        all_goals try (exact compareDouble_isOrd _ _ _ _ _ h)
        all_goals try (exact h.2.2 ▸ ih.2 _ _ _ _ _ _ (by assumption))
      next =>
        simp at h
        exact h.2.2 ▸ natCmp_isOrd _ _
    · cases n with
      | zero => simp [cmpIDBLoop] at h
      | succ n =>
        simp only [cmpIDBLoop] at h
        repeat' split at h
        all_goals try simp at h
        all_goals try (exact h.2.2 ▸ ih.1 _ _ _ _ _ (by assumption))
        all_goals try (exact ih.2 _ _ _ _ _ _ h)

theorem compareEncodedIDBKeys_isOrd (a b x y : List Nat) (r : Int)
    (h : compareEncodedIDBKeys a b = .ok (x, y, r)) : isOrd r := by
  unfold compareEncodedIDBKeys at h
  rcases h1 : cmpIDBKeys (a.length + b.length + 1) a b with - | e
  · rw [h1] at h
    simp at h
  · rw [h1] at h
    simp at h
    rw [h] at h1
    exact (cmpIDB_isOrd _).1 _ _ _ _ _ h1

theorem floatCmp_swap (x y : Nat) : floatCmp y x = -floatCmp x y := by
  unfold floatCmp
  by_cases hx : isNaN64 x = true <;> by_cases hy : isNaN64 y = true <;>
    simp only [hx, hy, if_true, if_false, Bool.false_eq_true, ite_true, ite_false] <;>
    first
      | simp
      | rw [intCmp_swap]


/-- Result transformation matching a swapped-argument comparison: rests
swap and the ordering negates. -/
def swapNeg : Except Unit (List Nat × List Nat × Int) → Except Unit (List Nat × List Nat × Int)
  | .error e => .error e
  | .ok (x, y, r) => .ok (y, x, -r)

theorem natCmp_eq_zero {x y : Nat} (h : natCmp x y = 0) : x = y := by
  unfold natCmp at h
  split at h
  · simp at h
  · split at h
    · simp at h
    · omega

theorem intCmp_eq_zero {x y : Int} (h : intCmp x y = 0) : x = y := by
  unfold intCmp at h
  split at h
  · simp at h
  · split at h
    · simp at h
    · omega

theorem compareBinary_swap (a b : List Nat) :
    compareBinary b a = swapNeg (compareBinary a b) := by
  unfold compareBinary
  rcases hda : decodeVarInt a with e | ⟨a1, len1⟩ <;>
    rcases hdb : decodeVarInt b with e2 | ⟨b1, len2⟩
  all_goals try rfl
  try dsimp only
  by_cases hc : a1.length < len1 ∨ b1.length < len2
  · rw [if_pos (Or.symm hc), if_pos hc]
    try dsimp only
    rw [Nat.min_comm len2 len1, Nat.min_comm b1.length a1.length,
      bytesCmp_swap (a1.take (min (min len1 len2) (min a1.length b1.length)))]
    by_cases hr : bytesCmp (a1.take (min (min len1 len2) (min a1.length b1.length)))
      (b1.take (min (min len1 len2) (min a1.length b1.length))) = 0
    · rw [hr]
      simp [natCmp_swap len1 len2, swapNeg]
    · rw [if_pos (by simpa using hr), if_pos (by simpa using hr)]
      simp [swapNeg]
  · rw [if_neg (fun hc2 => hc (Or.symm hc2)), if_neg hc]
    rw [bytesCmp_swap (a1.take len1)]
    simp [swapNeg]

theorem compareStringWithLength_swap (a b : List Nat) :
    compareStringWithLength b a = swapNeg (compareStringWithLength a b) := by
  unfold compareStringWithLength
  rcases hda : decodeVarInt a with e | ⟨a1, v1⟩ <;>
    rcases hdb : decodeVarInt b with e2 | ⟨b1, v2⟩
  all_goals try rfl
  try dsimp only
  by_cases hc : a1.length < 2 * v1 ∨ b1.length < 2 * v2
  · rw [if_pos (Or.symm hc), if_pos hc]
    try dsimp only
    rw [Nat.min_comm (2 * v2) (2 * v1), Nat.min_comm b1.length a1.length,
      bytesCmp_swap (a1.take (min (min (2 * v1) (2 * v2)) (min a1.length b1.length)))]
    by_cases hr : bytesCmp (a1.take (min (min (2 * v1) (2 * v2)) (min a1.length b1.length)))
      (b1.take (min (min (2 * v1) (2 * v2)) (min a1.length b1.length))) = 0
    · rw [hr]
      simp [natCmp_swap v1 v2, swapNeg]
    · rw [if_pos (by simpa using hr), if_pos (by simpa using hr)]
      simp [swapNeg]
  · rw [if_neg (fun hc2 => hc (Or.symm hc2)), if_neg hc]
    rw [bytesCmp_swap (a1.take (2 * v1))]
    simp [swapNeg]

theorem compareDouble_swap (a b : List Nat) :
    compareDouble b a = swapNeg (compareDouble a b) := by
  unfold compareDouble
  by_cases hc : a.length < 8 ∨ b.length < 8
  · rw [if_pos hc, if_pos (Or.symm hc)]
    rfl
  · rw [if_neg hc, if_neg (fun hc2 => hc (Or.symm hc2))]
    rw [floatCmp_swap]
    rfl

theorem rank_eq_four {y : Nat} (h : keyTypeByteToKeyType y = 1) : y = 4 := by
  unfold keyTypeByteToKeyType at h
  repeat' split at h
  all_goals omega

theorem rank_eq_six {y : Nat} (h : keyTypeByteToKeyType y = 2) : y = 6 := by
  unfold keyTypeByteToKeyType at h
  repeat' split at h
  all_goals omega

theorem rank_eq_one {y : Nat} (h : keyTypeByteToKeyType y = 3) : y = 1 := by
  unfold keyTypeByteToKeyType at h
  repeat' split at h
  all_goals omega

theorem rank_eq_two {y : Nat} (h : keyTypeByteToKeyType y = 4) : y = 2 := by
  unfold keyTypeByteToKeyType at h
  repeat' split at h
  all_goals omega

theorem rank_eq_three {y : Nat} (h : keyTypeByteToKeyType y = 5) : y = 3 := by
  unfold keyTypeByteToKeyType at h
  repeat' split at h
  all_goals omega

theorem rank_eq_five {y : Nat} (h : keyTypeByteToKeyType y = 7) : y = 5 := by
  unfold keyTypeByteToKeyType at h
  repeat' split at h
  all_goals omega

theorem rank_zero_ne {y : Nat} (h : keyTypeByteToKeyType y = 0) :
    y ≠ 1 ∧ y ≠ 2 ∧ y ≠ 3 ∧ y ≠ 4 ∧ y ≠ 5 ∧ y ≠ 6 := by
  unfold keyTypeByteToKeyType at h
  repeat' split at h
  all_goals omega

theorem cmpIDB_swap (f : Nat) :
    (∀ a b xa yb r yb2 xa2 r2, cmpIDBKeys f a b = some (.ok (xa, yb, r)) →
      cmpIDBKeys f b a = some (.ok (yb2, xa2, r2)) →
      yb2 = yb ∧ xa2 = xa ∧ r2 = -r) ∧
    (∀ n a b xa yb o yb2 xa2 o2, cmpIDBLoop f n a b = some (.ok (xa, yb, o)) →
      cmpIDBLoop f n b a = some (.ok (yb2, xa2, o2)) →
      yb2 = yb ∧ xa2 = xa ∧ o2 = o.map (fun v => -v)) := by
  induction f with
  | zero =>
    constructor
    · intro a b xa yb r yb2 xa2 r2 h1 h2
      simp [cmpIDBKeys] at h1
    · intro n a b xa yb o yb2 xa2 o2 h1 h2
      simp [cmpIDBLoop] at h1
  | succ f ih =>
    constructor
    · intro a b xa yb r yb2 xa2 r2 h1 h2
      rcases a with - | ⟨x, a1⟩
      · rw [show cmpIDBKeys (f + 1) ([] : List Nat) b =
            some (.ok ([], b, natCmp 0 b.length)) from by cases b <;> rfl] at h1
        rw [show cmpIDBKeys (f + 1) b ([] : List Nat) =
            some (.ok (b, [], natCmp b.length 0)) from by cases b <;> rfl] at h2
        simp at h1 h2
        obtain ⟨rfl, rfl, rfl⟩ := h1
        obtain ⟨rfl, rfl, rfl⟩ := h2
        exact ⟨rfl, rfl, by rw [natCmp_swap]⟩
      rcases b with - | ⟨y, b1⟩
      · rw [show cmpIDBKeys (f + 1) (x :: a1) [] =
            some (.ok (x :: a1, [], natCmp (x :: a1).length 0)) from rfl] at h1
        rw [show cmpIDBKeys (f + 1) [] (x :: a1) =
            some (.ok ([], x :: a1, natCmp 0 (x :: a1).length)) from rfl] at h2
        simp at h1 h2
        obtain ⟨rfl, rfl, rfl⟩ := h1
        obtain ⟨rfl, rfl, rfl⟩ := h2
        refine ⟨rfl, rfl, ?_⟩
        rw [natCmp_swap]
      simp only [cmpIDBKeys] at h1 h2
      by_cases hR : natCmp (keyTypeByteToKeyType x) (keyTypeByteToKeyType y) = 0
      case neg =>
        have hR2 : natCmp (keyTypeByteToKeyType y) (keyTypeByteToKeyType x) ≠ 0 := by
          rw [natCmp_swap]
          simpa using hR
        rw [if_pos (by simpa using hR)] at h1
        rw [if_pos (by simpa using hR2)] at h2
        simp at h1 h2
        obtain ⟨rfl, rfl, rfl⟩ := h1
        obtain ⟨rfl, rfl, rfl⟩ := h2
        refine ⟨rfl, rfl, ?_⟩
        rw [natCmp_swap]
      case pos =>
      have hR2 : natCmp (keyTypeByteToKeyType y) (keyTypeByteToKeyType x) = 0 := by
        rw [natCmp_swap, hR]
        rfl
      have hxy := natCmp_eq_zero hR
      rw [if_neg (by simpa using hR)] at h1
      rw [if_neg (by simpa using hR2)] at h2
      by_cases hx0 : x = 0
      · subst hx0
        by_cases hy0 : y = 0
        · subst hy0
          rw [if_pos (Or.inl rfl)] at h1 h2
          simp at h1 h2
          obtain ⟨rfl, rfl, rfl⟩ := h1
          obtain ⟨rfl, rfl, rfl⟩ := h2
          exact ⟨rfl, rfl, by simp⟩
        · have hz := rank_zero_ne (show keyTypeByteToKeyType y = 0 from by
            rw [← hxy]; decide)
          rw [if_neg (fun h => h.elim hy0 hz.2.2.2.2.1), if_neg hz.2.2.2.1,
            if_neg hz.2.2.2.2.2, if_neg hz.1,
            if_neg (fun h => h.elim hz.2.1 hz.2.2.1)] at h2
          simp at h2
      by_cases hx5 : x = 5
      · subst hx5
        have hy5 : y = 5 := rank_eq_five (by rw [← hxy]; decide)
        subst hy5
        rw [if_pos (Or.inr rfl)] at h1 h2
        simp at h1 h2
        obtain ⟨rfl, rfl, rfl⟩ := h1
        obtain ⟨rfl, rfl, rfl⟩ := h2
        exact ⟨rfl, rfl, by simp⟩
      have h05 : ¬(x = 0 ∨ x = 5) := fun h => h.elim hx0 hx5
      rw [if_neg h05] at h1
      by_cases hx4 : x = 4
      · subst hx4
        have hy4 : y = 4 := rank_eq_four (by rw [← hxy]; decide)
        subst hy4
        rw [if_pos rfl] at h1
        rw [if_neg (show ¬((4:Nat) = 0 ∨ (4:Nat) = 5) by decide), if_pos rfl] at h2
        by_cases hemp : a1.length = 0 ∨ b1.length = 0
        · rw [if_pos hemp] at h1
          rw [if_pos (Or.symm hemp)] at h2
          simp at h1 h2
          obtain ⟨rfl, rfl, rfl⟩ := h1
          obtain ⟨rfl, rfl, rfl⟩ := h2
          refine ⟨rfl, rfl, ?_⟩
          rw [natCmp_swap]
        · rw [if_neg hemp] at h1
          rw [if_neg (fun hc => hemp (Or.symm hc))] at h2
          rcases hda : decodeVarInt a1 with e | ⟨a2, len1⟩ <;>
            rcases hdb : decodeVarInt b1 with e2 | ⟨b2, len2⟩ <;>
              rw [hda, hdb] at h1 <;> rw [hdb, hda] at h2
          · simp at h1
          · simp at h1
          · simp at h1
          · dsimp only at h1 h2
            rw [Nat.min_comm len2 len1] at h2
            rcases hl1 : cmpIDBLoop f (min len1 len2) a2 b2 with - | el1
            · rw [hl1] at h1
              simp at h1
            · rcases hl2 : cmpIDBLoop f (min len1 len2) b2 a2 with - | el2
              · rw [hl2] at h2
                simp at h2
              · rw [hl1] at h1
                rw [hl2] at h2
                match el1, el2, hl1, hl2 with
                | .error e, _, hl1, hl2 => simp at h1
                | .ok (a3, b3, o1), .error e, hl1, hl2 => simp at h2
                | .ok (a3, b3, o1), .ok (b3', a3', o2'), hl1, hl2 =>
                  obtain ⟨hb3, ha3, ho⟩ := ih.2 _ _ _ _ _ _ _ _ _ hl1 hl2
                  subst hb3 ha3
                  match o1, o2', ho with
                  | none, none, _ =>
                    simp at h1 h2
                    obtain ⟨rfl, rfl, rfl⟩ := h1
                    obtain ⟨rfl, rfl, rfl⟩ := h2
                    refine ⟨rfl, rfl, ?_⟩
                    rw [natCmp_swap]
                  | some v, some v2, ho =>
                    have hv : v2 = -v := by simpa using ho
                    subst hv
                    simp at h1 h2
                    obtain ⟨rfl, rfl, rfl⟩ := h1
                    obtain ⟨rfl, rfl, rfl⟩ := h2
                    exact ⟨rfl, rfl, rfl⟩
      rw [if_neg hx4] at h1
      by_cases hx6 : x = 6
      · subst hx6
        have hy6 : y = 6 := rank_eq_six (by rw [← hxy]; decide)
        subst hy6
        rw [if_pos rfl] at h1
        rw [if_neg (show ¬((6:Nat) = 0 ∨ (6:Nat) = 5) by decide),
          if_neg (show ¬(6:Nat) = 4 by decide), if_pos rfl] at h2
        by_cases hemp : a1.length = 0 ∨ b1.length = 0
        · rw [if_pos hemp] at h1
          rw [if_pos (Or.symm hemp)] at h2
          simp at h1 h2
          obtain ⟨rfl, rfl, rfl⟩ := h1
          obtain ⟨rfl, rfl, rfl⟩ := h2
          refine ⟨rfl, rfl, ?_⟩
          rw [natCmp_swap]
        · rw [if_neg hemp] at h1
          rw [if_neg (fun hc => hemp (Or.symm hc))] at h2
          simp at h1 h2
          rw [compareBinary_swap, h1] at h2
          simp [swapNeg] at h2
          obtain ⟨rfl, rfl, rfl⟩ := h2
          exact ⟨rfl, rfl, rfl⟩
      rw [if_neg hx6] at h1
      by_cases hx1 : x = 1
      · subst hx1
        have hy1 : y = 1 := rank_eq_one (by rw [← hxy]; decide)
        subst hy1
        rw [if_pos rfl] at h1
        rw [if_neg (show ¬((1:Nat) = 0 ∨ (1:Nat) = 5) by decide),
          if_neg (show ¬(1:Nat) = 4 by decide),
          if_neg (show ¬(1:Nat) = 6 by decide), if_pos rfl] at h2
        by_cases hemp : a1.length = 0 ∨ b1.length = 0
        · rw [if_pos hemp] at h1
          rw [if_pos (Or.symm hemp)] at h2
          simp at h1 h2
          obtain ⟨rfl, rfl, rfl⟩ := h1
          obtain ⟨rfl, rfl, rfl⟩ := h2
          refine ⟨rfl, rfl, ?_⟩
          rw [natCmp_swap]
        · rw [if_neg hemp] at h1
          rw [if_neg (fun hc => hemp (Or.symm hc))] at h2
          simp at h1 h2
          rw [compareStringWithLength_swap, h1] at h2
          simp [swapNeg] at h2
          obtain ⟨rfl, rfl, rfl⟩ := h2
          exact ⟨rfl, rfl, rfl⟩
      rw [if_neg hx1] at h1
      by_cases hx23 : x = 2 ∨ x = 3
      · rw [if_pos hx23] at h1
        rcases hx23 with rfl | rfl
        · have hy2 : y = 2 := rank_eq_two (by rw [← hxy]; decide)
          subst hy2
          rw [if_neg (show ¬((2:Nat) = 0 ∨ (2:Nat) = 5) by decide),
            if_neg (show ¬(2:Nat) = 4 by decide),
            if_neg (show ¬(2:Nat) = 6 by decide),
            if_neg (show ¬(2:Nat) = 1 by decide),
            if_pos (Or.inl rfl)] at h2
          by_cases hemp : a1.length = 0 ∨ b1.length = 0
          · rw [if_pos hemp] at h1
            rw [if_pos (Or.symm hemp)] at h2
            simp at h1 h2
            obtain ⟨rfl, rfl, rfl⟩ := h1
            obtain ⟨rfl, rfl, rfl⟩ := h2
            refine ⟨rfl, rfl, ?_⟩
            rw [natCmp_swap]
          · rw [if_neg hemp] at h1
            rw [if_neg (fun hc => hemp (Or.symm hc))] at h2
            simp at h1 h2
            rw [compareDouble_swap, h1] at h2
            simp [swapNeg] at h2
            obtain ⟨rfl, rfl, rfl⟩ := h2
            exact ⟨rfl, rfl, rfl⟩
        · have hy3 : y = 3 := rank_eq_three (by rw [← hxy]; decide)
          subst hy3
          rw [if_neg (show ¬((3:Nat) = 0 ∨ (3:Nat) = 5) by decide),
            if_neg (show ¬(3:Nat) = 4 by decide),
            if_neg (show ¬(3:Nat) = 6 by decide),
            if_neg (show ¬(3:Nat) = 1 by decide),
            if_pos (Or.inr rfl)] at h2
          by_cases hemp : a1.length = 0 ∨ b1.length = 0
          · rw [if_pos hemp] at h1
            rw [if_pos (Or.symm hemp)] at h2
            simp at h1 h2
            obtain ⟨rfl, rfl, rfl⟩ := h1
            obtain ⟨rfl, rfl, rfl⟩ := h2
            refine ⟨rfl, rfl, ?_⟩
            rw [natCmp_swap]
          · rw [if_neg hemp] at h1
            rw [if_neg (fun hc => hemp (Or.symm hc))] at h2
            simp at h1 h2
            rw [compareDouble_swap, h1] at h2
            simp [swapNeg] at h2
            obtain ⟨rfl, rfl, rfl⟩ := h2
            exact ⟨rfl, rfl, rfl⟩
      · rw [if_neg hx23] at h1
        simp at h1
    · intro n a b xa yb o yb2 xa2 o2 h1 h2
      rcases n with - | n
      · simp [cmpIDBLoop] at h1 h2
        obtain ⟨rfl, rfl, rfl⟩ := h1
        obtain ⟨rfl, rfl, rfl⟩ := h2
        exact ⟨rfl, rfl, rfl⟩
      · simp only [cmpIDBLoop] at h1 h2
        by_cases hemp : a.length = 0 ∨ b.length = 0
        · rw [if_pos hemp] at h1
          rw [if_pos (Or.symm hemp)] at h2
          simp at h1 h2
          obtain ⟨rfl, rfl, rfl⟩ := h1
          obtain ⟨rfl, rfl, rfl⟩ := h2
          exact ⟨rfl, rfl, rfl⟩
        · rw [if_neg hemp] at h1
          rw [if_neg (fun hc => hemp (Or.symm hc))] at h2
          rcases hk1 : cmpIDBKeys f a b with - | ek1
          · rw [hk1] at h1
            simp at h1
          · rcases hk2 : cmpIDBKeys f b a with - | ek2
            · rw [hk2] at h2
              simp at h2
            · rw [hk1] at h1
              rw [hk2] at h2
              match ek1, ek2, hk1, hk2 with
              | .error e, _, hk1, hk2 => simp at h1
              | .ok (a1, b1, r1), .error e, hk1, hk2 => simp at h2
              | .ok (a1, b1, r1), .ok (b1', a1', r1'), hk1, hk2 =>
                obtain ⟨hb1, ha1, hr1⟩ := ih.1 _ _ _ _ _ _ _ _ hk1 hk2
                subst hb1 ha1 hr1
                dsimp only at h1 h2
                by_cases hr : r1 = 0
                · subst hr
                  rw [if_neg (by simp)] at h1
                  rw [if_neg (by simp)] at h2
                  exact ih.2 _ _ _ _ _ _ _ _ _ h1 h2
                · rw [if_pos (by simpa using hr)] at h1
                  rw [if_pos (by simpa using fun hc : -r1 = 0 => hr (by omega))] at h2
                  simp at h1 h2
                  obtain ⟨rfl, rfl, rfl⟩ := h1
                  obtain ⟨rfl, rfl, rfl⟩ := h2
                  exact ⟨rfl, rfl, rfl⟩

theorem compareKeyPrefix_isOrd (p q : KeyPrefix) : isOrd (compareKeyPrefix p q) := by
  unfold compareKeyPrefix
  split
  · exact intCmp_isOrd _ _
  · split
    · exact intCmp_isOrd _ _
    · exact intCmp_isOrd _ _

theorem oneVarIntCmp_isOrd (a b : List Nat) (r : Int)
    (h : oneVarIntCmp a b = .ok r) : isOrd r := by
  unfold oneVarIntCmp at h
  repeat' split at h
  all_goals simp at h
  all_goals exact h ▸ natCmp_isOrd _ _

theorem oneStringCmp_isOrd (a b : List Nat) (r : Int)
    (h : oneStringCmp a b = .ok r) : isOrd r := by
  unfold oneStringCmp at h
  repeat' split at h
  all_goals simp at h
  · exact h ▸ natCmp_isOrd _ _
  · exact h ▸ compareStringWithLength_isOrd _ _ _ _ _ (by assumption)

theorem twoStringCmp_isOrd (a b : List Nat) (r : Int)
    (h : twoStringCmp a b = .ok r) : isOrd r := by
  unfold twoStringCmp at h
  repeat' split at h
  all_goals simp at h
  all_goals try (exact h ▸ natCmp_isOrd _ _)
  all_goals exact h ▸ compareStringWithLength_isOrd _ _ _ _ _ (by assumption)

theorem varIntByteCmp_isOrd (a b : List Nat) (r : Int)
    (h : varIntByteCmp a b = .ok r) : isOrd r := by
  unfold varIntByteCmp at h
  repeat' split at h
  all_goals simp at h
  all_goals exact h ▸ natCmp_isOrd _ _

theorem twoVarIntByteCmp_isOrd (a b : List Nat) (r : Int)
    (h : twoVarIntByteCmp a b = .ok r) : isOrd r := by
  unfold twoVarIntByteCmp at h
  repeat' split at h
  all_goals try simp at h
  all_goals try (exact h ▸ natCmp_isOrd _ _)
  all_goals exact varIntByteCmp_isOrd _ _ _ h

theorem twoVarIntCmp_isOrd (a b : List Nat) (r : Int)
    (h : twoVarIntCmp a b = .ok r) : isOrd r := by
  unfold twoVarIntCmp at h
  repeat' split at h
  all_goals try simp at h
  all_goals try (exact h ▸ natCmp_isOrd _ _)
  all_goals exact oneVarIntCmp_isOrd _ _ _ h

theorem varIntStringCmp_isOrd (a b : List Nat) (r : Int)
    (h : varIntStringCmp a b = .ok r) : isOrd r := by
  unfold varIntStringCmp at h
  repeat' split at h
  all_goals try simp at h
  all_goals try (exact h ▸ natCmp_isOrd _ _)
  all_goals exact oneStringCmp_isOrd _ _ _ h

theorem globalMetaCmp_isOrd (a b : List Nat) (r : Int)
    (h : globalMetaCmp a b = .ok r) : isOrd r := by
  unfold globalMetaCmp at h
  repeat' split at h
  all_goals try simp at h
  all_goals try (exact h ▸ natCmp_isOrd _ _)
  all_goals try (exact h ▸ isOrd_zero)
  all_goals try (exact h ▸ bytesCmp_isOrd _ _)
  all_goals try (exact oneVarIntCmp_isOrd _ _ _ h)
  all_goals exact twoStringCmp_isOrd _ _ _ h

theorem databaseMetaCmp_isOrd (a b : List Nat) (r : Int)
    (h : databaseMetaCmp a b = .ok r) : isOrd r := by
  unfold databaseMetaCmp at h
  repeat' split at h
  all_goals try simp at h
  all_goals try (exact h ▸ natCmp_isOrd _ _)
  all_goals try (exact h ▸ isOrd_zero)
  all_goals try (exact varIntByteCmp_isOrd _ _ _ h)
  all_goals try (exact twoVarIntByteCmp_isOrd _ _ _ h)
  all_goals try (exact oneVarIntCmp_isOrd _ _ _ h)
  all_goals try (exact twoVarIntCmp_isOrd _ _ _ h)
  all_goals try (exact oneStringCmp_isOrd _ _ _ h)
  all_goals exact varIntStringCmp_isOrd _ _ _ h

theorem CompareE_isOrd (a b : List Nat) (r : Int) (h : CompareE a b = .ok r) : isOrd r := by
  unfold CompareE at h
  repeat' split at h
  all_goals try simp at h
  all_goals try (exact h ▸ compareKeyPrefix_isOrd _ _)
  all_goals try (exact globalMetaCmp_isOrd _ _ _ h)
  all_goals try (exact databaseMetaCmp_isOrd _ _ _ h)
  all_goals try (exact h ▸ natCmp_isOrd _ _)
  all_goals try (exact h ▸ intCmp_isOrd _ _)
  all_goals try (exact h ▸ compareEncodedIDBKeys_isOrd _ _ _ _ _ (by assumption))

theorem compareKeyPrefix_self (p : KeyPrefix) : compareKeyPrefix p p = 0 := by
  simp [compareKeyPrefix, intCmp_self]

theorem compareBinary_self (a : List Nat) :
    compareBinary a a = .error () ∨ ∃ x, compareBinary a a = .ok (x, x, 0) := by
  rcases hdv : decodeVarInt a with e | ⟨a1, len⟩
  · left
    simp [compareBinary, hdv]
  · right
    simp only [compareBinary, hdv]
    split
    · exact ⟨[], by simp [bytesCmp_self, natCmp_self]⟩
    · exact ⟨a1.drop len, by simp [bytesCmp_self]⟩

theorem compareStringWithLength_self (a : List Nat) :
    compareStringWithLength a a = .error () ∨
      ∃ x, compareStringWithLength a a = .ok (x, x, 0) := by
  rcases hdv : decodeVarInt a with e | ⟨a1, v⟩
  · left
    simp [compareStringWithLength, hdv]
  · right
    simp only [compareStringWithLength, hdv]
    split
    · exact ⟨[], by simp [bytesCmp_self, natCmp_self]⟩
    · exact ⟨a1.drop (2 * v), by simp [bytesCmp_self]⟩

theorem compareDouble_self (a : List Nat) :
    compareDouble a a = .error () ∨ ∃ x, compareDouble a a = .ok (x, x, 0) := by
  unfold compareDouble
  split
  · left; rfl
  · right
    exact ⟨a.drop 8, by simp [floatCmp_self]⟩

theorem cmpIDB_self (f : Nat) :
    (∀ a, cmpIDBKeys f a a = none ∨ cmpIDBKeys f a a = some (.error ()) ∨
      ∃ x, cmpIDBKeys f a a = some (.ok (x, x, 0))) ∧
    (∀ n a, cmpIDBLoop f n a a = none ∨ cmpIDBLoop f n a a = some (.error ()) ∨
      ∃ x, cmpIDBLoop f n a a = some (.ok (x, x, none))) := by
  induction f with
  | zero => exact ⟨fun a => Or.inl rfl, fun n a => Or.inl rfl⟩
  | succ f ih =>
    constructor
    · intro a
      match a with
      | [] =>
        right; right
        exact ⟨[], by simp [cmpIDBKeys, natCmp_self]⟩
      | x :: a1 =>
        simp only [cmpIDBKeys, natCmp_self, ne_eq, not_true_eq_false, if_false,
          not_false_eq_true, if_true]
        by_cases h05 : x = 0 ∨ x = 5
        · right; right
          exact ⟨a1, by simp [h05]⟩
        · rw [if_neg h05]
          by_cases h4 : x = 4
          · rw [if_pos h4]
            by_cases hemp : a1.length = 0 ∨ a1.length = 0
            · right; right
              exact ⟨a1, by rw [if_pos hemp]; try simp [natCmp_self]⟩
            · rw [if_neg hemp]
              rcases hdv : decodeVarInt a1 with e | ⟨a2, len⟩
              · right; left
                rfl
              · dsimp only
                rcases (ih.2 (min len len) a2) with hl | hl | ⟨x2, hl⟩
                · left; rw [hl]
                · right; left; rw [hl]
                · right; right
                  exact ⟨x2, by rw [hl]; try simp [natCmp_self]⟩
          · rw [if_neg h4]
            by_cases h6 : x = 6
            · rw [if_pos h6]
              by_cases hemp : a1.length = 0 ∨ a1.length = 0
              · right; right
                exact ⟨a1, by rw [if_pos hemp]; try simp [natCmp_self]⟩
              · rw [if_neg hemp]
                rcases compareBinary_self a1 with hb | ⟨x2, hb⟩
                · right; left; rw [hb]
                · right; right
                  exact ⟨x2, by rw [hb]⟩
            · rw [if_neg h6]
              by_cases h1 : x = 1
              · rw [if_pos h1]
                by_cases hemp : a1.length = 0 ∨ a1.length = 0
                · right; right
                  exact ⟨a1, by rw [if_pos hemp]; try simp [natCmp_self]⟩
                · rw [if_neg hemp]
                  rcases compareStringWithLength_self a1 with hb | ⟨x2, hb⟩
                  · right; left; rw [hb]
                  · right; right
                    exact ⟨x2, by rw [hb]⟩
              · rw [if_neg h1]
                by_cases h23 : x = 2 ∨ x = 3
                · rw [if_pos h23]
                  by_cases hemp : a1.length = 0 ∨ a1.length = 0
                  · right; right
                    exact ⟨a1, by rw [if_pos hemp]; try simp [natCmp_self]⟩
                  · rw [if_neg hemp]
                    rcases compareDouble_self a1 with hb | ⟨x2, hb⟩
                    · right; left; rw [hb]
                    · right; right
                      exact ⟨x2, by rw [hb]⟩
                · rw [if_neg h23]
                  right; left; rfl
    · intro n a
      match n with
      | 0 =>
        right; right
        exact ⟨a, rfl⟩
      | n + 1 =>
        simp only [cmpIDBLoop]
        by_cases hemp : a.length = 0 ∨ a.length = 0
        · right; right
          exact ⟨a, by rw [if_pos hemp]⟩
        · rw [if_neg hemp]
          rcases (ih.1 a) with hk | hk | ⟨x2, hk⟩
          · left; rw [hk]
          · right; left; rw [hk]
          · rw [hk]
            simpa using ih.2 n x2

theorem compareEncodedIDBKeys_self (a : List Nat) :
    compareEncodedIDBKeys a a = .error () ∨
      ∃ x, compareEncodedIDBKeys a a = .ok (x, x, 0) := by
  unfold compareEncodedIDBKeys
  rcases (cmpIDB_self (a.length + a.length + 1)).1 a with hk | hk | ⟨x2, hk⟩
  · left; rw [hk]; rfl
  · left; rw [hk]; rfl
  · right
    exact ⟨x2, by rw [hk]; rfl⟩

theorem oneVarIntCmp_self (a : List Nat) :
    oneVarIntCmp a a = .error () ∨ oneVarIntCmp a a = .ok 0 := by
  unfold oneVarIntCmp
  split
  · right; simp [natCmp_self]
  · rcases hdv : decodeVarInt a with e | ⟨a1, v⟩
    · left; rfl
    · right; simp [natCmp_self]

theorem oneStringCmp_self (a : List Nat) :
    oneStringCmp a a = .error () ∨ oneStringCmp a a = .ok 0 := by
  unfold oneStringCmp
  split
  · right; simp [natCmp_self]
  · rcases compareStringWithLength_self a with hb | ⟨x2, hb⟩
    · left; rw [hb]
    · right; rw [hb]

theorem twoStringCmp_self (a : List Nat) :
    twoStringCmp a a = .error () ∨ twoStringCmp a a = .ok 0 := by
  unfold twoStringCmp
  split
  · right; simp [natCmp_self]
  · rcases compareStringWithLength_self a with hb | ⟨x2, hb⟩
    · left; rw [hb]
    · rw [hb]
      simp only [ne_eq, not_true_eq_false, if_false, if_true, not_false_eq_true]
      split
      · right; simp [natCmp_self]
      · rcases compareStringWithLength_self x2 with hc | ⟨x3, hc⟩
        · left; rw [hc]
        · right; rw [hc]

theorem varIntByteCmp_self (a : List Nat) :
    varIntByteCmp a a = .error () ∨ varIntByteCmp a a = .ok 0 := by
  unfold varIntByteCmp
  split
  · right; simp [natCmp_self]
  · rcases hdv : decodeVarInt a with e | ⟨a1, v⟩
    · left; rfl
    · dsimp only
      simp only [natCmp_self, ne_eq, not_true_eq_false, if_false, not_false_eq_true, if_true]
      split
      · right; simp [natCmp_self]
      · right; simp [natCmp_self]

theorem twoVarIntByteCmp_self (a : List Nat) :
    twoVarIntByteCmp a a = .error () ∨ twoVarIntByteCmp a a = .ok 0 := by
  unfold twoVarIntByteCmp
  split
  · right; simp [natCmp_self]
  · rcases hdv : decodeVarInt a with e | ⟨a1, v⟩
    · left; rfl
    · dsimp only
      simp only [natCmp_self, ne_eq, not_true_eq_false, if_false, not_false_eq_true, if_true]
      exact varIntByteCmp_self a1

theorem twoVarIntCmp_self (a : List Nat) :
    twoVarIntCmp a a = .error () ∨ twoVarIntCmp a a = .ok 0 := by
  unfold twoVarIntCmp
  split
  · right; simp [natCmp_self]
  · rcases hdv : decodeVarInt a with e | ⟨a1, v⟩
    · left; rfl
    · dsimp only
      simp only [natCmp_self, ne_eq, not_true_eq_false, if_false, not_false_eq_true, if_true]
      exact oneVarIntCmp_self a1

theorem varIntStringCmp_self (a : List Nat) :
    varIntStringCmp a a = .error () ∨ varIntStringCmp a a = .ok 0 := by
  unfold varIntStringCmp
  split
  · right; simp [natCmp_self]
  · rcases hdv : decodeVarInt a with e | ⟨a1, v⟩
    · left; rfl
    · dsimp only
      simp only [natCmp_self, ne_eq, not_true_eq_false, if_false, not_false_eq_true, if_true]
      exact oneStringCmp_self a1

theorem globalMetaCmp_self (a : List Nat) :
    globalMetaCmp a a = .error () ∨ globalMetaCmp a a = .ok 0 := by
  unfold globalMetaCmp
  match a with
  | [] => right; simp [natCmp_self]
  | x :: a1 =>
    simp only [ne_eq, not_true_eq_false, if_false, not_false_eq_true, if_true]
    by_cases h7 : x < 7
    · right; rw [if_pos h7]
    · rw [if_neg h7]
      by_cases h50 : x = 50
      · right
        rw [if_pos h50, bytesCmp_self]
      · rw [if_neg h50]
        by_cases h100 : x = 100
        · rw [if_pos h100]
          exact oneVarIntCmp_self a1
        · rw [if_neg h100]
          by_cases h201 : x = 201
          · rw [if_pos h201]
            exact twoStringCmp_self a1
          · left; rw [if_neg h201]

theorem databaseMetaCmp_self (a : List Nat) :
    databaseMetaCmp a a = .error () ∨ databaseMetaCmp a a = .ok 0 := by
  unfold databaseMetaCmp
  match a with
  | [] => right; simp [natCmp_self]
  | x :: a1 =>
    simp only [ne_eq, not_true_eq_false, if_false, not_false_eq_true, if_true]
    by_cases h6 : x < 6
    · right; rw [if_pos h6]
    · rw [if_neg h6]
      by_cases h50 : x = 50
      · rw [if_pos h50]; exact varIntByteCmp_self a1
      · rw [if_neg h50]
        by_cases h100 : x = 100
        · rw [if_pos h100]; exact twoVarIntByteCmp_self a1
        · rw [if_neg h100]
          by_cases h150 : x = 150
          · rw [if_pos h150]; exact oneVarIntCmp_self a1
          · rw [if_neg h150]
            by_cases h151 : x = 151
            · rw [if_pos h151]; exact twoVarIntCmp_self a1
            · rw [if_neg h151]
              by_cases h200 : x = 200
              · rw [if_pos h200]; exact oneStringCmp_self a1
              · rw [if_neg h200]
                by_cases h201 : x = 201
                · rw [if_pos h201]; exact varIntStringCmp_self a1
                · left; rw [if_neg h201]

theorem CompareE_self (a : List Nat) : CompareE a a = .error () ∨ CompareE a a = .ok 0 := by
  unfold CompareE
  rcases hk : decodeKeyPrefix a with e | ⟨a1, kp⟩
  · left; rfl
  · dsimp only
    simp only [compareKeyPrefix_self, ne_eq, not_true_eq_false, if_false,
      not_false_eq_true, if_true]
    by_cases h0 : kp.type = 0
    · rw [if_pos h0]
      exact globalMetaCmp_self a1
    · rw [if_neg h0]
      by_cases h1 : kp.type = 1
      · rw [if_pos h1]
        exact databaseMetaCmp_self a1
      · rw [if_neg h1]
        by_cases h236 : kp.type = 2 ∨ kp.type = 3 ∨ kp.type = 6
        · rw [if_pos h236]
          rcases compareEncodedIDBKeys_self a1 with hb | ⟨x2, hb⟩
          · left; rw [hb]
          · right; rw [hb]
        · rw [if_neg h236]
          by_cases h4 : kp.type = 4
          · rw [if_pos h4]
            rcases compareEncodedIDBKeys_self a1 with hb | ⟨x2, hb⟩
            · left; rw [hb]
            · rw [hb]
              simp only [ne_eq, not_true_eq_false, if_false, not_false_eq_true, if_true]
              by_cases hx2 : x2.length > 0
              · rw [if_pos hx2]
                rcases hdv : decodeVarInt x2 with e | ⟨x3, v⟩
                · left; rfl
                · simp only [Except.map]
                  try dsimp only
                  by_cases hx3 : x3.length = 0 ∨ x3.length = 0
                  · right; rw [if_pos hx3]; simp [natCmp_self]
                  · rw [if_neg hx3]
                    rcases compareEncodedIDBKeys_self x3 with hc | ⟨x4, hc⟩
                    · left; rw [hc]
                    · right; rw [hc]; simp [intCmp_self]
              · rw [if_neg hx2]
                try dsimp only
                by_cases hx3 : x2.length = 0 ∨ x2.length = 0
                · right; rw [if_pos hx3]; simp [natCmp_self]
                · rw [if_neg hx3]
                  rcases compareEncodedIDBKeys_self x2 with hc | ⟨x4, hc⟩
                  · left; rw [hc]
                  · right; rw [hc]; simp [intCmp_self]
          · left; rw [if_neg h4]

theorem Compare_self (a : List Nat) : Compare a a = 0 := by
  unfold Compare
  rcases CompareE_self a with h | h <;> rw [h]

@[simp] theorem exceptMap_ok (f : Int → Int) (x : Int) :
    Except.map f (.ok x : Except Unit Int) = .ok (f x) := rfl

@[simp] theorem exceptMap_error (f : Int → Int) (e : Unit) :
    Except.map f (.error e : Except Unit Int) = .error e := rfl

theorem compareEncodedIDBKeys_swap (a b xa yb yb2 xa2 : List Nat) (r r2 : Int)
    (h1 : compareEncodedIDBKeys a b = .ok (xa, yb, r))
    (h2 : compareEncodedIDBKeys b a = .ok (yb2, xa2, r2)) :
    yb2 = yb ∧ xa2 = xa ∧ r2 = -r := by
  unfold compareEncodedIDBKeys at h1 h2
  rw [Nat.add_comm b.length a.length] at h2
  rcases hk1 : cmpIDBKeys (a.length + b.length + 1) a b with - | e1
  · rw [hk1] at h1
    simp at h1
  · rcases hk2 : cmpIDBKeys (a.length + b.length + 1) b a with - | e2
    · rw [hk2] at h2
      simp at h2
    · rw [hk1] at h1
      rw [hk2] at h2
      simp at h1 h2
      rw [h1] at hk1
      rw [h2] at hk2
      exact (cmpIDB_swap _).1 _ _ _ _ _ _ _ _ hk1 hk2

theorem oneVarIntCmp_swap (a b : List Nat) :
    oneVarIntCmp b a = (oneVarIntCmp a b).map (fun v => -v) := by
  unfold oneVarIntCmp
  by_cases hemp : a.length = 0 ∨ b.length = 0
  · rw [if_pos hemp, if_pos (Or.symm hemp)]
    simp [natCmp_swap a.length b.length]
  · rw [if_neg hemp, if_neg (fun hc => hemp (Or.symm hc))]
    rcases hda : decodeVarInt a with e | ⟨a2, ia⟩ <;>
      rcases hdb : decodeVarInt b with e2 | ⟨b2, ib⟩
    · simp
    · simp
    · simp
    · simp [natCmp_swap ia ib]

theorem oneStringCmp_swap (a b : List Nat) :
    oneStringCmp b a = (oneStringCmp a b).map (fun v => -v) := by
  unfold oneStringCmp
  by_cases hemp : a.length = 0 ∨ b.length = 0
  · rw [if_pos hemp, if_pos (Or.symm hemp)]
    simp [natCmp_swap a.length b.length]
  · rw [if_neg hemp, if_neg (fun hc => hemp (Or.symm hc))]
    rw [compareStringWithLength_swap a b]
    rcases hcs : compareStringWithLength a b with e | ⟨a2, b2, r⟩
    · simp [swapNeg]
    · simp [swapNeg]

theorem twoStringCmp_swap (a b : List Nat) :
    twoStringCmp b a = (twoStringCmp a b).map (fun v => -v) := by
  unfold twoStringCmp
  by_cases hemp : a.length = 0 ∨ b.length = 0
  · rw [if_pos hemp, if_pos (Or.symm hemp)]
    simp [natCmp_swap a.length b.length]
  · rw [if_neg hemp, if_neg (fun hc => hemp (Or.symm hc))]
    rw [compareStringWithLength_swap a b]
    rcases hcs : compareStringWithLength a b with e | ⟨a2, b2, r⟩
    · simp [swapNeg]
    · dsimp only [swapNeg]
      by_cases hr : r = 0
      · rw [if_neg (show ¬(-r ≠ 0) by simp [hr]), if_neg (show ¬(r ≠ 0) by simp [hr])]
        by_cases hemp2 : a2.length = 0 ∨ b2.length = 0
        · rw [if_pos (Or.symm hemp2), if_pos hemp2]
          simp [natCmp_swap a2.length b2.length]
        · rw [if_neg (fun hc => hemp2 (Or.symm hc)), if_neg hemp2]
          rw [compareStringWithLength_swap a2 b2]
          rcases hcs2 : compareStringWithLength a2 b2 with e | ⟨x, y, r2⟩
          · simp [swapNeg]
          · simp [swapNeg]
      · rw [if_pos (show -r ≠ 0 by omega), if_pos (show r ≠ 0 from hr)]
        simp

theorem varIntByteCmp_swap (a b : List Nat) :
    varIntByteCmp b a = (varIntByteCmp a b).map (fun v => -v) := by
  unfold varIntByteCmp
  by_cases hemp : a.length = 0 ∨ b.length = 0
  · rw [if_pos hemp, if_pos (Or.symm hemp)]
    simp [natCmp_swap a.length b.length]
  · rw [if_neg hemp, if_neg (fun hc => hemp (Or.symm hc))]
    rcases hda : decodeVarInt a with e | ⟨a2, ia⟩ <;>
      rcases hdb : decodeVarInt b with e2 | ⟨b2, ib⟩
    · simp
    · simp
    · simp
    · dsimp only
      rw [natCmp_swap ia ib]
      by_cases hr : natCmp ia ib = 0
      · rw [if_neg (show ¬(-natCmp ia ib ≠ 0) by simp [hr]),
          if_neg (show ¬(natCmp ia ib ≠ 0) by simp [hr])]
        by_cases hemp2 : a2.length = 0 ∨ b2.length = 0
        · rw [if_pos (Or.symm hemp2), if_pos hemp2]
          simp [natCmp_swap a2.length b2.length]
        · rw [if_neg (fun hc => hemp2 (Or.symm hc)), if_neg hemp2]
          rw [natCmp_swap (a2.headD 0) (b2.headD 0)]
          simp
      · rw [if_pos (show -natCmp ia ib ≠ 0 by omega), if_pos (show natCmp ia ib ≠ 0 from hr)]
        simp

theorem twoVarIntByteCmp_swap (a b : List Nat) :
    twoVarIntByteCmp b a = (twoVarIntByteCmp a b).map (fun v => -v) := by
  unfold twoVarIntByteCmp
  by_cases hemp : a.length = 0 ∨ b.length = 0
  · rw [if_pos hemp, if_pos (Or.symm hemp)]
    simp [natCmp_swap a.length b.length]
  · rw [if_neg hemp, if_neg (fun hc => hemp (Or.symm hc))]
    rcases hda : decodeVarInt a with e | ⟨a2, ia⟩ <;>
      rcases hdb : decodeVarInt b with e2 | ⟨b2, ib⟩
    · simp
    · simp
    · simp
    · dsimp only
      rw [natCmp_swap ia ib]
      by_cases hr : natCmp ia ib = 0
      · rw [if_neg (show ¬(-natCmp ia ib ≠ 0) by simp [hr]),
          if_neg (show ¬(natCmp ia ib ≠ 0) by simp [hr])]
        exact varIntByteCmp_swap a2 b2
      · rw [if_pos (show -natCmp ia ib ≠ 0 by omega), if_pos (show natCmp ia ib ≠ 0 from hr)]
        simp

theorem twoVarIntCmp_swap (a b : List Nat) :
    twoVarIntCmp b a = (twoVarIntCmp a b).map (fun v => -v) := by
  unfold twoVarIntCmp
  by_cases hemp : a.length = 0 ∨ b.length = 0
  · rw [if_pos hemp, if_pos (Or.symm hemp)]
    simp [natCmp_swap a.length b.length]
  · rw [if_neg hemp, if_neg (fun hc => hemp (Or.symm hc))]
    rcases hda : decodeVarInt a with e | ⟨a2, ia⟩ <;>
      rcases hdb : decodeVarInt b with e2 | ⟨b2, ib⟩
    · simp
    · simp
    · simp
    · dsimp only
      rw [natCmp_swap ia ib]
      by_cases hr : natCmp ia ib = 0
      · rw [if_neg (show ¬(-natCmp ia ib ≠ 0) by simp [hr]),
          if_neg (show ¬(natCmp ia ib ≠ 0) by simp [hr])]
        exact oneVarIntCmp_swap a2 b2
      · rw [if_pos (show -natCmp ia ib ≠ 0 by omega), if_pos (show natCmp ia ib ≠ 0 from hr)]
        simp

theorem varIntStringCmp_swap (a b : List Nat) :
    varIntStringCmp b a = (varIntStringCmp a b).map (fun v => -v) := by
  unfold varIntStringCmp
  by_cases hemp : a.length = 0 ∨ b.length = 0
  · rw [if_pos hemp, if_pos (Or.symm hemp)]
    simp [natCmp_swap a.length b.length]
  · rw [if_neg hemp, if_neg (fun hc => hemp (Or.symm hc))]
    rcases hda : decodeVarInt a with e | ⟨a2, ia⟩ <;>
      rcases hdb : decodeVarInt b with e2 | ⟨b2, ib⟩
    · simp
    · simp
    · simp
    · dsimp only
      rw [natCmp_swap ia ib]
      by_cases hr : natCmp ia ib = 0
      · rw [if_neg (show ¬(-natCmp ia ib ≠ 0) by simp [hr]),
          if_neg (show ¬(natCmp ia ib ≠ 0) by simp [hr])]
        exact oneStringCmp_swap a2 b2
      · rw [if_pos (show -natCmp ia ib ≠ 0 by omega), if_pos (show natCmp ia ib ≠ 0 from hr)]
        simp

theorem globalMetaCmp_swap (a b : List Nat) :
    globalMetaCmp b a = (globalMetaCmp a b).map (fun v => -v) := by
  unfold globalMetaCmp
  rcases a with - | ⟨x, a1⟩ <;> rcases b with - | ⟨y, b1⟩
  · simp [natCmp]
  · simp [natCmp]
  · simp [natCmp]
  · dsimp only
    by_cases hxy : x = y
    · subst hxy
      rw [if_neg (show ¬(x ≠ x) by simp), if_neg (show ¬(x ≠ x) by simp)]
      by_cases h7 : x < 7
      · rw [if_pos h7, if_pos h7]
        simp
      · rw [if_neg h7, if_neg h7]
        by_cases h50 : x = 50
        · rw [if_pos h50, if_pos h50]
          simp [bytesCmp_swap a1 b1]
        · rw [if_neg h50, if_neg h50]
          by_cases h100 : x = 100
          · rw [if_pos h100, if_pos h100]
            exact oneVarIntCmp_swap a1 b1
          · rw [if_neg h100, if_neg h100]
            by_cases h201 : x = 201
            · rw [if_pos h201, if_pos h201]
              exact twoStringCmp_swap a1 b1
            · rw [if_neg h201, if_neg h201]
              simp
    · rw [if_pos (show y ≠ x from Ne.symm hxy), if_pos (show x ≠ y from hxy)]
      simp [natCmp_swap x y]

theorem databaseMetaCmp_swap (a b : List Nat) :
    databaseMetaCmp b a = (databaseMetaCmp a b).map (fun v => -v) := by
  unfold databaseMetaCmp
  rcases a with - | ⟨x, a1⟩ <;> rcases b with - | ⟨y, b1⟩
  · simp [natCmp]
  · simp [natCmp]
  · simp [natCmp]
  · dsimp only
    by_cases hxy : x = y
    · subst hxy
      rw [if_neg (show ¬(x ≠ x) by simp), if_neg (show ¬(x ≠ x) by simp)]
      by_cases h6 : x < 6
      · rw [if_pos h6, if_pos h6]
        simp
      · rw [if_neg h6, if_neg h6]
        by_cases h50 : x = 50
        · rw [if_pos h50, if_pos h50]
          exact varIntByteCmp_swap a1 b1
        · rw [if_neg h50, if_neg h50]
          by_cases h100 : x = 100
          · rw [if_pos h100, if_pos h100]
            exact twoVarIntByteCmp_swap a1 b1
          · rw [if_neg h100, if_neg h100]
            by_cases h150 : x = 150
            · rw [if_pos h150, if_pos h150]
              exact oneVarIntCmp_swap a1 b1
            · rw [if_neg h150, if_neg h150]
              by_cases h151 : x = 151
              · rw [if_pos h151, if_pos h151]
                exact twoVarIntCmp_swap a1 b1
              · rw [if_neg h151, if_neg h151]
                by_cases h200 : x = 200
                · rw [if_pos h200, if_pos h200]
                  exact oneStringCmp_swap a1 b1
                · rw [if_neg h200, if_neg h200]
                  by_cases h201 : x = 201
                  · rw [if_pos h201, if_pos h201]
                    exact varIntStringCmp_swap a1 b1
                  · rw [if_neg h201, if_neg h201]
                    simp
    · rw [if_pos (show y ≠ x from Ne.symm hxy), if_pos (show x ≠ y from hxy)]
      simp [natCmp_swap x y]

theorem compareKeyPrefix_swap (p q : KeyPrefix) :
    compareKeyPrefix q p = -compareKeyPrefix p q := by
  unfold compareKeyPrefix
  rw [intCmp_swap p.databaseId q.databaseId, intCmp_swap p.objectStoreId q.objectStoreId,
    intCmp_swap p.indexId q.indexId]
  by_cases h1 : intCmp p.databaseId q.databaseId = 0
  · rw [if_neg (show ¬(-intCmp p.databaseId q.databaseId ≠ 0) by simp [h1]),
      if_neg (show ¬(intCmp p.databaseId q.databaseId ≠ 0) by simp [h1])]
    by_cases h2 : intCmp p.objectStoreId q.objectStoreId = 0
    · rw [if_neg (show ¬(-intCmp p.objectStoreId q.objectStoreId ≠ 0) by simp [h2]),
        if_neg (show ¬(intCmp p.objectStoreId q.objectStoreId ≠ 0) by simp [h2])]
    · rw [if_pos (show -intCmp p.objectStoreId q.objectStoreId ≠ 0 by omega),
        if_pos (show intCmp p.objectStoreId q.objectStoreId ≠ 0 from h2)]
  · rw [if_pos (show -intCmp p.databaseId q.databaseId ≠ 0 by omega),
      if_pos (show intCmp p.databaseId q.databaseId ≠ 0 from h1)]

theorem compareKeyPrefix_eq_zero {p q : KeyPrefix} (h : compareKeyPrefix p q = 0) : p = q := by
  unfold compareKeyPrefix at h
  by_cases h1 : intCmp p.databaseId q.databaseId = 0
  · rw [if_neg (show ¬(intCmp p.databaseId q.databaseId ≠ 0) by simp [h1])] at h
    by_cases h2 : intCmp p.objectStoreId q.objectStoreId = 0
    · rw [if_neg (show ¬(intCmp p.objectStoreId q.objectStoreId ≠ 0) by simp [h2])] at h
      have e1 := intCmp_eq_zero h1
      have e2 := intCmp_eq_zero h2
      have e3 := intCmp_eq_zero h
      cases p
      cases q
      simp_all
    · rw [if_pos (show intCmp p.objectStoreId q.objectStoreId ≠ 0 from h2)] at h
      exact absurd h h2
  · rw [if_pos (show intCmp p.databaseId q.databaseId ≠ 0 from h1)] at h
    exact absurd h h1

theorem CompareE_antisym (a b : List Nat) (r r2 : Int)
    (h1 : CompareE a b = .ok r) (h2 : CompareE b a = .ok r2) : r2 = -r := by
  unfold CompareE at h1 h2
  rcases hda : decodeKeyPrefix a with e | ⟨a1, pA⟩ <;>
    rcases hdb : decodeKeyPrefix b with e2 | ⟨b1, pB⟩ <;>
      rw [hda] at h1 <;> rw [hdb] at h2
  · simp at h1
  · simp at h1
  · simp at h2
  · rw [hdb] at h1
    rw [hda] at h2
    dsimp only at h1 h2
    rw [compareKeyPrefix_swap pA pB] at h2
    by_cases hkp : compareKeyPrefix pA pB = 0
    · have hpq : pA = pB := compareKeyPrefix_eq_zero hkp
      subst hpq
      rw [if_neg (show ¬(compareKeyPrefix pA pA ≠ 0) by simp [hkp])] at h1
      rw [if_neg (show ¬(-compareKeyPrefix pA pA ≠ 0) by simp [hkp])] at h2
      by_cases ht0 : pA.type = 0
      · rw [if_pos ht0] at h1 h2
        rw [globalMetaCmp_swap, h1] at h2
        simp at h2
        omega
      rw [if_neg ht0] at h1 h2
      by_cases ht1 : pA.type = 1
      · rw [if_pos ht1] at h1 h2
        rw [databaseMetaCmp_swap, h1] at h2
        simp at h2
        omega
      rw [if_neg ht1] at h1 h2
      by_cases ht236 : pA.type = 2 ∨ pA.type = 3 ∨ pA.type = 6
      · rw [if_pos ht236] at h1 h2
        rcases hc1 : compareEncodedIDBKeys a1 b1 with e | ⟨u1, v1, rr⟩ <;> rw [hc1] at h1
        · simp at h1
        · rcases hc2 : compareEncodedIDBKeys b1 a1 with e | ⟨u2, v2, rr2⟩ <;> rw [hc2] at h2
          · simp at h2
          · obtain ⟨-, -, hr⟩ := compareEncodedIDBKeys_swap _ _ _ _ _ _ _ _ hc1 hc2
            simp at h1 h2
            omega
      rw [if_neg ht236] at h1 h2
      by_cases ht4 : pA.type = 4
      · rw [if_pos ht4] at h1 h2
        rcases hc1 : compareEncodedIDBKeys a1 b1 with e | ⟨u1, v1, rr⟩ <;> rw [hc1] at h1
        · simp at h1
        rcases hc2 : compareEncodedIDBKeys b1 a1 with e | ⟨u2, v2, rr2⟩ <;> rw [hc2] at h2
        · simp at h2
        obtain ⟨hu, hv, hr⟩ := compareEncodedIDBKeys_swap _ _ _ _ _ _ _ _ hc1 hc2
        rw [hu, hv, hr] at h2
        dsimp only at h1 h2
        by_cases hrr : rr = 0
        · rw [if_neg (show ¬(rr ≠ 0) by simp [hrr])] at h1
          rw [if_neg (show ¬(-rr ≠ 0) by simp [hrr])] at h2
          rcases hs1 : (if u1.length > 0 then
              (decodeVarInt u1).map (fun p => (p.1, (p.2 : Int)))
            else .ok (u1, (-1 : Int))) with e | ⟨a2, sa⟩ <;> rw [hs1] at h1 h2
          · simp at h1
          rcases hs2 : (if v1.length > 0 then
              (decodeVarInt v1).map (fun p => (p.1, (p.2 : Int)))
            else .ok (v1, (-1 : Int))) with e | ⟨b2, sb⟩ <;> rw [hs2] at h1 h2
          · simp at h1
          dsimp only at h1 h2
          by_cases hemp : a2.length = 0 ∨ b2.length = 0
          · rw [if_pos hemp] at h1
            rw [if_pos (Or.symm hemp)] at h2
            simp at h1 h2
            rw [natCmp_swap a2.length b2.length] at h2
            omega
          · rw [if_neg hemp] at h1
            rw [if_neg (fun hc => hemp (Or.symm hc))] at h2
            rcases hc3 : compareEncodedIDBKeys a2 b2 with e | ⟨u3, v3, rr3⟩ <;> rw [hc3] at h1
            · simp at h1
            rcases hc4 : compareEncodedIDBKeys b2 a2 with e | ⟨u4, v4, rr4⟩ <;> rw [hc4] at h2
            · simp at h2
            obtain ⟨-, -, hr3⟩ := compareEncodedIDBKeys_swap _ _ _ _ _ _ _ _ hc3 hc4
            dsimp only at h1 h2
            by_cases hrr3 : rr3 = 0
            · rw [if_neg (show ¬(rr3 ≠ 0) by simp [hrr3])] at h1
              rw [if_neg (show ¬(rr4 ≠ 0) by simp [hr3, hrr3])] at h2
              rw [intCmp_swap sa sb] at h2
              simp at h1 h2
              omega
            · rw [if_pos (show rr3 ≠ 0 from hrr3)] at h1
              rw [if_pos (show rr4 ≠ 0 by omega)] at h2
              simp at h1 h2
              omega
        · rw [if_pos (show rr ≠ 0 from hrr)] at h1
          rw [if_pos (show -rr ≠ 0 by omega)] at h2
          simp at h1 h2
          omega
      · rw [if_neg ht4] at h1
        simp at h1
    · rw [if_pos (show compareKeyPrefix pA pB ≠ 0 from hkp)] at h1
      rw [if_pos (show -compareKeyPrefix pA pB ≠ 0 by omega)] at h2
      simp at h1 h2
      omega

theorem Compare_antisym (a b : List Nat) (r r2 : Int)
    (h1 : CompareE a b = .ok r) (h2 : CompareE b a = .ok r2) :
    Compare b a = -Compare a b := by
  unfold Compare
  rw [h1, h2]
  exact CompareE_antisym a b r r2 h1 h2


deriving instance DecidableEq for Except

set_option maxHeartbeats 4000000

set_option maxRecDepth 10000

/-- C2 (counterexample): transitivity fails. The three keys are decodable
object-store-data records (both directed comparisons return normally on
every pair), the first compares equal to the second and the second equal to
the third, yet the first compares strictly greater than the third: the
binary payload 41 ties with its truncation 41 43 against 41 42 while the
full payloads 41 43 and 41 42 are ordered. -/
theorem C2_cex_transitivity :
    CompareE [0, 1, 1, 1, 6, 2, 0x41, 0x43] [0, 1, 1, 1, 6, 2, 0x41] = .ok 0 ∧
    CompareE [0, 1, 1, 1, 6, 2, 0x41] [0, 1, 1, 1, 6, 2, 0x41, 0x42] = .ok 0 ∧
    CompareE [0, 1, 1, 1, 6, 2, 0x41, 0x43] [0, 1, 1, 1, 6, 2, 0x41, 0x42] = .ok 1 ∧
    Compare [0, 1, 1, 1, 6, 2, 0x41, 0x43] [0, 1, 1, 1, 6, 2, 0x41] ≤ 0 ∧
    Compare [0, 1, 1, 1, 6, 2, 0x41] [0, 1, 1, 1, 6, 2, 0x41, 0x42] ≤ 0 ∧
    ¬ Compare [0, 1, 1, 1, 6, 2, 0x41, 0x43] [0, 1, 1, 1, 6, 2, 0x41, 0x42] ≤ 0 := by
  decide

/-- C2 (amended): of the claimed total-order axioms, reflexivity holds for
every byte sequence, and antisymmetry holds whenever both directed
comparisons complete without a recovered panic; transitivity does not hold
in general (C2_cex_transitivity). -/
theorem C2_total_order_amended :
    (∀ a : List Nat, Compare a a = 0) ∧
    (∀ (a b : List Nat) (r r2 : Int),
      CompareE a b = .ok r → CompareE b a = .ok r2 → Compare b a = -Compare a b) :=
  ⟨Compare_self, fun a b r r2 h1 h2 => Compare_antisym a b r r2 h1 h2⟩

theorem C2_total_order_amended_witness :
    Compare [] [] = 0 ∧ Compare [0] [0] = 0 ∧
    Compare [0, 1, 1, 1, 0] [0, 1, 1, 1, 0] = 0 ∧
    CompareE [0, 1, 1, 1, 0] [0, 1, 1, 1, 5] = .ok (-1) ∧
    CompareE [0, 1, 1, 1, 5] [0, 1, 1, 1, 0] = .ok 1 ∧
    Compare [0, 1, 1, 1, 5] [0, 1, 1, 1, 0] = -Compare [0, 1, 1, 1, 0] [0, 1, 1, 1, 5] :=
  ⟨C2_total_order_amended.1 [], C2_total_order_amended.1 [0],
    C2_total_order_amended.1 [0, 1, 1, 1, 0], by decide, by decide,
    C2_total_order_amended.2 [0, 1, 1, 1, 0] [0, 1, 1, 1, 5] (-1) 1 (by decide) (by decide)⟩

/-- C3: on every pair of byte sequences, malformed ones included, Compare
returns one of the three ordering values to its caller; every internal
decode failure is a modelled panic that the deferred recover turns into the
normal return 0, so no panic escapes the comparator. -/
theorem C3_no_crash (a b : List Nat) :
    Compare a b = -1 ∨ Compare a b = 0 ∨ Compare a b = 1 := by
  unfold Compare
  rcases h : CompareE a b with e | r
  · simp
  · exact CompareE_isOrd a b r h

/-- C9: whenever the comparator body panics (modelled as CompareE returning
an error), the recovered panic makes Compare return 0; in particular the
empty sequence fails prefix decoding against every second argument, so it
compares equal to everything. -/
theorem C9_recover_zero :
    (∀ a b : List Nat, CompareE a b = .error () → Compare a b = 0) ∧
    (∀ k : List Nat, CompareE [] k = .error () ∧ Compare [] k = 0) := by
  refine ⟨fun a b h => ?_, fun k => ⟨rfl, rfl⟩⟩
  unfold Compare
  rw [h]

theorem C9_recover_zero_witness :
    CompareE [0] [0, 1, 1, 1, 0] = .error () ∧ Compare [0] [0, 1, 1, 1, 0] = 0 :=
  ⟨by decide, C9_recover_zero.1 [0] [0, 1, 1, 1, 0] (by decide)⟩

/-- C8 (counterexample): a genuinely invalid encoding - a varint of nine
continuation bytes that never terminates, as the databaseFreeList payload of
a global-metadata key - is not reported as an error: the engine returns the
same range it returns for the payload-free truncation of the same key. -/
theorem C8_cex_invalid_not_error :
    Prefix [0, 0, 0, 0, 100, 128, 128, 128, 128, 128, 128, 128, 128, 128] =
      some ⟨[0, 0, 0, 0, 100], [0, 0, 0, 0, 101]⟩ ∧
    Prefix [0, 0, 0, 0, 100] = some ⟨[0, 0, 0, 0, 100], [0, 0, 0, 0, 101]⟩ := by
  constructor <;>
    simp +decide [Prefix, prefixKeyPrefix, prefixKeyBody, prefixEncodedIDBKeys, prefixBinary,
      prefixVarInt, prefixByte, prefixDouble, prefixStringWithLength, runComp, decodeKeyPrefix,
      decodeInt, decodeVarInt, decodeVarIntAux, pvCore, validVarInt, succBytes, encodeVarInt,
      encodeKeyPrefix, encodeKeyPrefixO, succKeyPrefix, KeyPrefix.type, leNat, toInt64, bitLen,
      bitLenAux, leBytes]

/-- C8 (amended): the engine never reports an error at all: truncation is
expected input, and genuinely invalid encodings (unterminated varints,
unknown type tags) are absorbed into a best-effort range rather than
reported, so every non-empty input prefix produces a range. -/
theorem C8_amended_no_error (p : List Nat) (h : p ≠ []) : ∃ r, Prefix p = some r := by
  unfold Prefix
  rw [if_neg h]
  exact ⟨_, rfl⟩

theorem C8_amended_no_error_witness : ∃ r, Prefix [0] = some r :=
  C8_amended_no_error [0] (by decide)

/-- C7: on the exact object-store-data key 00 01 01 01 06 02 01 23 the
engine returns the key itself as start and the key with its last payload
byte incremented as limit. -/
theorem C7_literal_prefix :
    Prefix [0, 1, 1, 1, 6, 2, 1, 0x23] =
      some ⟨[0, 1, 1, 1, 6, 2, 1, 0x23], [0, 1, 1, 1, 6, 2, 1, 0x24]⟩ := by
  simp +decide [Prefix, prefixKeyPrefix, prefixKeyBody, prefixEncodedIDBKeys, prefixBinary,
    prefixVarInt, prefixByte, prefixDouble, prefixStringWithLength, runComp, decodeKeyPrefix,
    decodeInt, decodeVarInt, decodeVarIntAux, pvCore, validVarInt, succBytes, encodeVarInt,
    encodeKeyPrefix, encodeKeyPrefixO, succKeyPrefix, KeyPrefix.type, leNat, toInt64, bitLen,
    bitLenAux, leBytes]

/-- C4: for inputs whose varint length prefixes decode, if either side's
declared length exceeds its available payload bytes, the result compares the
first min(len1, len2, available1, available2) payload bytes and breaks a tie
by the declared lengths (with empty rests); when both payloads are fully
available, it compares the full declared payloads and returns the remainders
past them. -/
theorem C4_compareBinary_truncation (a b a1 b1 : List Nat) (len1 len2 : Nat)
    (hda : decodeVarInt a = .ok (a1, len1)) (hdb : decodeVarInt b = .ok (b1, len2)) :
    (a1.length < len1 ∨ b1.length < len2 →
      compareBinary a b =
        (if bytesCmp (a1.take (min (min len1 len2) (min a1.length b1.length)))
              (b1.take (min (min len1 len2) (min a1.length b1.length))) ≠ 0 then
          .ok ([], [],
            bytesCmp (a1.take (min (min len1 len2) (min a1.length b1.length)))
              (b1.take (min (min len1 len2) (min a1.length b1.length))))
        else .ok ([], [], natCmp len1 len2))) ∧
    (len1 ≤ a1.length → len2 ≤ b1.length →
      compareBinary a b =
        .ok (a1.drop len1, b1.drop len2, bytesCmp (a1.take len1) (b1.take len2))) := by
  unfold compareBinary
  rw [hda, hdb]
  dsimp only
  constructor
  · intro h
    rw [if_pos h]
  · intro h1 h2
    rw [if_neg (by omega)]

theorem C4_compareBinary_truncation_witness :
    compareBinary [3, 65, 66] [1, 65, 66, 67] = .ok ([], [], 1) ∧
    compareBinary [2, 65, 66, 1] [1, 66] = .ok ([1], [], -1) := by
  constructor
  · have h := (C4_compareBinary_truncation [3, 65, 66] [1, 65, 66, 67]
      [65, 66] [65, 66, 67] 3 1 (by decide) (by decide)).1 (by decide)
    rw [h]
    decide
  · have h := (C4_compareBinary_truncation [2, 65, 66, 1] [1, 66]
      [65, 66, 1] [66] 2 1 (by decide) (by decide)).2 (by decide) (by decide)
    rw [h]
    decide

theorem bitLenAux_lt (fuel v : Nat) (h : v < 2 ^ fuel) : v < 2 ^ bitLenAux fuel v := by
  induction fuel generalizing v with
  | zero => simpa [bitLenAux] using h
  | succ n ih =>
    by_cases h0 : v = 0
    · simp [bitLenAux, h0]
    · rw [bitLenAux, if_neg h0]
      have hv : v / 2 < 2 ^ n := by
        rw [pow_succ] at h
        omega
      have hrec := ih (v / 2) hv
      rw [pow_succ]
      omega

theorem bitLenAux_le (fuel v k : Nat) (h : v < 2 ^ k) (hk : k ≤ fuel) :
    bitLenAux fuel v ≤ k := by
  induction fuel generalizing v k with
  | zero => simp [bitLenAux]
  | succ n ih =>
    by_cases h0 : v = 0
    · simp [bitLenAux, h0]
    · rw [bitLenAux, if_neg h0]
      have hk1 : 1 ≤ k := by
        rcases k with - | k
        · simp at h
          omega
        · omega
      have hv : v / 2 < 2 ^ (k - 1) := by
        have hp : (2:Nat) ^ k = 2 ^ (k - 1) * 2 := by
          rw [← pow_succ]
          congr 1
          omega
        omega
      have hrec := ih (v / 2) (k - 1) hv (by omega)
      omega

theorem leBytes_length (w v : Nat) : (leBytes w v).length = w := by
  induction w generalizing v with
  | zero => rfl
  | succ n ih => simp [leBytes, ih]

theorem leNat_leBytes (w v : Nat) (h : v < 2 ^ (8 * w)) : leNat (leBytes w v) = v := by
  induction w generalizing v with
  | zero =>
    simp only [Nat.mul_zero, pow_zero, Nat.lt_one_iff] at h
    simp [leBytes, leNat, h]
  | succ n ih =>
    rw [leBytes, leNat]
    have h2 : (2:Nat) ^ (8 * (n + 1)) = 2 ^ (8 * n) * 256 := by
      rw [Nat.mul_succ, pow_add]
      norm_num
    rw [ih (v / 256) (by omega)]
    omega

/-- C6 (counterexample): encodeKeyPrefix truncates indexId through uint32,
so the triple (1, 1, 2^32) encodes indexId as 0 and does not round-trip. -/
theorem C6_cex_roundtrip :
    decodeKeyPrefix (encodeKeyPrefix ⟨1, 1, 2 ^ 32⟩) = .ok ([], ⟨1, 1, 0⟩) ∧
    (⟨1, 1, 0⟩ : KeyPrefix) ≠ ⟨1, 1, 2 ^ 32⟩ := by
  decide

/-- C6 (amended): the round-trip holds for databaseId and objectStoreId in
[0, 2^63) and indexId in [0, 2^32): decoding the encoded triple returns the
same triple with an empty rest. Outside those ranges the int64/uint32 casts
of the encoder truncate (C6_cex_roundtrip). -/
theorem C6_roundtrip_amended (d s i : Int)
    (hd0 : 0 ≤ d) (hd : d < 2 ^ 63) (hs0 : 0 ≤ s) (hs : s < 2 ^ 63)
    (hi0 : 0 ≤ i) (hi : i < 2 ^ 32) :
    decodeKeyPrefix (encodeKeyPrefix ⟨d, s, i⟩) = .ok ([], ⟨d, s, i⟩) := by
  have hdmod : d % 2 ^ 64 = d := Int.emod_eq_of_lt hd0 (by omega)
  have hsmod : s % 2 ^ 64 = s := Int.emod_eq_of_lt hs0 (by omega)
  have himod : i % 2 ^ 32 = i := Int.emod_eq_of_lt hi0 (by omega)
  have henc : encodeKeyPrefix ⟨d, s, i⟩ =
      ((max ((bitLen d.toNat + 7) / 8) 1 - 1) * 32 +
        (max ((bitLen s.toNat + 7) / 8) 1 - 1) * 4 +
        (max ((bitLen i.toNat + 7) / 8) 1 - 1)) ::
      (leBytes (max ((bitLen d.toNat + 7) / 8) 1) d.toNat ++
        leBytes (max ((bitLen s.toNat + 7) / 8) 1) s.toNat ++
        leBytes (max ((bitLen i.toNat + 7) / 8) 1) i.toNat) := by
    unfold encodeKeyPrefix
    dsimp only
    rw [hdmod, hsmod, himod]
  rw [henc]
  set A := max ((bitLen d.toNat + 7) / 8) 1 with hA
  set B := max ((bitLen s.toNat + 7) / 8) 1 with hB
  set C := max ((bitLen i.toNat + 7) / 8) 1 with hC
  have hbd : bitLen d.toNat ≤ 63 := bitLenAux_le 64 d.toNat 63 (by omega) (by norm_num)
  have hbs : bitLen s.toNat ≤ 63 := bitLenAux_le 64 s.toNat 63 (by omega) (by norm_num)
  have hbi : bitLen i.toNat ≤ 32 := bitLenAux_le 64 i.toNat 32 (by omega) (by norm_num)
  have hA8 : 1 ≤ A ∧ A ≤ 8 := by omega
  have hB8 : 1 ≤ B ∧ B ≤ 8 := by omega
  have hC4 : 1 ≤ C ∧ C ≤ 4 := by omega
  have hdbit : d.toNat < 2 ^ bitLen d.toNat := bitLenAux_lt 64 d.toNat (by omega)
  have hsbit : s.toNat < 2 ^ bitLen s.toNat := bitLenAux_lt 64 s.toNat (by omega)
  have hibit : i.toNat < 2 ^ bitLen i.toNat := bitLenAux_lt 64 i.toNat (by omega)
  have hdlt : d.toNat < 2 ^ (8 * A) :=
    lt_of_lt_of_le hdbit (Nat.pow_le_pow_right (by norm_num) (by omega))
  have hslt : s.toNat < 2 ^ (8 * B) :=
    lt_of_lt_of_le hsbit (Nat.pow_le_pow_right (by norm_num) (by omega))
  have hilt : i.toNat < 2 ^ (8 * C) :=
    lt_of_lt_of_le hibit (Nat.pow_le_pow_right (by norm_num) (by omega))
  have hh1 : ((A - 1) * 32 + (B - 1) * 4 + (C - 1)) / 32 % 8 + 1 = A := by omega
  have hh2 : ((A - 1) * 32 + (B - 1) * 4 + (C - 1)) / 4 % 8 + 1 = B := by omega
  have hh3 : ((A - 1) * 32 + (B - 1) * 4 + (C - 1)) % 4 + 1 = C := by omega
  simp only [decodeKeyPrefix]
  rw [hh1, hh2, hh3]
  rw [List.append_assoc]
  have hlen : (leBytes A d.toNat ++ (leBytes B s.toNat ++ leBytes C i.toNat)).length
      = A + B + C := by
    simp [leBytes_length]
    omega
  rw [if_neg (by rw [hlen]; omega)]
  rw [List.take_left' (leBytes_length A d.toNat), List.drop_left' (leBytes_length A d.toNat)]
  rw [List.take_left' (leBytes_length B s.toNat), List.drop_left' (leBytes_length B s.toNat)]
  rw [List.take_of_length_le (le_of_eq (leBytes_length C i.toNat))]
  rw [List.drop_of_length_le (le_of_eq (leBytes_length C i.toNat))]
  have hdec1 : decodeInt (leBytes A d.toNat) = .ok d := by
    unfold decodeInt
    rw [if_neg (by rw [leBytes_length]; omega)]
    rw [leNat_leBytes A d.toNat hdlt]
    unfold toInt64
    rw [if_pos (by omega)]
    rw [Int.toNat_of_nonneg hd0]
  have hdec2 : decodeInt (leBytes B s.toNat) = .ok s := by
    unfold decodeInt
    rw [if_neg (by rw [leBytes_length]; omega)]
    rw [leNat_leBytes B s.toNat hslt]
    unfold toInt64
    rw [if_pos (by omega)]
    rw [Int.toNat_of_nonneg hs0]
  have hdec3 : decodeInt (leBytes C i.toNat) = .ok i := by
    unfold decodeInt
    rw [if_neg (by rw [leBytes_length]; omega)]
    rw [leNat_leBytes C i.toNat hilt]
    unfold toInt64
    rw [if_pos (by omega)]
    rw [Int.toNat_of_nonneg hi0]
  rw [hdec1, hdec2, hdec3]

theorem C6_roundtrip_amended_witness :
    decodeKeyPrefix (encodeKeyPrefix ⟨3, 500, 70000⟩) = .ok ([], ⟨3, 500, 70000⟩) :=
  C6_roundtrip_amended 3 500 70000 (by norm_num) (by norm_num) (by norm_num)
    (by norm_num) (by norm_num) (by norm_num)

theorem succBytes_nil_iff (b : List Nat) (hb : isBytes b) :
    succBytes b = [] ↔ ∀ x ∈ b, x = 255 := by
  induction b with
  | nil => simp [succBytes]
  | cons x xs ih =>
    have hx : x < 256 := hb x (by simp)
    have hxs : isBytes xs := fun y hy => hb y (by simp [hy])
    rw [succBytes]
    rcases hsx : succBytes xs with - | ⟨z, zs⟩
    · show (if x < 255 then [x + 1] else []) = [] ↔ ∀ y ∈ x :: xs, y = 255
      by_cases hlt : x < 255
      · rw [if_pos hlt]
        constructor
        · intro h
          simp at h
        · intro h
          have := h x (by simp)
          omega
      · rw [if_neg hlt]
        constructor
        · intro h0 y hy
          rcases List.mem_cons.mp hy with rfl | hy2
          · omega
          · exact ((ih hxs).mp hsx) y hy2
        · intro h0
          rfl
    · show x :: z :: zs = [] ↔ ∀ y ∈ x :: xs, y = 255
      constructor
      · intro h
        simp at h
      · intro h
        have hall := (ih hxs).mpr (fun y hy => h y (by simp [hy]))
        rw [hsx] at hall
        simp at hall

theorem succBytes_gt (b : List Nat) (h : succBytes b ≠ []) :
    bytesCmp b (succBytes b) = -1 := by
  induction b with
  | nil => simp [succBytes] at h
  | cons x xs ih =>
    rw [succBytes] at h ⊢
    rcases hsx : succBytes xs with - | ⟨z, zs⟩
    · rw [hsx] at h
      show bytesCmp (x :: xs) (if x < 255 then [x + 1] else []) = -1
      have h2 : (if x < 255 then [x + 1] else []) ≠ [] := h
      by_cases hlt : x < 255
      · rw [if_pos hlt]
        rw [bytesCmp, if_pos (by omega)]
      · rw [if_neg hlt] at h2
        exact absurd rfl h2
    · show bytesCmp (x :: xs) (x :: z :: zs) = -1
      rw [bytesCmp, if_neg (lt_irrefl x), if_neg (lt_irrefl x)]
      have hrec := ih (by simp [hsx])
      rw [hsx] at hrec
      exact hrec

theorem bytesCmp_all255 (xs : List Nat) :
    ∀ ys : List Nat, (∀ x ∈ xs, x = 255) → isBytes ys → ys.length ≤ xs.length →
      bytesCmp xs ys ≠ -1 := by
  induction xs with
  | nil =>
    intro ys h255 hys hlen
    rcases ys with - | ⟨y, ys⟩
    · simp [bytesCmp]
    · simp at hlen
  | cons x xs ih =>
    intro ys h255 hys hlen
    rcases ys with - | ⟨y, ys⟩
    · simp [bytesCmp]
    · have hx : x = 255 := h255 x (by simp)
      have hy : y < 256 := hys y (by simp)
      rw [bytesCmp, if_neg (by omega)]
      by_cases hlt : y < x
      · rw [if_pos hlt]
        simp
      · rw [if_neg hlt]
        exact ih ys (fun u hu => h255 u (by simp [hu])) (fun u hu => hys u (by simp [hu]))
          (by simpa using hlen)

theorem succBytes_min : ∀ b c : List Nat, isBytes b → isBytes c → c.length ≤ b.length →
    succBytes b ≠ [] → bytesCmp b c = -1 → bytesCmp (succBytes b) c ≤ 0 := by
  intro b
  induction b with
  | nil =>
    intro c hb hc hlen hs hlt
    simp [succBytes] at hs
  | cons x xs ih =>
    intro c hb hc hlen hs hlt
    rcases c with - | ⟨y, ys⟩
    · rw [bytesCmp] at hlt
      simp at hlt
    have hx : x < 256 := hb x (by simp)
    have hy : y < 256 := hc y (by simp)
    rw [succBytes] at hs ⊢
    rcases hsx : succBytes xs with - | ⟨z, zs⟩
    · rw [hsx] at hs
      have hs2 : (if x < 255 then [x + 1] else []) ≠ [] := hs
      show bytesCmp (if x < 255 then [x + 1] else []) (y :: ys) ≤ 0
      by_cases hlt255 : x < 255
      · rw [if_pos hlt255]
        rw [bytesCmp] at hlt
        by_cases hxy : x < y
        · rw [bytesCmp]
          by_cases h1 : x + 1 < y
          · rw [if_pos h1]
            norm_num
          · rw [if_neg h1, if_neg (by omega)]
            rcases ys with - | ⟨u, us⟩
            · simp [bytesCmp]
            · simp [bytesCmp]
        · rw [if_neg hxy] at hlt
          by_cases hyx : y < x
          · rw [if_pos hyx] at hlt
            simp at hlt
          · rw [if_neg hyx] at hlt
            have hall : ∀ u ∈ xs, u = 255 :=
              (succBytes_nil_iff xs (fun u hu => hb u (by simp [hu]))).mp hsx
            exact absurd hlt (bytesCmp_all255 xs ys hall
              (fun u hu => hc u (by simp [hu])) (by simpa using hlen))
      · rw [if_neg hlt255] at hs2
        exact absurd rfl hs2
    · show bytesCmp (x :: z :: zs) (y :: ys) ≤ 0
      rw [bytesCmp] at hlt
      rw [bytesCmp]
      by_cases hxy : x < y
      · rw [if_pos hxy]
        norm_num
      · rw [if_neg hxy] at hlt ⊢
        by_cases hyx : y < x
        · rw [if_pos hyx] at hlt
          simp at hlt
        · rw [if_neg hyx] at hlt ⊢
          have hrec := ih ys (fun u hu => hb u (by simp [hu])) (fun u hu => hc u (by simp [hu]))
            (by simpa using hlen) (by simp [hsx]) hlt
          rw [hsx] at hrec
          exact hrec

/-- C5: on byte sequences, succBytes returns no successor exactly when the
input is empty or all 0xFF; otherwise the result is lexicographically
strictly greater than the input and no byte sequence of at most the input
length lies strictly between the two. -/
theorem C5_succBytes (b : List Nat) (hb : isBytes b) :
    (succBytes b = [] ↔ ∀ x ∈ b, x = 255) ∧
    (succBytes b ≠ [] →
      bytesCmp b (succBytes b) = -1 ∧
      ∀ c, isBytes c → c.length ≤ b.length → bytesCmp b c = -1 →
        bytesCmp (succBytes b) c ≤ 0) :=
  ⟨succBytes_nil_iff b hb,
   fun h => ⟨succBytes_gt b h, fun c hc hlen hlt => succBytes_min b c hb hc hlen h hlt⟩⟩

theorem C5_succBytes_witness :
    succBytes [65, 255] = [66] ∧ bytesCmp [65, 255] (succBytes [65, 255]) = -1 ∧
    bytesCmp (succBytes [65, 255]) [70] ≤ 0 := by
  refine ⟨by decide, ((C5_succBytes [65, 255] (by unfold isBytes; decide)).2 (by decide)).1, ?_⟩
  exact ((C5_succBytes [65, 255] (by unfold isBytes; decide)).2 (by decide)).2 [70]
    (by unfold isBytes; decide) (by decide) (by decide)

theorem encodeVarInt_ne_nil (v : Nat) : encodeVarInt v ≠ [] := by
  rw [encodeVarInt]
  split <;> simp

theorem decodeVarIntAux_encode : ∀ v i acc rest, i ≤ 8 → v < 2 ^ (63 - 7 * i) →
    decodeVarIntAux (encodeVarInt v ++ rest) i acc = .ok (rest, acc + v * 2 ^ (7 * i)) := by
  intro v
  induction v using Nat.strong_induction_on with
  | _ v ih =>
    intro i acc rest hi hv
    rw [encodeVarInt]
    by_cases h128 : v < 128
    · rw [if_pos h128]
      show decodeVarIntAux (v :: rest) i acc = .ok (rest, acc + v * 2 ^ (7 * i))
      have hstep : decodeVarIntAux (v :: rest) i acc =
          if i ≥ 9 then .error () else
          if v % 256 < 128 then .ok (rest, acc + v % 128 * 2 ^ (7 * i))
          else decodeVarIntAux rest (i + 1) (acc + v % 128 * 2 ^ (7 * i)) := rfl
      rw [hstep, if_neg (by omega), if_pos (by omega)]
      rw [Nat.mod_eq_of_lt h128]
    · rw [if_neg h128]
      show decodeVarIntAux ((v % 128 + 128) :: (encodeVarInt (v / 128) ++ rest)) i acc =
        .ok (rest, acc + v * 2 ^ (7 * i))
      have hi7 : i ≤ 7 := by
        rcases Nat.lt_or_ge i 8 with h | h
        · omega
        · have hi8 : i = 8 := by omega
          subst hi8
          norm_num at hv
          omega
      have hstep : decodeVarIntAux ((v % 128 + 128) :: (encodeVarInt (v / 128) ++ rest)) i acc =
          if i ≥ 9 then .error () else
          if (v % 128 + 128) % 256 < 128 then
            .ok (encodeVarInt (v / 128) ++ rest, acc + (v % 128 + 128) % 128 * 2 ^ (7 * i))
          else decodeVarIntAux (encodeVarInt (v / 128) ++ rest) (i + 1)
            (acc + (v % 128 + 128) % 128 * 2 ^ (7 * i)) := rfl
      rw [hstep, if_neg (by omega), if_neg (by omega)]
      have hm : (v % 128 + 128) % 128 = v % 128 := by omega
      rw [hm]
      have hsplit : (2:Nat) ^ (63 - 7 * i) = 2 ^ (63 - 7 * (i + 1)) * 128 := by
        rw [show (128:Nat) = 2 ^ 7 from rfl, ← pow_add]
        congr 1
        omega
      have hdiv : v / 128 < 2 ^ (63 - 7 * (i + 1)) := by
        rw [hsplit] at hv
        omega
      rw [ih (v / 128) (by omega) (i + 1) (acc + v % 128 * 2 ^ (7 * i)) rest (by omega) hdiv]
      have h1 : (2:Nat) ^ (7 * (i + 1)) = 2 ^ (7 * i) * 128 := by
        rw [show (128:Nat) = 2 ^ 7 from rfl, ← pow_add]
        congr 1
        try ring
      have hv128 : v % 128 + v / 128 * 128 = v := by omega
      have halg : acc + v % 128 * 2 ^ (7 * i) + v / 128 * 2 ^ (7 * (i + 1)) =
          acc + v * 2 ^ (7 * i) := by
        rw [h1]
        calc acc + v % 128 * 2 ^ (7 * i) + v / 128 * (2 ^ (7 * i) * 128)
            = acc + (v % 128 + v / 128 * 128) * 2 ^ (7 * i) := by ring
          _ = acc + v * 2 ^ (7 * i) := by rw [hv128]
      rw [halg]

theorem decodeVarInt_encode (v : Nat) (h : v < 2 ^ 63) (rest : List Nat) :
    decodeVarInt (encodeVarInt v ++ rest) = .ok (rest, v) := by
  have hres := decodeVarIntAux_encode v 0 0 rest (by omega) (by simpa using h)
  simpa using hres

theorem decodeVarIntAux_lt : ∀ (a : List Nat) i acc rest w, i ≤ 8 → acc < 2 ^ (7 * i) →
    decodeVarIntAux a i acc = .ok (rest, w) → w < 2 ^ 63 := by
  intro a
  induction a with
  | nil =>
    intro i acc rest w hi hacc h
    simp [decodeVarIntAux] at h
  | cons x xs ih =>
    intro i acc rest w hi hacc h
    have hstep : decodeVarIntAux (x :: xs) i acc =
        if i ≥ 9 then .error () else
        if x % 256 < 128 then .ok (xs, acc + x % 128 * 2 ^ (7 * i))
        else decodeVarIntAux xs (i + 1) (acc + x % 128 * 2 ^ (7 * i)) := rfl
    rw [hstep, if_neg (by omega)] at h
    have h1 : (2:Nat) ^ (7 * (i + 1)) = 2 ^ (7 * i) * 128 := by
      rw [show (128:Nat) = 2 ^ 7 from rfl, ← pow_add]
      congr 1
      try ring
    have hmul : x % 128 * 2 ^ (7 * i) ≤ 127 * 2 ^ (7 * i) :=
      Nat.mul_le_mul_right _ (by omega)
    have hbound : acc + x % 128 * 2 ^ (7 * i) < 2 ^ (7 * (i + 1)) := by omega
    split at h
    · simp at h
      have hle : (2:Nat) ^ (7 * (i + 1)) ≤ 2 ^ 63 :=
        Nat.pow_le_pow_right (by norm_num) (by omega)
      omega
    · by_cases hi8 : i = 8
      · subst hi8
        have hkill : decodeVarIntAux xs 9 (acc + x % 128 * 2 ^ (7 * 8)) = .error () := by
          cases xs <;> simp [decodeVarIntAux]
        rw [hkill] at h
        simp at h
      · exact ih (i + 1) _ rest w (by omega) hbound h

theorem decodeVarInt_lt (a rest : List Nat) (w : Nat) (h : decodeVarInt a = .ok (rest, w)) :
    w < 2 ^ 63 :=
  decodeVarIntAux_lt a 0 0 rest w (by omega) (by norm_num) h

theorem pvCore_bounds : ∀ (p : List Nat) i acc mn mx rest, i ≤ 8 → acc < 2 ^ (7 * i) →
    pvCore p i acc = some (mn, mx, rest) → mn ≤ mx ∧ mx < 2 ^ 63 := by
  intro p
  induction p with
  | nil =>
    intro i acc mn mx rest hi hacc h
    simp only [pvCore, Option.some.injEq, Prod.mk.injEq] at h
    obtain ⟨hmn, hmx, -⟩ := h
    have h56 : (2:Nat) ^ (7 * i) ≤ 2 ^ 56 := Nat.pow_le_pow_right (by norm_num) (by omega)
    have h1 : 1 ≤ (2:Nat) ^ (7 * i) := Nat.one_le_two_pow
    by_cases hi0 : i = 0
    · subst hi0
      rw [if_pos rfl] at hmn
      simp at hmn hacc
      omega
    · rw [if_neg hi0] at hmn
      omega
  | cons x xs ih =>
    intro i acc mn mx rest hi hacc h
    have hstep : pvCore (x :: xs) i acc =
        (if x % 256 < 128 then some (acc + x % 128 * 2 ^ (7 * i), acc + x % 128 * 2 ^ (7 * i), xs)
         else if i = 8 then none else pvCore xs (i + 1) (acc + x % 128 * 2 ^ (7 * i))) := rfl
    rw [hstep] at h
    have h1 : (2:Nat) ^ (7 * (i + 1)) = 2 ^ (7 * i) * 128 := by
      rw [show (128:Nat) = 2 ^ 7 from rfl, ← pow_add]
      congr 1
      try ring
    have hmul : x % 128 * 2 ^ (7 * i) ≤ 127 * 2 ^ (7 * i) :=
      Nat.mul_le_mul_right _ (by omega)
    have hbound : acc + x % 128 * 2 ^ (7 * i) < 2 ^ (7 * (i + 1)) := by omega
    split at h
    · simp at h
      obtain ⟨hmn, hmx, -⟩ := h
      have hle : (2:Nat) ^ (7 * (i + 1)) ≤ 2 ^ 63 :=
        Nat.pow_le_pow_right (by norm_num) (by omega)
      omega
    · split at h
      · simp at h
      · exact ih (i + 1) _ mn mx rest (by omega) hbound h

theorem pvCore_decode : ∀ (p : List Nat) i acc mn mx rest p1 len,
    pvCore p i acc = some (mn, mx, rest) → decodeVarIntAux p i acc = .ok (p1, len) →
    mn = len ∧ mx = len ∧ rest = p1 := by
  intro p
  induction p with
  | nil =>
    intro i acc mn mx rest p1 len hpv hdv
    simp [decodeVarIntAux] at hdv
  | cons x xs ih =>
    intro i acc mn mx rest p1 len hpv hdv
    have hstep : pvCore (x :: xs) i acc =
        (if x % 256 < 128 then some (acc + x % 128 * 2 ^ (7 * i), acc + x % 128 * 2 ^ (7 * i), xs)
         else if i = 8 then none else pvCore xs (i + 1) (acc + x % 128 * 2 ^ (7 * i))) := rfl
    have hstep2 : decodeVarIntAux (x :: xs) i acc =
        if i ≥ 9 then .error () else
        if x % 256 < 128 then .ok (xs, acc + x % 128 * 2 ^ (7 * i))
        else decodeVarIntAux xs (i + 1) (acc + x % 128 * 2 ^ (7 * i)) := rfl
    rw [hstep] at hpv
    rw [hstep2] at hdv
    by_cases hi9 : i ≥ 9
    · rw [if_pos hi9] at hdv
      simp at hdv
    rw [if_neg hi9] at hdv
    by_cases hterm : x % 256 < 128
    · rw [if_pos hterm] at hpv hdv
      simp only [Option.some.injEq, Prod.mk.injEq, Except.ok.injEq] at hpv hdv
      obtain ⟨hmn, hmx, hrest⟩ := hpv
      obtain ⟨hp1, hlen⟩ := hdv
      refine ⟨by omega, by omega, ?_⟩
      rw [← hrest, hp1]
    · rw [if_neg hterm] at hpv hdv
      by_cases hi8 : i = 8
      · rw [if_pos hi8] at hpv
        simp at hpv
      · rw [if_neg hi8] at hpv
        exact ih (i + 1) _ mn mx rest p1 len hpv hdv

theorem succBytes_length_le (b : List Nat) : (succBytes b).length ≤ b.length := by
  induction b with
  | nil => simp [succBytes]
  | cons x xs ih =>
    rw [succBytes]
    rcases hsx : succBytes xs with - | ⟨z, zs⟩
    · show (if x < 255 then [x + 1] else []).length ≤ (x :: xs).length
      split <;> simp
    · show (x :: z :: zs).length ≤ (x :: xs).length
      rw [hsx] at ih
      simpa using ih

theorem bytesCmp_take_succ (b : List Nat) (h : succBytes b ≠ []) :
    bytesCmp (b.take (succBytes b).length) (succBytes b) = -1 := by
  induction b with
  | nil => simp [succBytes] at h
  | cons x xs ih =>
    rw [succBytes] at h ⊢
    rcases hsx : succBytes xs with - | ⟨z, zs⟩
    · rw [hsx] at h
      show bytesCmp ((x :: xs).take (if x < 255 then [x + 1] else []).length)
        (if x < 255 then [x + 1] else []) = -1
      by_cases hlt : x < 255
      · rw [if_pos hlt]
        show bytesCmp [x] [x + 1] = -1
        rw [bytesCmp, if_pos (by omega)]
      · rw [if_neg hlt] at h
        exact absurd rfl h
    · show bytesCmp ((x :: xs).take (x :: z :: zs).length) (x :: z :: zs) = -1
      show bytesCmp (x :: xs.take (z :: zs).length) (x :: z :: zs) = -1
      rw [bytesCmp, if_neg (lt_irrefl x), if_neg (lt_irrefl x)]
      have hrec := ih (by simp [hsx])
      rw [hsx] at hrec
      exact hrec

theorem leNat_lt (l : List Nat) (hb : isBytes l) : leNat l < 2 ^ (8 * l.length) := by
  induction l with
  | nil => simp [leNat]
  | cons x xs ih =>
    have hx : x < 256 := hb x (by simp)
    have hxs := ih (fun y hy => hb y (by simp [hy]))
    rw [leNat]
    have h1 : (2:Nat) ^ (8 * (x :: xs).length) = 2 ^ (8 * xs.length) * 256 := by
      rw [show (256:Nat) = 2 ^ 8 from rfl, ← pow_add]
      congr 1
      try simp only [List.length_cons]
      try ring
    omega

theorem intCmp_of_lt {a b : Int} (h : a < b) : intCmp a b = -1 := by
  unfold intCmp
  rw [if_pos h]

theorem decodeKeyPrefix_encodeKeyPrefix (d s i : Int) (rest : List Nat)
    (hd0 : -(2 ^ 63) ≤ d) (hd : d < 2 ^ 63) (hs0 : -(2 ^ 63) ≤ s) (hs : s < 2 ^ 63)
    (hi0 : 0 ≤ i) (hi : i < 2 ^ 32) :
    decodeKeyPrefix (encodeKeyPrefix ⟨d, s, i⟩ ++ rest) = .ok (rest, ⟨d, s, i⟩) := by
  have himod : i % 2 ^ 32 = i := Int.emod_eq_of_lt hi0 (by omega)
  have henc : encodeKeyPrefix ⟨d, s, i⟩ =
      ((max ((bitLen (d % 2 ^ 64).toNat + 7) / 8) 1 - 1) * 32 +
        (max ((bitLen (s % 2 ^ 64).toNat + 7) / 8) 1 - 1) * 4 +
        (max ((bitLen i.toNat + 7) / 8) 1 - 1)) ::
      (leBytes (max ((bitLen (d % 2 ^ 64).toNat + 7) / 8) 1) (d % 2 ^ 64).toNat ++
        leBytes (max ((bitLen (s % 2 ^ 64).toNat + 7) / 8) 1) (s % 2 ^ 64).toNat ++
        leBytes (max ((bitLen i.toNat + 7) / 8) 1) i.toNat) := by
    unfold encodeKeyPrefix
    dsimp only
    rw [himod]
  rw [henc]
  set D := (d % 2 ^ 64).toNat with hD
  set S := (s % 2 ^ 64).toNat with hS
  set A := max ((bitLen D + 7) / 8) 1 with hA
  set B := max ((bitLen S + 7) / 8) 1 with hB
  set C := max ((bitLen i.toNat + 7) / 8) 1 with hC
  have hD64 : D < 2 ^ 64 := by omega
  have hS64 : S < 2 ^ 64 := by omega
  have hI32 : i.toNat < 2 ^ 32 := by omega
  have hbd : bitLen D ≤ 64 := bitLenAux_le 64 D 64 hD64 (by norm_num)
  have hbs : bitLen S ≤ 64 := bitLenAux_le 64 S 64 hS64 (by norm_num)
  have hbi : bitLen i.toNat ≤ 32 := bitLenAux_le 64 i.toNat 32 hI32 (by norm_num)
  have hA8 : 1 ≤ A ∧ A ≤ 8 := by omega
  have hB8 : 1 ≤ B ∧ B ≤ 8 := by omega
  have hC4 : 1 ≤ C ∧ C ≤ 4 := by omega
  have hdbit : D < 2 ^ bitLen D := bitLenAux_lt 64 D hD64
  have hsbit : S < 2 ^ bitLen S := bitLenAux_lt 64 S hS64
  have hibit : i.toNat < 2 ^ bitLen i.toNat := bitLenAux_lt 64 i.toNat (by omega)
  have hdlt : D < 2 ^ (8 * A) :=
    lt_of_lt_of_le hdbit (Nat.pow_le_pow_right (by norm_num) (by omega))
  have hslt : S < 2 ^ (8 * B) :=
    lt_of_lt_of_le hsbit (Nat.pow_le_pow_right (by norm_num) (by omega))
  have hilt : i.toNat < 2 ^ (8 * C) :=
    lt_of_lt_of_le hibit (Nat.pow_le_pow_right (by norm_num) (by omega))
  have hh1 : ((A - 1) * 32 + (B - 1) * 4 + (C - 1)) / 32 % 8 + 1 = A := by omega
  have hh2 : ((A - 1) * 32 + (B - 1) * 4 + (C - 1)) / 4 % 8 + 1 = B := by omega
  have hh3 : ((A - 1) * 32 + (B - 1) * 4 + (C - 1)) % 4 + 1 = C := by omega
  show decodeKeyPrefix (_ :: (leBytes A D ++ leBytes B S ++ leBytes C i.toNat ++ rest)) = _
  simp only [decodeKeyPrefix]
  rw [hh1, hh2, hh3]
  rw [List.append_assoc, List.append_assoc]
  have hlen : (leBytes A D ++ (leBytes B S ++ (leBytes C i.toNat ++ rest))).length
      = A + B + C + rest.length := by
    simp [leBytes_length]
    omega
  rw [if_neg (by rw [hlen]; omega)]
  rw [List.take_left' (leBytes_length A D), List.drop_left' (leBytes_length A D)]
  rw [List.take_left' (leBytes_length B S), List.drop_left' (leBytes_length B S)]
  rw [List.take_left' (leBytes_length C i.toNat), List.drop_left' (leBytes_length C i.toNat)]
  have hdec1 : decodeInt (leBytes A D) = .ok d := by
    unfold decodeInt
    rw [if_neg (by rw [leBytes_length]; omega)]
    rw [leNat_leBytes A D hdlt]
    unfold toInt64
    split <;> (simp only [Except.ok.injEq]; omega)
  have hdec2 : decodeInt (leBytes B S) = .ok s := by
    unfold decodeInt
    rw [if_neg (by rw [leBytes_length]; omega)]
    rw [leNat_leBytes B S hslt]
    unfold toInt64
    split <;> (simp only [Except.ok.injEq]; omega)
  have hdec3 : decodeInt (leBytes C i.toNat) = .ok i := by
    unfold decodeInt
    rw [if_neg (by rw [leBytes_length]; omega)]
    rw [leNat_leBytes C i.toNat hilt]
    unfold toInt64
    split <;> (simp only [Except.ok.injEq]; omega)
  rw [hdec1, hdec2, hdec3]

theorem decodeKeyPrefix_bounds (p rest : List Nat) (kp : KeyPrefix) (hb : isBytes p)
    (h : decodeKeyPrefix p = .ok (rest, kp)) :
    -(2 ^ 63) ≤ kp.databaseId ∧ kp.databaseId < 2 ^ 63 ∧
    -(2 ^ 63) ≤ kp.objectStoreId ∧ kp.objectStoreId < 2 ^ 63 ∧
    0 ≤ kp.indexId ∧ kp.indexId < 2 ^ 32 ∧ isBytes rest := by
  rcases p with - | ⟨h0, t⟩
  · simp [decodeKeyPrefix] at h
  have hbt : isBytes t := fun y hy => hb y (by simp [hy])
  simp only [decodeKeyPrefix] at h
  split at h
  · simp at h
  rcases hd1 : decodeInt (t.take (h0 / 32 % 8 + 1)) with e | d1 <;> rw [hd1] at h
  · simp at h
  rcases hd2 : decodeInt ((t.drop (h0 / 32 % 8 + 1)).take (h0 / 4 % 8 + 1)) with e | d2 <;>
    rw [hd2] at h
  · simp at h
  rcases hd3 : decodeInt (((t.drop (h0 / 32 % 8 + 1)).drop (h0 / 4 % 8 + 1)).take (h0 % 4 + 1))
      with e | d3 <;> rw [hd3] at h
  · simp at h
  simp only [Except.ok.injEq, Prod.mk.injEq] at h
  obtain ⟨hrest, hkp⟩ := h
  subst hkp
  have key : ∀ l : List Nat, isBytes l → ∀ v : Int, decodeInt l = .ok v →
      -(2 ^ 63) ≤ v ∧ v < 2 ^ 63 ∧ (l.length ≤ 4 → 0 ≤ v ∧ v < 2 ^ 32) := by
    intro l hl v hv
    unfold decodeInt at hv
    split at hv
    · simp at hv
    · simp only [Except.ok.injEq] at hv
      subst hv
      have hlt := leNat_lt l hl
      have hlen8 : l.length ≤ 8 := by omega
      have hle64 : (2:Nat) ^ (8 * l.length) ≤ 2 ^ 64 :=
        Nat.pow_le_pow_right (by norm_num) (by omega)
      unfold toInt64
      constructor
      · split <;> omega
      constructor
      · split <;> omega
      · intro h4
        have hle32 : (2:Nat) ^ (8 * l.length) ≤ 2 ^ 32 :=
          Nat.pow_le_pow_right (by norm_num) (by omega)
        split <;> omega
  have htk : ∀ (l : List Nat), isBytes l → ∀ n, isBytes (l.take n) :=
    fun l hl n y hy => hl y (List.take_subset n l hy)
  have hdr : ∀ (l : List Nat), isBytes l → ∀ n, isBytes (l.drop n) :=
    fun l hl n y hy => hl y (List.drop_subset n l hy)
  have k1 := key _ (htk t hbt _) d1 hd1
  have k2 := key _ (htk _ (hdr t hbt _) _) d2 hd2
  have k3 := key _ (htk _ (hdr _ (hdr t hbt _) _) _) d3 hd3
  have hlen3 : (((t.drop (h0 / 32 % 8 + 1)).drop (h0 / 4 % 8 + 1)).take (h0 % 4 + 1)).length ≤ 4 := by
    have := List.length_take_le (h0 % 4 + 1) ((t.drop (h0 / 32 % 8 + 1)).drop (h0 / 4 % 8 + 1))
    omega
  refine ⟨k1.1, k1.2.1, k2.1, k2.2.1, (k3.2.2 hlen3).1, (k3.2.2 hlen3).2, ?_⟩
  rw [← hrest]
  exact hdr _ (hdr _ (hdr t hbt _) _) _

theorem compareKeyPrefix_succ (k k2 km : KeyPrefix) (hsucc : succKeyPrefix k = some k2)
    (hd : km.databaseId ≤ k.databaseId) (hs : km.objectStoreId ≤ k.objectStoreId)
    (hi : km.indexId ≤ k.indexId) : compareKeyPrefix km k2 = -1 := by
  unfold succKeyPrefix at hsucc
  split at hsucc
  · simp only [Option.some.injEq] at hsucc
    subst hsucc
    unfold compareKeyPrefix
    dsimp only
    rcases lt_or_eq_of_le hd with h | h
    · rw [if_pos (show intCmp km.databaseId k.databaseId ≠ 0 by rw [intCmp_of_lt h]; decide)]
      exact intCmp_of_lt h
    · rw [h]
      rw [if_neg (show ¬(intCmp k.databaseId k.databaseId ≠ 0) by rw [intCmp_self]; simp)]
      rcases lt_or_eq_of_le hs with h2 | h2
      · rw [if_pos (show intCmp km.objectStoreId k.objectStoreId ≠ 0 by
          rw [intCmp_of_lt h2]; decide)]
        exact intCmp_of_lt h2
      · rw [h2]
        rw [if_neg (show ¬(intCmp k.objectStoreId k.objectStoreId ≠ 0) by
          rw [intCmp_self]; simp)]
        exact intCmp_of_lt (by omega)
  · split at hsucc
    · simp only [Option.some.injEq] at hsucc
      subst hsucc
      unfold compareKeyPrefix
      dsimp only
      rcases lt_or_eq_of_le hd with h | h
      · rw [if_pos (show intCmp km.databaseId k.databaseId ≠ 0 by rw [intCmp_of_lt h]; decide)]
        exact intCmp_of_lt h
      · rw [h]
        rw [if_neg (show ¬(intCmp k.databaseId k.databaseId ≠ 0) by rw [intCmp_self]; simp)]
        rw [if_pos (show intCmp km.objectStoreId (k.objectStoreId + 1) ≠ 0 by
          rw [intCmp_of_lt (by omega)]; decide)]
        exact intCmp_of_lt (by omega)
    · split at hsucc
      · simp only [Option.some.injEq] at hsucc
        subst hsucc
        unfold compareKeyPrefix
        dsimp only
        rw [if_pos (show intCmp km.databaseId (k.databaseId + 1) ≠ 0 by
          rw [intCmp_of_lt (by omega)]; decide)]
        exact intCmp_of_lt (by omega)
      · simp at hsucc

theorem natCmp_of_lt {x y : Nat} (h : x < y) : natCmp x y = -1 := by
  unfold natCmp
  rw [if_pos h]

/-- Continuation pair: a start/limit tail pair produced by running the head
component of a queue on a byte input shorter than the bound. -/
def TP (m : Nat) (q : List PComp) (a b : List Nat) : Prop :=
  b ≠ [] ∧ ∃ c q2 p2, q = c :: q2 ∧ isBytes p2 ∧ p2.length < m ∧ runComp c p2 q2 = (a, b)

theorem TP_mono {m m2 : Nat} {q : List PComp} {a b : List Nat} (h : m ≤ m2)
    (htp : TP m q a b) : TP m2 q a b := by
  obtain ⟨hb, c, q2, p2, hq, hby, hlen, hrun⟩ := htp
  exact ⟨hb, c, q2, p2, hq, hby, by omega, hrun⟩

theorem pvCore_isBytes : ∀ (p : List Nat) i acc mn mx rest, isBytes p →
    pvCore p i acc = some (mn, mx, rest) → isBytes rest := by
  intro p
  induction p with
  | nil =>
    intro i acc mn mx rest hb h
    simp only [pvCore, Option.some.injEq, Prod.mk.injEq] at h
    rw [← h.2.2]
    intro y hy
    simp at hy
  | cons x xs ih =>
    intro i acc mn mx rest hb h
    have hstep : pvCore (x :: xs) i acc =
        (if x % 256 < 128 then some (acc + x % 128 * 2 ^ (7 * i), acc + x % 128 * 2 ^ (7 * i), xs)
         else if i = 8 then none else pvCore xs (i + 1) (acc + x % 128 * 2 ^ (7 * i))) := rfl
    rw [hstep] at h
    have hxs : isBytes xs := fun y hy => hb y (by simp [hy])
    split at h
    · simp only [Option.some.injEq, Prod.mk.injEq] at h
      rw [← h.2.2]
      exact hxs
    · split at h
      · simp at h
      · exact ih (i + 1) _ mn mx rest hxs h

theorem decodeVarIntAux_isBytes : ∀ (a : List Nat) i acc rest w, isBytes a →
    decodeVarIntAux a i acc = .ok (rest, w) → isBytes rest := by
  intro a
  induction a with
  | nil =>
    intro i acc rest w hb h
    simp [decodeVarIntAux] at h
  | cons x xs ih =>
    intro i acc rest w hb h
    have hstep : decodeVarIntAux (x :: xs) i acc =
        if i ≥ 9 then .error () else
        if x % 256 < 128 then .ok (xs, acc + x % 128 * 2 ^ (7 * i))
        else decodeVarIntAux xs (i + 1) (acc + x % 128 * 2 ^ (7 * i)) := rfl
    rw [hstep] at h
    have hxs : isBytes xs := fun y hy => hb y (by simp [hy])
    split at h
    · simp at h
    · split at h
      · simp only [Except.ok.injEq, Prod.mk.injEq] at h
        rw [← h.1]
        exact hxs
      · exact ih (i + 1) _ rest w hxs h

theorem decodeVarInt_isBytes (a rest : List Nat) (w : Nat) (hb : isBytes a)
    (h : decodeVarInt a = .ok (rest, w)) : isBytes rest :=
  decodeVarIntAux_isBytes a 0 0 rest w hb h


theorem combineStep_ne_nil (s0 lim : List Nat) (T : List Nat × List Nat) (st lt : List Nat)
    (hs : s0 ≠ [])
    (h : (if T.2 ≠ [] then (s0 ++ T.1, s0 ++ T.2) else (s0 ++ T.1, lim)) = (st, lt)) :
    st ≠ [] := by
  split at h <;> (injection h with h1 h2; subst h1; simp [hs])

theorem prefixEncodedIDBKeys_ne_nil (p : List Nat) (q : List PComp) (st lt : List Nat)
    (hrun : prefixEncodedIDBKeys p q = (st, lt)) (hlt : lt ≠ []) : st ≠ [] := by
  rcases p with - | ⟨x, t⟩
  · rw [show prefixEncodedIDBKeys [] q = ([], []) from by simp [prefixEncodedIDBKeys]] at hrun
    simp only [Prod.mk.injEq] at hrun
    exact absurd hrun.2.symm hlt
  · simp only [prefixEncodedIDBKeys] at hrun
    by_cases hx0 : x = 0
    · rw [if_pos hx0] at hrun
      dsimp only at hrun
      exact combineStep_ne_nil _ _ _ st lt (by simp) hrun
    rw [if_neg hx0] at hrun
    by_cases hx4 : x = 4
    · rw [if_pos hx4] at hrun
      dsimp only at hrun
      exact combineStep_ne_nil _ _ _ st lt (by simp) hrun
    rw [if_neg hx4] at hrun
    by_cases hx6 : x = 6
    · rw [if_pos hx6] at hrun
      dsimp only at hrun
      exact combineStep_ne_nil _ _ _ st lt (by simp) hrun
    rw [if_neg hx6] at hrun
    by_cases hx1 : x = 1
    · rw [if_pos hx1] at hrun
      dsimp only at hrun
      exact combineStep_ne_nil _ _ _ st lt (by simp) hrun
    rw [if_neg hx1] at hrun
    by_cases hx2 : x = 2
    · rw [if_pos hx2] at hrun
      dsimp only at hrun
      exact combineStep_ne_nil _ _ _ st lt (by simp) hrun
    rw [if_neg hx2] at hrun
    by_cases hx3 : x = 3
    · rw [if_pos hx3] at hrun
      dsimp only at hrun
      exact combineStep_ne_nil _ _ _ st lt (by simp) hrun
    rw [if_neg hx3] at hrun
    by_cases hx5 : x = 5
    · rw [if_pos hx5] at hrun
      dsimp only at hrun
      exact combineStep_ne_nil _ _ _ st lt (by simp) hrun
    · rw [if_neg hx5] at hrun
      dsimp only at hrun
      rw [if_neg (show ¬(([] : List Nat) ≠ []) by simp)] at hrun
      injection hrun with h1 h2
      exact absurd h2.symm hlt

theorem decodeVarInt_encode2 (v : Nat) (h : v < 2 ^ 63) :
    decodeVarInt (encodeVarInt v) = .ok ([], v) := by
  have hres := decodeVarInt_encode v h []
  simpa using hres

theorem compareBinary_varCase (mn mx : Nat) (st2 : List Nat) (hle : mn ≤ mx)
    (hlt : mx + 1 < 2 ^ 63) :
    compareBinary (encodeVarInt mn ++ st2) (encodeVarInt (mx + 1)) = .ok ([], [], -1) := by
  unfold compareBinary
  rw [decodeVarInt_encode mn (by omega) st2, decodeVarInt_encode2 (mx + 1) hlt]
  dsimp only
  rw [if_pos (Or.inr (by simpa using Nat.succ_pos mx))]
  have hmin : min (min mn (mx + 1)) (min st2.length ([] : List Nat).length) = 0 := by
    simp
  rw [hmin]
  simp only [List.take_zero]
  rw [if_neg (show ¬(bytesCmp [] [] ≠ 0) by decide)]
  rw [natCmp_of_lt (by omega)]

theorem compareBinary_succCase (B ts : List Nat) (length : Nat) (hlen : length < 2 ^ 63)
    (hble : B.length ≤ length) (hsne : succBytes B ≠ []) :
    ∃ u v, compareBinary (encodeVarInt length ++ B ++ ts)
      (encodeVarInt length ++ succBytes B) = .ok (u, v, -1) := by
  rw [List.append_assoc]
  unfold compareBinary
  rw [decodeVarInt_encode length hlen (B ++ ts), decodeVarInt_encode length hlen (succBytes B)]
  dsimp only
  have hsle : (succBytes B).length ≤ B.length := succBytes_length_le B
  by_cases htr : (B ++ ts).length < length ∨ (succBytes B).length < length
  · refine ⟨[], [], ?_⟩
    rw [if_pos htr]
    have hmin : min (min length length) (min (B ++ ts).length (succBytes B).length) =
        (succBytes B).length := by
      rw [List.length_append]
      omega
    rw [hmin]
    rw [List.take_append_of_le_length hsle, List.take_length]
    rw [bytesCmp_take_succ B hsne]
    rw [if_pos (show (-1 : Int) ≠ 0 by decide)]
  · refine ⟨(B ++ ts).drop length, (succBytes B).drop length, ?_⟩
    rw [if_neg htr]
    push_neg at htr
    have hBlen : B.length = length := by
      rw [List.length_append] at htr
      omega
    have hslen : (succBytes B).length = length := by omega
    rw [List.take_left' hBlen, List.take_of_length_le (le_of_eq hslen)]
    rw [succBytes_gt B hsne]

theorem compareBinary_nilSuccCase (B ts : List Nat) (length : Nat)
    (hlen : length < 2 ^ 63 - 1) :
    compareBinary (encodeVarInt length ++ B ++ ts) (encodeVarInt (length + 1)) =
      .ok ([], [], -1) := by
  rw [List.append_assoc]
  unfold compareBinary
  rw [decodeVarInt_encode length (by omega) (B ++ ts), decodeVarInt_encode2 (length + 1) (by omega)]
  dsimp only
  rw [if_pos (Or.inr (by simpa using Nat.succ_pos length))]
  have hmin : min (min length (length + 1)) (min (B ++ ts).length ([] : List Nat).length) = 0 := by
    simp
  rw [hmin]
  simp only [List.take_zero]
  rw [if_neg (show ¬(bytesCmp [] [] ≠ 0) by decide)]
  rw [natCmp_of_lt (by omega)]

theorem compareStringWithLength_varCase (mn mx : Nat) (st2 : List Nat) (hle : mn ≤ mx)
    (hlt : mx + 1 < 2 ^ 63) :
    compareStringWithLength (encodeVarInt mn ++ st2) (encodeVarInt (mx + 1)) =
      .ok ([], [], -1) := by
  unfold compareStringWithLength
  rw [decodeVarInt_encode mn (by omega) st2, decodeVarInt_encode2 (mx + 1) hlt]
  dsimp only
  rw [if_pos (Or.inr (by simpa using Nat.succ_pos (2 * mx + 1)))]
  have hmin : min (min (2 * mn) (2 * (mx + 1))) (min st2.length ([] : List Nat).length) = 0 := by
    simp
  rw [hmin]
  simp only [List.take_zero]
  rw [if_neg (show ¬(bytesCmp [] [] ≠ 0) by decide)]
  rw [natCmp_of_lt (by omega)]

theorem compareStringWithLength_succCase (B ts : List Nat) (v : Nat) (hlen : v < 2 ^ 63)
    (hble : B.length ≤ 2 * v) (hsne : succBytes B ≠ []) :
    ∃ u w, compareStringWithLength (encodeVarInt v ++ B ++ ts)
      (encodeVarInt v ++ succBytes B) = .ok (u, w, -1) := by
  rw [List.append_assoc]
  unfold compareStringWithLength
  rw [decodeVarInt_encode v hlen (B ++ ts), decodeVarInt_encode v hlen (succBytes B)]
  dsimp only
  have hsle : (succBytes B).length ≤ B.length := succBytes_length_le B
  by_cases htr : (B ++ ts).length < 2 * v ∨ (succBytes B).length < 2 * v
  · refine ⟨[], [], ?_⟩
    rw [if_pos htr]
    have hmin : min (min (2 * v) (2 * v)) (min (B ++ ts).length (succBytes B).length) =
        (succBytes B).length := by
      rw [List.length_append]
      omega
    rw [hmin]
    rw [List.take_append_of_le_length hsle, List.take_length]
    rw [bytesCmp_take_succ B hsne]
    rw [if_pos (show (-1 : Int) ≠ 0 by decide)]
  · refine ⟨(B ++ ts).drop (2 * v), (succBytes B).drop (2 * v), ?_⟩
    rw [if_neg htr]
    push_neg at htr
    have hBlen : B.length = 2 * v := by
      rw [List.length_append] at htr
      omega
    have hslen : (succBytes B).length = 2 * v := by omega
    rw [List.take_left' hBlen, List.take_of_length_le (le_of_eq hslen)]
    rw [succBytes_gt B hsne]

theorem compareStringWithLength_nilSuccCase (B ts : List Nat) (v : Nat)
    (hlen : v < 2 ^ 63 - 1) :
    compareStringWithLength (encodeVarInt v ++ B ++ ts) (encodeVarInt (v + 1)) =
      .ok ([], [], -1) := by
  rw [List.append_assoc]
  unfold compareStringWithLength
  rw [decodeVarInt_encode v (by omega) (B ++ ts), decodeVarInt_encode2 (v + 1) (by omega)]
  dsimp only
  rw [if_pos (Or.inr (by simpa using Nat.succ_pos (2 * v + 1)))]
  have hmin : min (min (2 * v) (2 * (v + 1))) (min (B ++ ts).length ([] : List Nat).length) = 0 := by
    simp
  rw [hmin]
  simp only [List.take_zero]
  rw [if_neg (show ¬(bytesCmp [] [] ≠ 0) by decide)]
  rw [natCmp_of_lt (by omega)]

theorem encodeVarInt_length_pos (v : Nat) : 0 < (encodeVarInt v).length :=
  List.length_pos.mpr (encodeVarInt_ne_nil v)

theorem cmpIDBKeys_rankLess (f : Nat) (x y : Nat) (a b : List Nat)
    (h : natCmp (keyTypeByteToKeyType x) (keyTypeByteToKeyType y) = -1) :
    cmpIDBKeys f (x :: a) (y :: b) = none ∨
    cmpIDBKeys f (x :: a) (y :: b) = some (.ok (a, b, -1)) := by
  rcases f with - | f
  · left
    rfl
  · right
    simp only [cmpIDBKeys]
    rw [h]
    rw [if_pos (show (-1 : Int) ≠ 0 by decide)]

theorem cmpIDBLoop_nilRight : ∀ f n (a : List Nat),
    cmpIDBLoop f n a [] = none ∨ cmpIDBLoop f n a [] = some (.ok (a, [], none)) := by
  intro f n a
  rcases f with - | f
  · left
    rfl
  · rcases n with - | n
    · right
      rfl
    · right
      simp only [cmpIDBLoop]
      rw [if_pos (show a.length = 0 ∨ ([] : List Nat).length = 0 from Or.inr rfl)]

theorem cmpIDBKeys_tag05 (f : Nat) (x : Nat) (a b : List Nat) (hx : x = 0 ∨ x = 5) :
    cmpIDBKeys (f + 1) (x :: a) (x :: b) = some (.ok (a, b, 0)) := by
  rcases hx with rfl | rfl <;> rfl

theorem cmpIDBKeys_tag4 (f : Nat) (a b : List Nat) :
    cmpIDBKeys (f + 1) (4 :: a) (4 :: b) =
      (if a.length = 0 ∨ b.length = 0 then some (.ok (a, b, natCmp a.length b.length))
       else
         match decodeVarInt a, decodeVarInt b with
         | .ok (a2, len1), .ok (b2, len2) =>
           match cmpIDBLoop f (min len1 len2) a2 b2 with
           | none => none
           | some (.error e) => some (.error e)
           | some (.ok (a3, b3, some r)) => some (.ok (a3, b3, r))
           | some (.ok (a3, b3, none)) => some (.ok (a3, b3, natCmp len1 len2))
         | _, _ => some (.error ())) := rfl

theorem cmpIDBKeys_tag6 (f : Nat) (a b : List Nat) :
    cmpIDBKeys (f + 1) (6 :: a) (6 :: b) =
      (if a.length = 0 ∨ b.length = 0 then some (.ok (a, b, natCmp a.length b.length))
       else some (compareBinary a b)) := rfl

theorem cmpIDBKeys_tag1 (f : Nat) (a b : List Nat) :
    cmpIDBKeys (f + 1) (1 :: a) (1 :: b) =
      (if a.length = 0 ∨ b.length = 0 then some (.ok (a, b, natCmp a.length b.length))
       else some (compareStringWithLength a b)) := rfl

theorem cmpIDBKeys_tag23 (f : Nat) (x : Nat) (a b : List Nat) (hx : x = 2 ∨ x = 3) :
    cmpIDBKeys (f + 1) (x :: a) (x :: b) =
      (if a.length = 0 ∨ b.length = 0 then some (.ok (a, b, natCmp a.length b.length))
       else some (compareDouble a b)) := by
  rcases hx with rfl | rfl <;> rfl

/-- Conclusion shapes of prefixByte on inputs where the limit is nonempty. -/
def PBp (p : List Nat) : Prop := ∀ q st lt, prefixByte p q = (st, lt) → lt ≠ [] →
  (∃ x st2, st = x :: st2 ∧ lt = [x + 1]) ∨
  (∃ x st2 lt2, st = x :: st2 ∧ lt = x :: lt2 ∧ TP p.length q st2 lt2)

/-- Conclusion shapes of prefixVarInt. -/
def PVp (p : List Nat) : Prop := ∀ q st lt, prefixVarInt p q = (st, lt) → lt ≠ [] →
  (∃ mn mx st2, st = encodeVarInt mn ++ st2 ∧ lt = encodeVarInt (mx + 1) ∧ mn ≤ mx ∧
    mx + 1 < 2 ^ 63) ∨
  (∃ mn st2 lt2, st = encodeVarInt mn ++ st2 ∧ lt = encodeVarInt mn ++ lt2 ∧ mn < 2 ^ 63 ∧
    (∀ p1 len, decodeVarInt p = .ok (p1, len) → mn = len) ∧ TP p.length q st2 lt2)

/-- Conclusion of prefixDouble against compareDouble. -/
def PDp (p : List Nat) : Prop := ∀ q st lt, prefixDouble p q = (st, lt) → lt ≠ [] →
  ∃ st2 lt2, compareDouble st lt = .ok (st2, lt2, 0) ∧ TP p.length q st2 lt2

/-- Conclusion of prefixBinary against compareBinary. -/
def PCBp (p : List Nat) : Prop := ∀ q st lt, prefixBinary p q = (st, lt) → lt ≠ [] →
  (∃ u v, compareBinary st lt = .ok (u, v, -1)) ∨
  (∃ st2 lt2, compareBinary st lt = .ok (st2, lt2, 0) ∧ TP p.length q st2 lt2)

/-- Conclusion of prefixStringWithLength against compareStringWithLength. -/
def PCSp (p : List Nat) : Prop := ∀ q st lt, prefixStringWithLength p q = (st, lt) → lt ≠ [] →
  (∃ u v, compareStringWithLength st lt = .ok (u, v, -1)) ∨
  (∃ st2 lt2, compareStringWithLength st lt = .ok (st2, lt2, 0) ∧ TP p.length q st2 lt2)

/-- Conclusion of prefixEncodedIDBKeys against the comparator. -/
def PIp (p : List Nat) : Prop := ∀ q st lt, prefixEncodedIDBKeys p q = (st, lt) → lt ≠ [] →
  ∀ f, cmpIDBKeys f st lt = none ∨ cmpIDBKeys f st lt = some (.error ()) ∨
    (∃ u v, cmpIDBKeys f st lt = some (.ok (u, v, -1))) ∨
    (∃ st2 lt2, cmpIDBKeys f st lt = some (.ok (st2, lt2, 0)) ∧ TP p.length q st2 lt2)

theorem engineMaster : ∀ n p, p.length ≤ n → isBytes p →
    PBp p ∧ PVp p ∧ PDp p ∧ PCBp p ∧ PCSp p ∧ PIp p := by
  intro n
  induction n using Nat.strong_induction_on with
  | _ n ih =>
    intro p hn hb
    have hPB : PBp p := by
      intro q st lt hrun hlt
      rcases p with - | ⟨x, t⟩
      · rw [show prefixByte [] q = ([], []) from by simp [prefixByte]] at hrun
        simp only [Prod.mk.injEq] at hrun
        exact absurd hrun.2.symm hlt
      · simp only [prefixByte] at hrun
        by_cases hc : t ≠ [] ∧ q ≠ []
        · rw [dif_pos hc] at hrun
          rcases q with - | ⟨c, q2⟩
          · exact absurd rfl hc.2
          simp only [List.head_cons, List.tail_cons] at hrun
          rcases hrc : runComp c t q2 with ⟨ts, tl⟩
          rw [hrc] at hrun
          dsimp only at hrun
          by_cases htl : tl ≠ []
          · rw [if_pos htl] at hrun
            injection hrun with h1 h2
            subst h1 h2
            exact Or.inr ⟨x, ts, tl, rfl, rfl,
              ⟨htl, c, q2, t, rfl, fun y hy => hb y (by simp [hy]), by simp, hrc⟩⟩
          · rw [if_neg htl] at hrun
            by_cases hx : x < 255
            · rw [if_pos hx] at hrun
              injection hrun with h1 h2
              subst h1 h2
              exact Or.inl ⟨x, ts, rfl, rfl⟩
            · rw [if_neg hx] at hrun
              injection hrun with h1 h2
              exact absurd h2.symm hlt
        · rw [dif_neg hc] at hrun
          dsimp only at hrun
          rw [if_neg (show ¬(([] : List Nat) ≠ []) by simp)] at hrun
          by_cases hx : x < 255
          · rw [if_pos hx] at hrun
            injection hrun with h1 h2
            subst h1 h2
            exact Or.inl ⟨x, [], rfl, rfl⟩
          · rw [if_neg hx] at hrun
            injection hrun with h1 h2
            exact absurd h2.symm hlt
    have hPV : PVp p := by
      intro q st lt hrun hlt
      simp only [prefixVarInt] at hrun
      split at hrun
      · injection hrun with h1 h2
        exact absurd h2.symm hlt
      · rename_i mn mx rest hpv
        have hbounds := pvCore_bounds p 0 0 mn mx rest (by omega) (by norm_num) hpv
        by_cases hc : rest ≠ [] ∧ q ≠ []
        · rw [dif_pos hc] at hrun
          rcases q with - | ⟨c, q2⟩
          · exact absurd rfl hc.2
          simp only [List.head_cons, List.tail_cons] at hrun
          rcases hrc : runComp c rest q2 with ⟨ts, tl⟩
          rw [hrc] at hrun
          dsimp only at hrun
          have hrest_lt : rest.length < p.length := by
            rcases pvCore_rest p 0 0 mn mx rest hpv with h | h
            · exact h
            · exact absurd h hc.1
          have hrest_bytes : isBytes rest := pvCore_isBytes p 0 0 mn mx rest hb hpv
          by_cases htl : tl ≠ []
          · rw [if_pos htl] at hrun
            injection hrun with h1 h2
            subst h1 h2
            refine Or.inr ⟨mn, ts, tl, rfl, rfl, by omega, ?_,
              htl, c, q2, rest, rfl, hrest_bytes, hrest_lt, hrc⟩
            intro p1 len hdv
            exact (pvCore_decode p 0 0 mn mx rest p1 len hpv hdv).1
          · rw [if_neg htl] at hrun
            by_cases hmx : mx < 2 ^ 63 - 1
            · rw [if_pos hmx] at hrun
              injection hrun with h1 h2
              subst h1 h2
              exact Or.inl ⟨mn, mx, ts, rfl, rfl, hbounds.1, by omega⟩
            · rw [if_neg hmx] at hrun
              injection hrun with h1 h2
              exact absurd h2.symm hlt
        · rw [dif_neg hc] at hrun
          dsimp only at hrun
          rw [if_neg (show ¬(([] : List Nat) ≠ []) by simp)] at hrun
          by_cases hmx : mx < 2 ^ 63 - 1
          · rw [if_pos hmx] at hrun
            injection hrun with h1 h2
            subst h1 h2
            exact Or.inl ⟨mn, mx, [], rfl, rfl, hbounds.1, by omega⟩
          · rw [if_neg hmx] at hrun
            injection hrun with h1 h2
            exact absurd h2.symm hlt
    have hPD : PDp p := by
      intro q st lt hrun hlt
      simp only [prefixDouble] at hrun
      by_cases h8 : p.length < 8
      · rw [if_pos h8] at hrun
        injection hrun with h1 h2
        exact absurd h2.symm hlt
      · rw [if_neg h8] at hrun
        by_cases hc : p.length > 8 ∧ q ≠ []
        · rw [dif_pos hc] at hrun
          rcases q with - | ⟨c, q2⟩
          · exact absurd rfl hc.2
          simp only [List.head_cons, List.tail_cons] at hrun
          rcases hrc : runComp c (p.drop 8) q2 with ⟨ts, tl⟩
          rw [hrc] at hrun
          dsimp only at hrun
          by_cases htl : tl ≠ []
          · rw [if_pos htl] at hrun
            injection hrun with h1 h2
            subst h1 h2
            have hlen8 : (p.take 8).length = 8 := by
              rw [List.length_take]
              omega
            refine ⟨ts, tl, ?_, htl, c, q2, p.drop 8, rfl,
              fun y hy => hb y (List.drop_subset _ _ hy), by rw [List.length_drop]; omega, hrc⟩
            unfold compareDouble
            rw [if_neg (by
              rw [List.length_append, List.length_append, hlen8]
              push_neg
              constructor <;> omega)]
            rw [List.drop_left' hlen8, List.drop_left' hlen8,
              List.take_left' hlen8, List.take_left' hlen8]
            rw [floatCmp_self]
          · rw [if_neg htl] at hrun
            injection hrun with h1 h2
            exact absurd h2.symm hlt
        · rw [dif_neg hc] at hrun
          dsimp only at hrun
          rw [if_neg (show ¬(([] : List Nat) ≠ []) by simp)] at hrun
          injection hrun with h1 h2
          exact absurd h2.symm hlt
    have hPCB : PCBp p := by
      intro q st lt hrun hlt
      simp only [prefixBinary] at hrun
      by_cases hvv : validVarInt p = false
      · rw [if_pos hvv] at hrun
        rcases hPV [] st lt hrun hlt with ⟨mn, mx, st2, rfl, rfl, hle, hlt63⟩ |
          ⟨mn, st2, lt2, -, -, -, -, -, c, q2, p2, hq, -⟩
        · exact Or.inl ⟨[], [], compareBinary_varCase mn mx st2 hle hlt63⟩
        · exact absurd hq (by simp)
      · rw [if_neg hvv] at hrun
        split at hrun
        · injection hrun with h1 h2
          exact absurd h2.symm hlt
        · rename_i p1 length hdv
          have hlen63 := decodeVarInt_lt p p1 length hdv
          have hp1b : isBytes p1 := decodeVarInt_isBytes p p1 length hb hdv
          have hp1lt : p1.length < p.length := decodeVarInt_rest p p1 length hdv
          by_cases hbody : p1.length > length
          · rw [if_pos hbody] at hrun
            have hblen : (p1.take length).length = length := by
              rw [List.length_take]
              omega
            by_cases hc : p1.length > length ∧ q ≠ []
            · rw [dif_pos hc] at hrun
              rcases q with - | ⟨c, q2⟩
              · exact absurd rfl hc.2
              simp only [List.head_cons, List.tail_cons] at hrun
              rcases hrc : runComp c (p1.drop length) q2 with ⟨ts, tl⟩
              rw [hrc] at hrun
              dsimp only at hrun
              by_cases htl : tl ≠ []
              · rw [if_pos htl] at hrun
                injection hrun with h1 h2
                subst h1 h2
                right
                refine ⟨ts, tl, ?_, htl, c, q2, p1.drop length, rfl,
                  fun y hy => hp1b y (List.drop_subset _ _ hy),
                  by rw [List.length_drop]; omega, hrc⟩
                rw [List.append_assoc, List.append_assoc]
                unfold compareBinary
                rw [decodeVarInt_encode length hlen63 _, decodeVarInt_encode length hlen63 _]
                dsimp only
                rw [if_neg (by
                  rw [List.length_append, List.length_append, hblen]
                  push_neg
                  constructor <;> omega)]
                rw [List.drop_left' hblen, List.drop_left' hblen,
                  List.take_left' hblen, List.take_left' hblen]
                rw [bytesCmp_self]
              · rw [if_neg htl] at hrun
                rcases hsucc : succBytes (p1.take length) with - | ⟨z, zs⟩ <;> rw [hsucc] at hrun
                · dsimp only at hrun
                  by_cases hlen2 : length < 2 ^ 63 - 1
                  · rw [if_pos hlen2] at hrun
                    injection hrun with h1 h2
                    subst h1 h2
                    exact Or.inl ⟨[], [], compareBinary_nilSuccCase _ _ _ hlen2⟩
                  · rw [if_neg hlen2] at hrun
                    injection hrun with h1 h2
                    exact absurd h2.symm hlt
                · dsimp only at hrun
                  injection hrun with h1 h2
                  subst h1 h2
                  left
                  have hres := compareBinary_succCase (p1.take length) ts length hlen63
                    (le_of_eq hblen) (by simp [hsucc])
                  rw [hsucc] at hres
                  exact hres
            · rw [dif_neg hc] at hrun
              dsimp only at hrun
              rcases hsucc : succBytes (p1.take length) with - | ⟨z, zs⟩ <;> rw [hsucc] at hrun
              · dsimp only at hrun
                by_cases hlen2 : length < 2 ^ 63 - 1
                · rw [if_pos hlen2] at hrun
                  injection hrun with h1 h2
                  subst h1 h2
                  exact Or.inl ⟨[], [], compareBinary_nilSuccCase _ _ _ hlen2⟩
                · rw [if_neg hlen2] at hrun
                  injection hrun with h1 h2
                  exact absurd h2.symm hlt
              · dsimp only at hrun
                injection hrun with h1 h2
                subst h1 h2
                left
                have hres := compareBinary_succCase (p1.take length) ([] : List Nat) length hlen63
                  (le_of_eq hblen) (by simp [hsucc])
                rw [hsucc] at hres
                exact hres
          · rw [if_neg hbody] at hrun
            rw [dif_neg (fun hh => hbody hh.1)] at hrun
            dsimp only at hrun
            rcases hsucc : succBytes p1 with - | ⟨z, zs⟩ <;> rw [hsucc] at hrun
            · dsimp only at hrun
              by_cases hlen2 : length < 2 ^ 63 - 1
              · rw [if_pos hlen2] at hrun
                injection hrun with h1 h2
                subst h1 h2
                exact Or.inl ⟨[], [], compareBinary_nilSuccCase _ _ _ hlen2⟩
              · rw [if_neg hlen2] at hrun
                injection hrun with h1 h2
                exact absurd h2.symm hlt
            · dsimp only at hrun
              injection hrun with h1 h2
              subst h1 h2
              left
              have hres := compareBinary_succCase p1 ([] : List Nat) length hlen63
                (by omega) (by simp [hsucc])
              rw [hsucc] at hres
              exact hres
    have hPCS : PCSp p := by
      intro q st lt hrun hlt
      simp only [prefixStringWithLength] at hrun
      by_cases hvv : validVarInt p = false
      · rw [if_pos hvv] at hrun
        rcases hPV [] st lt hrun hlt with ⟨mn, mx, st2, rfl, rfl, hle, hlt63⟩ |
          ⟨mn, st2, lt2, -, -, -, -, -, c, q2, p2, hq, -⟩
        · exact Or.inl ⟨[], [], compareStringWithLength_varCase mn mx st2 hle hlt63⟩
        · exact absurd hq (by simp)
      · rw [if_neg hvv] at hrun
        split at hrun
        · injection hrun with h1 h2
          exact absurd h2.symm hlt
        · rename_i p1 v hdv
          have hlen63 := decodeVarInt_lt p p1 v hdv
          have hp1b : isBytes p1 := decodeVarInt_isBytes p p1 v hb hdv
          have hp1lt : p1.length < p.length := decodeVarInt_rest p p1 v hdv
          by_cases hbody : p1.length > 2 * v
          · rw [if_pos hbody] at hrun
            have hblen : (p1.take (2 * v)).length = 2 * v := by
              rw [List.length_take]
              omega
            by_cases hc : p1.length > 2 * v ∧ q ≠ []
            · rw [dif_pos hc] at hrun
              rcases q with - | ⟨c, q2⟩
              · exact absurd rfl hc.2
              simp only [List.head_cons, List.tail_cons] at hrun
              rcases hrc : runComp c (p1.drop (2 * v)) q2 with ⟨ts, tl⟩
              rw [hrc] at hrun
              dsimp only at hrun
              by_cases htl : tl ≠ []
              · rw [if_pos htl] at hrun
                injection hrun with h1 h2
                subst h1 h2
                right
                refine ⟨ts, tl, ?_, htl, c, q2, p1.drop (2 * v), rfl,
                  fun y hy => hp1b y (List.drop_subset _ _ hy),
                  by rw [List.length_drop]; omega, hrc⟩
                rw [List.append_assoc, List.append_assoc]
                unfold compareStringWithLength
                rw [decodeVarInt_encode v hlen63 _, decodeVarInt_encode v hlen63 _]
                dsimp only
                rw [if_neg (by
                  rw [List.length_append, List.length_append, hblen]
                  push_neg
                  constructor <;> omega)]
                rw [List.drop_left' hblen, List.drop_left' hblen,
                  List.take_left' hblen, List.take_left' hblen]
                rw [bytesCmp_self]
              · rw [if_neg htl] at hrun
                rcases hsucc : succBytes (p1.take (2 * v)) with - | ⟨z, zs⟩ <;> rw [hsucc] at hrun
                · dsimp only at hrun
                  by_cases hlen2 : v < 2 ^ 63 - 1
                  · rw [if_pos hlen2] at hrun
                    injection hrun with h1 h2
                    subst h1 h2
                    exact Or.inl ⟨[], [], compareStringWithLength_nilSuccCase _ _ _ hlen2⟩
                  · rw [if_neg hlen2] at hrun
                    injection hrun with h1 h2
                    exact absurd h2.symm hlt
                · dsimp only at hrun
                  injection hrun with h1 h2
                  subst h1 h2
                  left
                  have hres := compareStringWithLength_succCase (p1.take (2 * v)) ts v hlen63
                    (le_of_eq hblen) (by simp [hsucc])
                  rw [hsucc] at hres
                  exact hres
            · rw [dif_neg hc] at hrun
              dsimp only at hrun
              rcases hsucc : succBytes (p1.take (2 * v)) with - | ⟨z, zs⟩ <;> rw [hsucc] at hrun
              · dsimp only at hrun
                by_cases hlen2 : v < 2 ^ 63 - 1
                · rw [if_pos hlen2] at hrun
                  injection hrun with h1 h2
                  subst h1 h2
                  exact Or.inl ⟨[], [], compareStringWithLength_nilSuccCase _ _ _ hlen2⟩
                · rw [if_neg hlen2] at hrun
                  injection hrun with h1 h2
                  exact absurd h2.symm hlt
              · dsimp only at hrun
                injection hrun with h1 h2
                subst h1 h2
                left
                have hres := compareStringWithLength_succCase (p1.take (2 * v)) ([] : List Nat) v hlen63
                  (le_of_eq hblen) (by simp [hsucc])
                rw [hsucc] at hres
                exact hres
          · rw [if_neg hbody] at hrun
            rw [dif_neg (fun hh => hbody hh.1)] at hrun
            dsimp only at hrun
            rcases hsucc : succBytes p1 with - | ⟨z, zs⟩ <;> rw [hsucc] at hrun
            · dsimp only at hrun
              by_cases hlen2 : v < 2 ^ 63 - 1
              · rw [if_pos hlen2] at hrun
                injection hrun with h1 h2
                subst h1 h2
                exact Or.inl ⟨[], [], compareStringWithLength_nilSuccCase _ _ _ hlen2⟩
              · rw [if_neg hlen2] at hrun
                injection hrun with h1 h2
                exact absurd h2.symm hlt
            · dsimp only at hrun
              injection hrun with h1 h2
              subst h1 h2
              left
              have hres := compareStringWithLength_succCase p1 ([] : List Nat) v hlen63
                (by omega) (by simp [hsucc])
              rw [hsucc] at hres
              exact hres
    have hPI : PIp p := by
      intro q st lt hrun hlt f
      rcases p with - | ⟨x, t⟩
      · rw [show prefixEncodedIDBKeys [] q = ([], []) from by simp [prefixEncodedIDBKeys]] at hrun
        injection hrun with h1 h2
        exact absurd h2.symm hlt
      simp only [prefixEncodedIDBKeys] at hrun
      have htb : isBytes t := fun y hy => hb y (by simp [hy])
      have hIH : ∀ p2 : List Nat, p2.length < (x :: t).length → isBytes p2 →
          PBp p2 ∧ PVp p2 ∧ PDp p2 ∧ PCBp p2 ∧ PCSp p2 ∧ PIp p2 := by
        intro p2 hl hb2
        exact ih p2.length (by simp only [List.length_cons] at hl hn; omega) p2 le_rfl hb2
      by_cases hx0 : x = 0
      · subst hx0
        rw [if_pos rfl] at hrun
        dsimp only at hrun
        by_cases hc : t ≠ [] ∧ q ≠ []
        · rw [dif_pos hc] at hrun
          rcases q with - | ⟨c, q2⟩
          · exact absurd rfl hc.2
          simp only [List.head_cons, List.tail_cons] at hrun
          rcases hrc : runComp c t q2 with ⟨ts, tl⟩
          rw [hrc] at hrun
          dsimp only at hrun
          by_cases htl : tl ≠ []
          · rw [if_pos htl] at hrun
            injection hrun with h1 h2
            subst h1 h2
            rcases f with - | f
            · left
              rfl
            · right; right; right
              refine ⟨ts, tl, ?_, htl, c, q2, t, rfl, htb, by simp, hrc⟩
              show cmpIDBKeys (f + 1) (0 :: ts) (0 :: tl) = _
              exact cmpIDBKeys_tag05 f 0 ts tl (by decide)
          · rw [if_neg htl] at hrun
            injection hrun with h1 h2
            subst h1 h2
            rcases cmpIDBKeys_rankLess f 0 4 ts [] (by decide) with h | h
            · left
              exact h
            · right; right; left
              exact ⟨ts, [], h⟩
        · rw [dif_neg hc] at hrun
          dsimp only at hrun
          rw [if_neg (show ¬(([] : List Nat) ≠ []) by simp)] at hrun
          injection hrun with h1 h2
          subst h1 h2
          rcases cmpIDBKeys_rankLess f 0 4 [] [] (by decide) with h | h
          · left
            exact h
          · right; right; left
            exact ⟨[], [], h⟩
      rw [if_neg hx0] at hrun
      by_cases hx4 : x = 4
      · subst hx4
        have loopStep : ∀ k (stq ltq : List Nat) (f2 : Nat) (q2s : List PComp),
            TP (4 :: t).length (List.replicate k PComp.pIDBKeys ++ q2s) stq ltq →
            cmpIDBLoop f2 k stq ltq = none ∨
            cmpIDBLoop f2 k stq ltq = some (.error ()) ∨
            (∃ u v r, cmpIDBLoop f2 k stq ltq = some (.ok (u, v, some r)) ∧ r = -1) ∨
            (∃ u v, cmpIDBLoop f2 k stq ltq = some (.ok (u, v, none)) ∧
              TP (4 :: t).length q2s u v) := by
          intro k
          induction k with
          | zero =>
            intro stq ltq f2 q2s htp
            rcases f2 with - | f2
            · left
              rfl
            · right; right; right
              refine ⟨stq, ltq, rfl, ?_⟩
              simpa using htp
          | succ k ihk =>
            intro stq ltq f2 q2s htp
            obtain ⟨hneq, c, q2, p2, hq, hb2, hl2, hrc⟩ := htp
            rw [List.replicate_succ, List.cons_append] at hq
            injection hq with hc hq2
            subst hc hq2
            rcases f2 with - | f2
            · left
              rfl
            · have hrc2 : prefixEncodedIDBKeys p2 (List.replicate k PComp.pIDBKeys ++ q2s) =
                  (stq, ltq) := by
                rw [← hrc]
                simp only [runComp]
              have hstne : stq ≠ [] := prefixEncodedIDBKeys_ne_nil p2 _ stq ltq hrc2 hneq
              have hemp : ¬(stq.length = 0 ∨ ltq.length = 0) := by
                push_neg
                refine ⟨?_, ?_⟩
                · simpa [List.length_eq_zero] using hstne
                · simpa [List.length_eq_zero] using hneq
              have hstep : cmpIDBLoop (f2 + 1) (k + 1) stq ltq =
                  (match cmpIDBKeys f2 stq ltq with
                   | none => none
                   | some (.error e) => some (.error e)
                   | some (.ok (a1, b1, r)) =>
                     if r ≠ 0 then some (.ok (a1, b1, some r)) else cmpIDBLoop f2 k a1 b1) := by
                simp only [cmpIDBLoop]
                rw [if_neg hemp]
                try rfl
              have hIp2 := (hIH p2 hl2 hb2).2.2.2.2.2
              rcases hIp2 _ stq ltq hrc2 hneq f2 with h | h | ⟨u, v, h⟩ | ⟨u, v, h, htp2⟩ <;>
                rw [h] at hstep <;> dsimp only at hstep
              · left
                exact hstep
              · right; left
                exact hstep
              · rw [if_pos (show (-1 : Int) ≠ 0 by decide)] at hstep
                right; right; left
                exact ⟨u, v, -1, hstep, rfl⟩
              · rw [if_neg (show ¬((0 : Int) ≠ 0) by decide)] at hstep
                rcases ihk u v f2 q2s
                    (TP_mono (by simp only [List.length_cons] at hl2 ⊢; omega) htp2) with
                  h2 | h2 | ⟨u2, v2, r2, h2, hr2⟩ | ⟨u2, v2, h2, htp3⟩
                · left
                  rw [hstep, h2]
                · right; left
                  rw [hstep, h2]
                · right; right; left
                  exact ⟨u2, v2, r2, by rw [hstep, h2], hr2⟩
                · right; right; right
                  exact ⟨u2, v2, by rw [hstep, h2], htp3⟩
        rw [if_pos rfl] at hrun
        dsimp only at hrun
        by_cases ht0 : t = []
        · rw [if_pos ht0] at hrun
          dsimp only at hrun
          rw [if_neg (show ¬(([] : List Nat) ≠ []) by simp)] at hrun
          injection hrun with h1 h2
          subst h1 h2
          rcases cmpIDBKeys_rankLess f 4 6 [] [] (by decide) with h | h
          · left
            exact h
          · right; right; left
            exact ⟨[], [], h⟩
        rw [if_neg ht0] at hrun
        by_cases hvv : validVarInt t = false
        · rw [if_pos hvv] at hrun
          rcases hrv : prefixVarInt t [] with ⟨Ts, Tl⟩
          rw [hrv] at hrun
          dsimp only at hrun
          by_cases hTl : Tl ≠ []
          · rw [if_pos hTl] at hrun
            injection hrun with h1 h2
            subst h1 h2
            have hPVt := (hIH t (by simp) htb).2.1
            rcases hPVt [] Ts Tl hrv hTl with
              ⟨mn, mx, st2, hTs, hTl2, hle, hlt63⟩ |
              ⟨mn, st2, lt2, hTs, hTl2, hmn63, hdec, htp⟩
            · subst hTs hTl2
              rcases f with - | f
              · left
                rfl
              · have hemp : ¬((encodeVarInt mn ++ st2).length = 0 ∨
                    (encodeVarInt (mx + 1)).length = 0) := by
                  push_neg
                  refine ⟨?_, ?_⟩
                  · have := encodeVarInt_length_pos mn
                    rw [List.length_append]
                    omega
                  · have := encodeVarInt_length_pos (mx + 1)
                    omega
                have hstep := cmpIDBKeys_tag4 f (encodeVarInt mn ++ st2) (encodeVarInt (mx + 1))
                rw [if_neg hemp, decodeVarInt_encode mn (by omega) st2,
                  decodeVarInt_encode2 (mx + 1) hlt63] at hstep
                dsimp only at hstep
                rw [Nat.min_eq_left (show mn ≤ mx + 1 by omega)] at hstep
                rcases cmpIDBLoop_nilRight f mn st2 with hl | hl <;> rw [hl] at hstep <;>
                  dsimp only at hstep
                · left
                  exact hstep
                · rw [natCmp_of_lt (show mn < mx + 1 by omega)] at hstep
                  right; right; left
                  exact ⟨st2, [], hstep⟩
            · exfalso
              obtain ⟨hne2, c, q2, p2, hq, -⟩ := htp
              exact List.noConfusion hq
          · rw [if_neg hTl] at hrun
            injection hrun with h1 h2
            subst h1 h2
            rcases cmpIDBKeys_rankLess f 4 6 Ts [] (by decide) with h | h
            · left
              exact h
            · right; right; left
              exact ⟨Ts, [], h⟩
        · rw [if_neg hvv] at hrun
          rcases hdvt : decodeVarInt t with e | pr
          · rw [hdvt] at hrun
            dsimp only at hrun
            rw [if_neg (show ¬(([] : List Nat) ≠ []) by simp)] at hrun
            injection hrun with h1 h2
            subst h1 h2
            rcases cmpIDBKeys_rankLess f 4 6 [] [] (by decide) with h | h
            · left
              exact h
            · right; right; left
              exact ⟨[], [], h⟩
          · rcases pr with ⟨p1t, length⟩
            rw [hdvt] at hrun
            dsimp only at hrun
            rcases hrv : prefixVarInt t (List.replicate length PComp.pIDBKeys ++ q) with ⟨Ts, Tl⟩
            rw [hrv] at hrun
            dsimp only at hrun
            by_cases hTl : Tl ≠ []
            · rw [if_pos hTl] at hrun
              injection hrun with h1 h2
              subst h1 h2
              have hPVt := (hIH t (by simp) htb).2.1
              rcases hPVt _ Ts Tl hrv hTl with
                ⟨mn, mx, st2, hTs, hTl2, hle, hlt63⟩ |
                ⟨mn, st2, lt2, hTs, hTl2, hmn63, hdec, htp⟩
              · subst hTs hTl2
                rcases f with - | f
                · left
                  rfl
                · have hemp : ¬((encodeVarInt mn ++ st2).length = 0 ∨
                      (encodeVarInt (mx + 1)).length = 0) := by
                    push_neg
                    refine ⟨?_, ?_⟩
                    · have := encodeVarInt_length_pos mn
                      rw [List.length_append]
                      omega
                    · have := encodeVarInt_length_pos (mx + 1)
                      omega
                  have hstep := cmpIDBKeys_tag4 f (encodeVarInt mn ++ st2) (encodeVarInt (mx + 1))
                  rw [if_neg hemp, decodeVarInt_encode mn (by omega) st2,
                    decodeVarInt_encode2 (mx + 1) hlt63] at hstep
                  dsimp only at hstep
                  rw [Nat.min_eq_left (show mn ≤ mx + 1 by omega)] at hstep
                  rcases cmpIDBLoop_nilRight f mn st2 with hl | hl <;> rw [hl] at hstep <;>
                    dsimp only at hstep
                  · left
                    exact hstep
                  · rw [natCmp_of_lt (show mn < mx + 1 by omega)] at hstep
                    right; right; left
                    exact ⟨st2, [], hstep⟩
              · subst hTs hTl2
                have hmnlen : mn = length := hdec _ _ hdvt
                subst hmnlen
                rcases f with - | f
                · left
                  rfl
                · have hemp : ¬((encodeVarInt mn ++ st2).length = 0 ∨
                      (encodeVarInt mn ++ lt2).length = 0) := by
                    push_neg
                    have := encodeVarInt_length_pos mn
                    refine ⟨?_, ?_⟩ <;> (rw [List.length_append]; omega)
                  have hstep := cmpIDBKeys_tag4 f (encodeVarInt mn ++ st2) (encodeVarInt mn ++ lt2)
                  rw [if_neg hemp, decodeVarInt_encode mn (by omega) st2,
                    decodeVarInt_encode mn (by omega) lt2] at hstep
                  dsimp only at hstep
                  rw [Nat.min_self] at hstep
                  rcases loopStep mn st2 lt2 f q
                      (TP_mono (by simp only [List.length_cons]; omega) htp) with
                    h | h | ⟨u, v, r, h, hr⟩ | ⟨u, v, h, htp2⟩ <;>
                    rw [h] at hstep <;> dsimp only at hstep
                  · left
                    exact hstep
                  · right; left
                    exact hstep
                  · subst hr
                    right; right; left
                    exact ⟨u, v, hstep⟩
                  · rw [natCmp_self] at hstep
                    right; right; right
                    exact ⟨u, v, hstep, htp2⟩
            · rw [if_neg hTl] at hrun
              injection hrun with h1 h2
              subst h1 h2
              rcases cmpIDBKeys_rankLess f 4 6 Ts [] (by decide) with h | h
              · left
                exact h
              · right; right; left
                exact ⟨Ts, [], h⟩
      rw [if_neg hx4] at hrun
      by_cases hx6 : x = 6
      · subst hx6
        rw [if_pos rfl] at hrun
        dsimp only at hrun
        by_cases ht0 : t ≠ []
        · rw [if_pos ht0] at hrun
          rcases hrc : prefixBinary t q with ⟨ts, tl⟩
          rw [hrc] at hrun
          dsimp only at hrun
          by_cases htl : tl ≠ []
          · rw [if_pos htl] at hrun
            injection hrun with h1 h2
            subst h1 h2
            rcases f with - | f
            · left
              rfl
            · by_cases hemp : ts.length = 0 ∨ tl.length = 0
              · have htl0 : tl.length ≠ 0 := by simpa [List.length_eq_zero] using htl
                have hts0 : ts.length = 0 := by
                  rcases hemp with h | h
                  · exact h
                  · exact absurd h htl0
                right; right; left
                refine ⟨ts, tl, ?_⟩
                show cmpIDBKeys (f + 1) (6 :: ts) (6 :: tl) = _
                rw [cmpIDBKeys_tag6 f ts tl, if_pos hemp]
                rw [natCmp_of_lt (show ts.length < tl.length by omega)]
              · have hX := (hIH t (by simp) htb).2.2.2.1
                rcases hX q ts tl hrc htl with ⟨u, v, hcb⟩ | ⟨st2, lt2, hcb, htp⟩
                · right; right; left
                  refine ⟨u, v, ?_⟩
                  show cmpIDBKeys (f + 1) (6 :: ts) (6 :: tl) = _
                  rw [cmpIDBKeys_tag6 f ts tl, if_neg hemp, hcb]
                · right; right; right
                  refine ⟨st2, lt2, ?_, TP_mono (by simp only [List.length_cons]; omega) htp⟩
                  show cmpIDBKeys (f + 1) (6 :: ts) (6 :: tl) = _
                  rw [cmpIDBKeys_tag6 f ts tl, if_neg hemp, hcb]
          · rw [if_neg htl] at hrun
            injection hrun with h1 h2
            subst h1 h2
            rcases cmpIDBKeys_rankLess f 6 1 ts [] (by decide) with h | h
            · left
              exact h
            · right; right; left
              exact ⟨ts, [], h⟩
        · rw [if_neg ht0] at hrun
          dsimp only at hrun
          rw [if_neg (show ¬(([] : List Nat) ≠ []) by simp)] at hrun
          injection hrun with h1 h2
          subst h1 h2
          rcases cmpIDBKeys_rankLess f 6 1 [] [] (by decide) with h | h
          · left
            exact h
          · right; right; left
            exact ⟨[], [], h⟩
      rw [if_neg hx6] at hrun
      by_cases hx1 : x = 1
      · subst hx1
        rw [if_pos rfl] at hrun
        dsimp only at hrun
        by_cases ht0 : t ≠ []
        · rw [if_pos ht0] at hrun
          rcases hrc : prefixStringWithLength t q with ⟨ts, tl⟩
          rw [hrc] at hrun
          dsimp only at hrun
          by_cases htl : tl ≠ []
          · rw [if_pos htl] at hrun
            injection hrun with h1 h2
            subst h1 h2
            rcases f with - | f
            · left
              rfl
            · by_cases hemp : ts.length = 0 ∨ tl.length = 0
              · have htl0 : tl.length ≠ 0 := by simpa [List.length_eq_zero] using htl
                have hts0 : ts.length = 0 := by
                  rcases hemp with h | h
                  · exact h
                  · exact absurd h htl0
                right; right; left
                refine ⟨ts, tl, ?_⟩
                show cmpIDBKeys (f + 1) (1 :: ts) (1 :: tl) = _
                rw [cmpIDBKeys_tag1 f ts tl, if_pos hemp]
                rw [natCmp_of_lt (show ts.length < tl.length by omega)]
              · have hX := (hIH t (by simp) htb).2.2.2.2.1
                rcases hX q ts tl hrc htl with ⟨u, v, hcb⟩ | ⟨st2, lt2, hcb, htp⟩
                · right; right; left
                  refine ⟨u, v, ?_⟩
                  show cmpIDBKeys (f + 1) (1 :: ts) (1 :: tl) = _
                  rw [cmpIDBKeys_tag1 f ts tl, if_neg hemp, hcb]
                · right; right; right
                  refine ⟨st2, lt2, ?_, TP_mono (by simp only [List.length_cons]; omega) htp⟩
                  show cmpIDBKeys (f + 1) (1 :: ts) (1 :: tl) = _
                  rw [cmpIDBKeys_tag1 f ts tl, if_neg hemp, hcb]
          · rw [if_neg htl] at hrun
            injection hrun with h1 h2
            subst h1 h2
            rcases cmpIDBKeys_rankLess f 1 2 ts [] (by decide) with h | h
            · left
              exact h
            · right; right; left
              exact ⟨ts, [], h⟩
        · rw [if_neg ht0] at hrun
          dsimp only at hrun
          rw [if_neg (show ¬(([] : List Nat) ≠ []) by simp)] at hrun
          injection hrun with h1 h2
          subst h1 h2
          rcases cmpIDBKeys_rankLess f 1 2 [] [] (by decide) with h | h
          · left
            exact h
          · right; right; left
            exact ⟨[], [], h⟩
      rw [if_neg hx1] at hrun
      by_cases hx2 : x = 2
      · subst hx2
        rw [if_pos rfl] at hrun
        dsimp only at hrun
        by_cases ht0 : t ≠ []
        · rw [if_pos ht0] at hrun
          rcases hrc : prefixDouble t q with ⟨ts, tl⟩
          rw [hrc] at hrun
          dsimp only at hrun
          by_cases htl : tl ≠ []
          · rw [if_pos htl] at hrun
            injection hrun with h1 h2
            subst h1 h2
            rcases f with - | f
            · left
              rfl
            · by_cases hemp : ts.length = 0 ∨ tl.length = 0
              · have htl0 : tl.length ≠ 0 := by simpa [List.length_eq_zero] using htl
                have hts0 : ts.length = 0 := by
                  rcases hemp with h | h
                  · exact h
                  · exact absurd h htl0
                right; right; left
                refine ⟨ts, tl, ?_⟩
                show cmpIDBKeys (f + 1) (2 :: ts) (2 :: tl) = _
                rw [cmpIDBKeys_tag23 f 2 ts tl (by decide), if_pos hemp]
                rw [natCmp_of_lt (show ts.length < tl.length by omega)]
              · have hX := (hIH t (by simp) htb).2.2.1
                rcases hX q ts tl hrc htl with ⟨st2, lt2, hcb, htp⟩
                right; right; right
                refine ⟨st2, lt2, ?_, TP_mono (by simp only [List.length_cons]; omega) htp⟩
                show cmpIDBKeys (f + 1) (2 :: ts) (2 :: tl) = _
                rw [cmpIDBKeys_tag23 f 2 ts tl (by decide), if_neg hemp, hcb]
          · rw [if_neg htl] at hrun
            injection hrun with h1 h2
            subst h1 h2
            rcases cmpIDBKeys_rankLess f 2 3 ts [] (by decide) with h | h
            · left
              exact h
            · right; right; left
              exact ⟨ts, [], h⟩
        · rw [if_neg ht0] at hrun
          dsimp only at hrun
          rw [if_neg (show ¬(([] : List Nat) ≠ []) by simp)] at hrun
          injection hrun with h1 h2
          subst h1 h2
          rcases cmpIDBKeys_rankLess f 2 3 [] [] (by decide) with h | h
          · left
            exact h
          · right; right; left
            exact ⟨[], [], h⟩
      rw [if_neg hx2] at hrun
      by_cases hx3 : x = 3
      · subst hx3
        rw [if_pos rfl] at hrun
        dsimp only at hrun
        by_cases ht0 : t ≠ []
        · rw [if_pos ht0] at hrun
          rcases hrc : prefixDouble t q with ⟨ts, tl⟩
          rw [hrc] at hrun
          dsimp only at hrun
          by_cases htl : tl ≠ []
          · rw [if_pos htl] at hrun
            injection hrun with h1 h2
            subst h1 h2
            rcases f with - | f
            · left
              rfl
            · by_cases hemp : ts.length = 0 ∨ tl.length = 0
              · have htl0 : tl.length ≠ 0 := by simpa [List.length_eq_zero] using htl
                have hts0 : ts.length = 0 := by
                  rcases hemp with h | h
                  · exact h
                  · exact absurd h htl0
                right; right; left
                refine ⟨ts, tl, ?_⟩
                show cmpIDBKeys (f + 1) (3 :: ts) (3 :: tl) = _
                rw [cmpIDBKeys_tag23 f 3 ts tl (by decide), if_pos hemp]
                rw [natCmp_of_lt (show ts.length < tl.length by omega)]
              · have hX := (hIH t (by simp) htb).2.2.1
                rcases hX q ts tl hrc htl with ⟨st2, lt2, hcb, htp⟩
                right; right; right
                refine ⟨st2, lt2, ?_, TP_mono (by simp only [List.length_cons]; omega) htp⟩
                show cmpIDBKeys (f + 1) (3 :: ts) (3 :: tl) = _
                rw [cmpIDBKeys_tag23 f 3 ts tl (by decide), if_neg hemp, hcb]
          · rw [if_neg htl] at hrun
            injection hrun with h1 h2
            subst h1 h2
            rcases cmpIDBKeys_rankLess f 3 5 ts [] (by decide) with h | h
            · left
              exact h
            · right; right; left
              exact ⟨ts, [], h⟩
        · rw [if_neg ht0] at hrun
          dsimp only at hrun
          rw [if_neg (show ¬(([] : List Nat) ≠ []) by simp)] at hrun
          injection hrun with h1 h2
          subst h1 h2
          rcases cmpIDBKeys_rankLess f 3 5 [] [] (by decide) with h | h
          · left
            exact h
          · right; right; left
            exact ⟨[], [], h⟩
      rw [if_neg hx3] at hrun
      by_cases hx5 : x = 5
      · subst hx5
        rw [if_pos rfl] at hrun
        dsimp only at hrun
        by_cases hc : t ≠ [] ∧ q ≠ []
        · rw [dif_pos hc] at hrun
          rcases q with - | ⟨c, q2⟩
          · exact absurd rfl hc.2
          simp only [List.head_cons, List.tail_cons] at hrun
          rcases hrc : runComp c t q2 with ⟨ts, tl⟩
          rw [hrc] at hrun
          dsimp only at hrun
          by_cases htl : tl ≠ []
          · rw [if_pos htl] at hrun
            injection hrun with h1 h2
            subst h1 h2
            rcases f with - | f
            · left
              rfl
            · right; right; right
              refine ⟨ts, tl, ?_, htl, c, q2, t, rfl, htb, by simp, hrc⟩
              show cmpIDBKeys (f + 1) (5 :: ts) (5 :: tl) = _
              exact cmpIDBKeys_tag05 f 5 ts tl (by decide)
          · rw [if_neg htl] at hrun
            injection hrun with h1 h2
            exact absurd h2.symm hlt
        · rw [dif_neg hc] at hrun
          dsimp only at hrun
          rw [if_neg (show ¬(([] : List Nat) ≠ []) by simp)] at hrun
          injection hrun with h1 h2
          exact absurd h2.symm hlt
      · rw [if_neg hx5] at hrun
        dsimp only at hrun
        rw [if_neg (show ¬(([] : List Nat) ≠ []) by simp)] at hrun
        injection hrun with h1 h2
        exact absurd h2.symm hlt
    exact ⟨hPB, hPV, hPD, hPCB, hPCS, hPI⟩

theorem engineAll (p : List Nat) (hb : isBytes p) :
    PBp p ∧ PVp p ∧ PDp p ∧ PCBp p ∧ PCSp p ∧ PIp p :=
  engineMaster p.length p le_rfl hb

/-- Shape of prefixByte on a nonempty input with a nonempty limit, with the
start tied to the head byte. -/
theorem prefixByte_head (d : Nat) (t : List Nat) (q : List PComp) (st lt : List Nat)
    (hb : isBytes (d :: t)) (hrun : prefixByte (d :: t) q = (st, lt)) (hlt : lt ≠ []) :
    (∃ st2, st = d :: st2 ∧ lt = [d + 1]) ∨
    (∃ st2 lt2, st = d :: st2 ∧ lt = d :: lt2 ∧ TP (d :: t).length q st2 lt2) := by
  have htb : isBytes t := fun y hy => hb y (by simp [hy])
  simp only [prefixByte] at hrun
  by_cases hc : t ≠ [] ∧ q ≠ []
  · rw [dif_pos hc] at hrun
    rcases q with - | ⟨c, q2⟩
    · exact absurd rfl hc.2
    simp only [List.head_cons, List.tail_cons] at hrun
    rcases hrc : runComp c t q2 with ⟨ts, tl⟩
    rw [hrc] at hrun
    dsimp only at hrun
    by_cases htl : tl ≠ []
    · rw [if_pos htl] at hrun
      injection hrun with h1 h2
      exact Or.inr ⟨ts, tl, h1.symm, h2.symm, htl, c, q2, t, rfl, htb, by simp, hrc⟩
    · rw [if_neg htl] at hrun
      by_cases hd255 : d < 255
      · rw [if_pos hd255] at hrun
        injection hrun with h1 h2
        exact Or.inl ⟨ts, h1.symm, h2.symm⟩
      · rw [if_neg hd255] at hrun
        injection hrun with h1 h2
        exact absurd h2.symm hlt
  · rw [dif_neg hc] at hrun
    dsimp only at hrun
    rw [if_neg (show ¬(([] : List Nat) ≠ []) by simp)] at hrun
    by_cases hd255 : d < 255
    · rw [if_pos hd255] at hrun
      injection hrun with h1 h2
      exact Or.inl ⟨[], h1.symm, h2.symm⟩
    · rw [if_neg hd255] at hrun
      injection hrun with h1 h2
      exact absurd h2.symm hlt

/-- A normal return of compareStringWithLength needs a decodable varint on
each side, so neither input was empty. -/
theorem compareStringWithLength_ok_ne_nil (a b : List Nat) (x : List Nat × List Nat × Int)
    (h : compareStringWithLength a b = .ok x) : a ≠ [] ∧ b ≠ [] := by
  constructor
  · rintro rfl
    rw [show compareStringWithLength [] b = .error () from rfl] at h
    exact Except.noConfusion h
  · rintro rfl
    unfold compareStringWithLength at h
    rcases hda : decodeVarInt a with e | pr <;> rw [hda] at h <;> dsimp only at h
    · exact Except.noConfusion h
    · rcases pr with ⟨a2, v1⟩
      rw [show decodeVarInt [] = .error () from rfl] at h
      dsimp only at h
      exact Except.noConfusion h

/-- A pVarInt continuation with an empty remaining queue always yields a
strictly increasing varint bracket. -/
theorem metaOneVarInt (m : Nat) (a b : List Nat) (htp : TP m [PComp.pVarInt] a b) :
    oneVarIntCmp a b = .ok (-1) := by
  obtain ⟨hbne, c, q2, p2, hq, hb2, hl2, hrc⟩ := htp
  injection hq with hc hq2
  subst hc hq2
  have hrc2 : prefixVarInt p2 [] = (a, b) := by
    rw [← hrc]
    simp only [runComp]
  rcases (engineAll p2 hb2).2.1 [] a b hrc2 hbne with
    ⟨mn, mx, st2, ha, hbv, hle, hlt63⟩ | ⟨mn, st2, lt2, ha, hbv, hmn63, hdec, htp2⟩
  · subst ha hbv
    unfold oneVarIntCmp
    rw [if_neg (show ¬((encodeVarInt mn ++ st2).length = 0 ∨
        (encodeVarInt (mx + 1)).length = 0) by
      push_neg
      refine ⟨?_, ?_⟩
      · have := encodeVarInt_length_pos mn
        rw [List.length_append]
        omega
      · have := encodeVarInt_length_pos (mx + 1)
        omega)]
    rw [decodeVarInt_encode mn (by omega) st2, decodeVarInt_encode2 (mx + 1) hlt63]
    dsimp only
    rw [natCmp_of_lt (show mn < mx + 1 by omega)]
  · exfalso
    obtain ⟨h1, c2, q3, p3, hq3, -⟩ := htp2
    exact List.noConfusion hq3

/-- A pVarInt then pByte continuation chain: either the varint brackets
strictly, or it ties and the byte component yields a strict increment. -/
theorem metaVarIntByte (m : Nat) (a b : List Nat)
    (htp : TP m [PComp.pVarInt, PComp.pByte] a b) :
    varIntByteCmp a b = .ok (-1) := by
  obtain ⟨hbne, c, q2, p2, hq, hb2, hl2, hrc⟩ := htp
  injection hq with hc hq2
  subst hc hq2
  have hrc2 : prefixVarInt p2 [PComp.pByte] = (a, b) := by
    rw [← hrc]
    simp only [runComp]
  rcases (engineAll p2 hb2).2.1 _ a b hrc2 hbne with
    ⟨mn, mx, st2, ha, hbv, hle, hlt63⟩ | ⟨mn, st2, lt2, ha, hbv, hmn63, hdec, htp2⟩
  · subst ha hbv
    unfold varIntByteCmp
    rw [if_neg (show ¬((encodeVarInt mn ++ st2).length = 0 ∨
        (encodeVarInt (mx + 1)).length = 0) by
      push_neg
      refine ⟨?_, ?_⟩
      · have := encodeVarInt_length_pos mn
        rw [List.length_append]
        omega
      · have := encodeVarInt_length_pos (mx + 1)
        omega)]
    rw [decodeVarInt_encode mn (by omega) st2, decodeVarInt_encode2 (mx + 1) hlt63]
    dsimp only
    rw [natCmp_of_lt (show mn < mx + 1 by omega)]
    rw [if_pos (show (-1 : Int) ≠ 0 by decide)]
  · subst ha hbv
    unfold varIntByteCmp
    rw [if_neg (show ¬((encodeVarInt mn ++ st2).length = 0 ∨
        (encodeVarInt mn ++ lt2).length = 0) by
      push_neg
      have := encodeVarInt_length_pos mn
      refine ⟨?_, ?_⟩ <;> (rw [List.length_append]; omega))]
    rw [decodeVarInt_encode mn (by omega) st2, decodeVarInt_encode mn (by omega) lt2]
    dsimp only
    rw [natCmp_self]
    rw [if_neg (show ¬((0 : Int) ≠ 0) by decide)]
    obtain ⟨hlt2ne, c2, q3, p3, hq3, hb3, hl3, hrc3⟩ := htp2
    injection hq3 with hc2 hq32
    subst hc2 hq32
    have hrc4 : prefixByte p3 [] = (st2, lt2) := by
      rw [← hrc3]
      simp only [runComp]
    rcases p3 with - | ⟨d, t3⟩
    · rw [show prefixByte [] [] = ([], []) from by simp [prefixByte]] at hrc4
      injection hrc4 with h1 h2
      exact absurd h2.symm hlt2ne
    rcases prefixByte_head d t3 [] st2 lt2 hb3 hrc4 hlt2ne with
      ⟨st3, hst, hltv⟩ | ⟨st3, lt3, hst, hltv, htp3⟩
    · subst hst hltv
      rw [if_neg (show ¬((d :: st3).length = 0 ∨ ([d + 1] : List Nat).length = 0) by simp)]
      simp only [List.headD_cons]
      rw [natCmp_of_lt (show d < d + 1 by omega)]
    · exfalso
      obtain ⟨h1, c3, q4, p4, hq4, -⟩ := htp3
      exact List.noConfusion hq4

/-- Two varints then a byte: indexMetaData chain. -/
theorem metaTwoVarIntByte (m : Nat) (a b : List Nat)
    (htp : TP m [PComp.pVarInt, PComp.pVarInt, PComp.pByte] a b) :
    twoVarIntByteCmp a b = .ok (-1) := by
  obtain ⟨hbne, c, q2, p2, hq, hb2, hl2, hrc⟩ := htp
  injection hq with hc hq2
  subst hc hq2
  have hrc2 : prefixVarInt p2 [PComp.pVarInt, PComp.pByte] = (a, b) := by
    rw [← hrc]
    simp only [runComp]
  rcases (engineAll p2 hb2).2.1 _ a b hrc2 hbne with
    ⟨mn, mx, st2, ha, hbv, hle, hlt63⟩ | ⟨mn, st2, lt2, ha, hbv, hmn63, hdec, htp2⟩
  · subst ha hbv
    unfold twoVarIntByteCmp
    rw [if_neg (show ¬((encodeVarInt mn ++ st2).length = 0 ∨
        (encodeVarInt (mx + 1)).length = 0) by
      push_neg
      refine ⟨?_, ?_⟩
      · have := encodeVarInt_length_pos mn
        rw [List.length_append]
        omega
      · have := encodeVarInt_length_pos (mx + 1)
        omega)]
    rw [decodeVarInt_encode mn (by omega) st2, decodeVarInt_encode2 (mx + 1) hlt63]
    dsimp only
    rw [natCmp_of_lt (show mn < mx + 1 by omega)]
    rw [if_pos (show (-1 : Int) ≠ 0 by decide)]
  · subst ha hbv
    unfold twoVarIntByteCmp
    rw [if_neg (show ¬((encodeVarInt mn ++ st2).length = 0 ∨
        (encodeVarInt mn ++ lt2).length = 0) by
      push_neg
      have := encodeVarInt_length_pos mn
      refine ⟨?_, ?_⟩ <;> (rw [List.length_append]; omega))]
    rw [decodeVarInt_encode mn (by omega) st2, decodeVarInt_encode mn (by omega) lt2]
    dsimp only
    rw [natCmp_self]
    rw [if_neg (show ¬((0 : Int) ≠ 0) by decide)]
    exact metaVarIntByte p2.length st2 lt2 htp2

/-- Two varints: indexFreeList chain. -/
theorem metaTwoVarInt (m : Nat) (a b : List Nat)
    (htp : TP m [PComp.pVarInt, PComp.pVarInt] a b) :
    twoVarIntCmp a b = .ok (-1) := by
  obtain ⟨hbne, c, q2, p2, hq, hb2, hl2, hrc⟩ := htp
  injection hq with hc hq2
  subst hc hq2
  have hrc2 : prefixVarInt p2 [PComp.pVarInt] = (a, b) := by
    rw [← hrc]
    simp only [runComp]
  rcases (engineAll p2 hb2).2.1 _ a b hrc2 hbne with
    ⟨mn, mx, st2, ha, hbv, hle, hlt63⟩ | ⟨mn, st2, lt2, ha, hbv, hmn63, hdec, htp2⟩
  · subst ha hbv
    unfold twoVarIntCmp
    rw [if_neg (show ¬((encodeVarInt mn ++ st2).length = 0 ∨
        (encodeVarInt (mx + 1)).length = 0) by
      push_neg
      refine ⟨?_, ?_⟩
      · have := encodeVarInt_length_pos mn
        rw [List.length_append]
        omega
      · have := encodeVarInt_length_pos (mx + 1)
        omega)]
    rw [decodeVarInt_encode mn (by omega) st2, decodeVarInt_encode2 (mx + 1) hlt63]
    dsimp only
    rw [natCmp_of_lt (show mn < mx + 1 by omega)]
    rw [if_pos (show (-1 : Int) ≠ 0 by decide)]
  · subst ha hbv
    unfold twoVarIntCmp
    rw [if_neg (show ¬((encodeVarInt mn ++ st2).length = 0 ∨
        (encodeVarInt mn ++ lt2).length = 0) by
      push_neg
      have := encodeVarInt_length_pos mn
      refine ⟨?_, ?_⟩ <;> (rw [List.length_append]; omega))]
    rw [decodeVarInt_encode mn (by omega) st2, decodeVarInt_encode mn (by omega) lt2]
    dsimp only
    rw [natCmp_self]
    rw [if_neg (show ¬((0 : Int) ≠ 0) by decide)]
    exact metaOneVarInt p2.length st2 lt2 htp2

/-- One string-with-length continuation: its limit is strictly above its
start under the string grammar. -/
theorem metaOneString (m : Nat) (a b : List Nat)
    (htp : TP m [PComp.pStringWithLength] a b) :
    oneStringCmp a b = .ok (-1) := by
  obtain ⟨hbne, c, q2, p2, hq, hb2, hl2, hrc⟩ := htp
  injection hq with hc hq2
  subst hc hq2
  have hrc2 : prefixStringWithLength p2 [] = (a, b) := by
    rw [← hrc]
    simp only [runComp]
  rcases (engineAll p2 hb2).2.2.2.2.1 [] a b hrc2 hbne with ⟨u, v, hcs⟩ | ⟨st2, lt2, hcs, htp2⟩
  · have hne := compareStringWithLength_ok_ne_nil a b _ hcs
    unfold oneStringCmp
    rw [if_neg (show ¬(a.length = 0 ∨ b.length = 0) by
      push_neg
      refine ⟨?_, ?_⟩
      · simpa [List.length_eq_zero] using hne.1
      · simpa [List.length_eq_zero] using hne.2)]
    rw [hcs]
  · exfalso
    obtain ⟨h1, c2, q3, p3, hq3, -⟩ := htp2
    exact List.noConfusion hq3

/-- A varint then one string: indexNames chain. -/
theorem metaVarIntString (m : Nat) (a b : List Nat)
    (htp : TP m [PComp.pVarInt, PComp.pStringWithLength] a b) :
    varIntStringCmp a b = .ok (-1) := by
  obtain ⟨hbne, c, q2, p2, hq, hb2, hl2, hrc⟩ := htp
  injection hq with hc hq2
  subst hc hq2
  have hrc2 : prefixVarInt p2 [PComp.pStringWithLength] = (a, b) := by
    rw [← hrc]
    simp only [runComp]
  rcases (engineAll p2 hb2).2.1 _ a b hrc2 hbne with
    ⟨mn, mx, st2, ha, hbv, hle, hlt63⟩ | ⟨mn, st2, lt2, ha, hbv, hmn63, hdec, htp2⟩
  · subst ha hbv
    unfold varIntStringCmp
    rw [if_neg (show ¬((encodeVarInt mn ++ st2).length = 0 ∨
        (encodeVarInt (mx + 1)).length = 0) by
      push_neg
      refine ⟨?_, ?_⟩
      · have := encodeVarInt_length_pos mn
        rw [List.length_append]
        omega
      · have := encodeVarInt_length_pos (mx + 1)
        omega)]
    rw [decodeVarInt_encode mn (by omega) st2, decodeVarInt_encode2 (mx + 1) hlt63]
    dsimp only
    rw [natCmp_of_lt (show mn < mx + 1 by omega)]
    rw [if_pos (show (-1 : Int) ≠ 0 by decide)]
  · subst ha hbv
    unfold varIntStringCmp
    rw [if_neg (show ¬((encodeVarInt mn ++ st2).length = 0 ∨
        (encodeVarInt mn ++ lt2).length = 0) by
      push_neg
      have := encodeVarInt_length_pos mn
      refine ⟨?_, ?_⟩ <;> (rw [List.length_append]; omega))]
    rw [decodeVarInt_encode mn (by omega) st2, decodeVarInt_encode mn (by omega) lt2]
    dsimp only
    rw [natCmp_self]
    rw [if_neg (show ¬((0 : Int) ≠ 0) by decide)]
    exact metaOneString p2.length st2 lt2 htp2

/-- Two strings: databaseName chain. -/
theorem metaTwoString (m : Nat) (a b : List Nat)
    (htp : TP m [PComp.pStringWithLength, PComp.pStringWithLength] a b) :
    twoStringCmp a b = .ok (-1) := by
  obtain ⟨hbne, c, q2, p2, hq, hb2, hl2, hrc⟩ := htp
  injection hq with hc hq2
  subst hc hq2
  have hrc2 : prefixStringWithLength p2 [PComp.pStringWithLength] = (a, b) := by
    rw [← hrc]
    simp only [runComp]
  rcases (engineAll p2 hb2).2.2.2.2.1 _ a b hrc2 hbne with ⟨u, v, hcs⟩ | ⟨st2, lt2, hcs, htp2⟩
  · have hne := compareStringWithLength_ok_ne_nil a b _ hcs
    unfold twoStringCmp
    rw [if_neg (show ¬(a.length = 0 ∨ b.length = 0) by
      push_neg
      refine ⟨?_, ?_⟩
      · simpa [List.length_eq_zero] using hne.1
      · simpa [List.length_eq_zero] using hne.2)]
    rw [hcs]
    dsimp only
    rw [if_pos (show (-1 : Int) ≠ 0 by decide)]
  · have hne := compareStringWithLength_ok_ne_nil a b _ hcs
    unfold twoStringCmp
    rw [if_neg (show ¬(a.length = 0 ∨ b.length = 0) by
      push_neg
      refine ⟨?_, ?_⟩
      · simpa [List.length_eq_zero] using hne.1
      · simpa [List.length_eq_zero] using hne.2)]
    rw [hcs]
    dsimp only
    rw [if_neg (show ¬((0 : Int) ≠ 0) by decide)]
    by_cases hemp2 : st2.length = 0 ∨ lt2.length = 0
    · rw [if_pos hemp2]
      have hlt2 : lt2.length ≠ 0 := by simpa [List.length_eq_zero] using htp2.1
      have hst2 : st2.length = 0 := by
        rcases hemp2 with h | h
        · exact h
        · exact absurd h hlt2
      rw [natCmp_of_lt (show st2.length < lt2.length by omega)]
    · rw [if_neg hemp2]
      obtain ⟨hlt2ne, c2, q3, p3, hq3, hb3, hl3, hrc3⟩ := htp2
      injection hq3 with hc2 hq32
      subst hc2 hq32
      have hrc4 : prefixStringWithLength p3 [] = (st2, lt2) := by
        rw [← hrc3]
        simp only [runComp]
      rcases (engineAll p3 hb3).2.2.2.2.1 [] st2 lt2 hrc4 hlt2ne with
        ⟨u2, v2, hcs2⟩ | ⟨st3, lt3, hcs2, htp3⟩
      · rw [hcs2]
      · exfalso
        obtain ⟨h1, c3, q4, p4, hq4, -⟩ := htp3
        exact List.noConfusion hq4

/-- The globalMetadata body grammar orders every prefixKeyBody start strictly
below its limit. -/
theorem globalBody (rest : List Nat) (kp : KeyPrefix) (ts tl : List Nat)
    (hb2 : isBytes rest) (hne : rest ≠ []) (htype : kp.type = 0)
    (hrun : prefixKeyBody rest kp = (ts, tl)) (hlt : tl ≠ []) :
    globalMetaCmp ts tl = .ok (-1) := by
  rcases rest with - | ⟨d, t⟩
  · exact absurd rfl hne
  have hb : isBytes (d :: t) := hb2
  simp only [prefixKeyBody] at hrun
  rw [if_pos htype] at hrun
  by_cases hd50 : d = 50
  · subst hd50
    rw [if_pos rfl] at hrun
    injection hrun with h1 h2
    subst h1 h2
    rcases hst : succBytes t with - | ⟨z, zs⟩
    · have hval : succBytes (50 :: t) = if (50 : Nat) < 255 then [51] else [] := by
        rw [succBytes, hst]
      rw [if_pos (by omega)] at hval
      rw [hval] at hlt ⊢
      rfl
    · have hval : succBytes (50 :: t) = 50 :: z :: zs := by
        rw [succBytes, hst]
      rw [hval]
      show Except.ok (bytesCmp t (z :: zs)) = Except.ok (-1)
      rw [← hst]
      rw [succBytes_gt t (by rw [hst]; simp)]
  rw [if_neg hd50] at hrun
  by_cases hd100x : d = 100
  · subst hd100x
    rw [if_pos rfl] at hrun
    rcases prefixByte_head 100 t [PComp.pVarInt] ts tl hb hrun hlt with
      ⟨st2, hst, hltv⟩ | ⟨st2, lt2, hst, hltv, htp⟩
    · subst hst hltv
      rfl
    · subst hst hltv
      show oneVarIntCmp st2 lt2 = Except.ok (-1)
      exact metaOneVarInt _ st2 lt2 htp
  rw [if_neg hd100x] at hrun
  by_cases hd201x : d = 201
  · subst hd201x
    rw [if_pos rfl] at hrun
    rcases prefixByte_head 201 t [PComp.pStringWithLength, PComp.pStringWithLength] ts tl hb hrun hlt with
      ⟨st2, hst, hltv⟩ | ⟨st2, lt2, hst, hltv, htp⟩
    · subst hst hltv
      rfl
    · subst hst hltv
      show twoStringCmp st2 lt2 = Except.ok (-1)
      exact metaTwoString _ st2 lt2 htp
  rw [if_neg hd201x] at hrun
  rcases prefixByte_head d t [] ts tl hb hrun hlt with
    ⟨st2, hst, hltv⟩ | ⟨st2, lt2, hst, hltv, htp⟩
  · subst hst hltv
    have hd255 : d < 256 := hb d (by simp)
    simp only [globalMetaCmp]
    rw [if_pos (show d ≠ d + 1 by omega)]
    rw [natCmp_of_lt (show d < d + 1 by omega)]
  · exfalso
    obtain ⟨h1, c3, q4, p4, hq4, -⟩ := htp
    exact List.noConfusion hq4

/-- The databaseMetadata body grammar orders every prefixKeyBody start
strictly below its limit. -/
theorem databaseBody (rest : List Nat) (kp : KeyPrefix) (ts tl : List Nat)
    (hb2 : isBytes rest) (hne : rest ≠ []) (htype : kp.type = 1)
    (hrun : prefixKeyBody rest kp = (ts, tl)) (hlt : tl ≠ []) :
    databaseMetaCmp ts tl = .ok (-1) := by
  rcases rest with - | ⟨d, t⟩
  · exact absurd rfl hne
  have hb : isBytes (d :: t) := hb2
  simp only [prefixKeyBody] at hrun
  rw [if_neg (show ¬(kp.type = 0) by omega), if_pos htype] at hrun
  by_cases hd50x : d = 50
  · subst hd50x
    rw [if_pos rfl] at hrun
    rcases prefixByte_head 50 t [PComp.pVarInt, PComp.pByte] ts tl hb hrun hlt with
      ⟨st2, hst, hltv⟩ | ⟨st2, lt2, hst, hltv, htp⟩
    · subst hst hltv
      rfl
    · subst hst hltv
      show varIntByteCmp st2 lt2 = Except.ok (-1)
      exact metaVarIntByte _ st2 lt2 htp
  rw [if_neg hd50x] at hrun
  by_cases hd100x : d = 100
  · subst hd100x
    rw [if_pos rfl] at hrun
    rcases prefixByte_head 100 t [PComp.pVarInt, PComp.pVarInt, PComp.pByte] ts tl hb hrun hlt with
      ⟨st2, hst, hltv⟩ | ⟨st2, lt2, hst, hltv, htp⟩
    · subst hst hltv
      rfl
    · subst hst hltv
      show twoVarIntByteCmp st2 lt2 = Except.ok (-1)
      exact metaTwoVarIntByte _ st2 lt2 htp
  rw [if_neg hd100x] at hrun
  by_cases hd150x : d = 150
  · subst hd150x
    rw [if_pos rfl] at hrun
    rcases prefixByte_head 150 t [PComp.pVarInt] ts tl hb hrun hlt with
      ⟨st2, hst, hltv⟩ | ⟨st2, lt2, hst, hltv, htp⟩
    · subst hst hltv
      rfl
    · subst hst hltv
      show oneVarIntCmp st2 lt2 = Except.ok (-1)
      exact metaOneVarInt _ st2 lt2 htp
  rw [if_neg hd150x] at hrun
  by_cases hd151x : d = 151
  · subst hd151x
    rw [if_pos rfl] at hrun
    rcases prefixByte_head 151 t [PComp.pVarInt, PComp.pVarInt] ts tl hb hrun hlt with
      ⟨st2, hst, hltv⟩ | ⟨st2, lt2, hst, hltv, htp⟩
    · subst hst hltv
      rfl
    · subst hst hltv
      show twoVarIntCmp st2 lt2 = Except.ok (-1)
      exact metaTwoVarInt _ st2 lt2 htp
  rw [if_neg hd151x] at hrun
  by_cases hd200x : d = 200
  · subst hd200x
    rw [if_pos rfl] at hrun
    rcases prefixByte_head 200 t [PComp.pStringWithLength] ts tl hb hrun hlt with
      ⟨st2, hst, hltv⟩ | ⟨st2, lt2, hst, hltv, htp⟩
    · subst hst hltv
      rfl
    · subst hst hltv
      show oneStringCmp st2 lt2 = Except.ok (-1)
      exact metaOneString _ st2 lt2 htp
  rw [if_neg hd200x] at hrun
  by_cases hd201x : d = 201
  · subst hd201x
    rw [if_pos rfl] at hrun
    rcases prefixByte_head 201 t [PComp.pVarInt, PComp.pStringWithLength] ts tl hb hrun hlt with
      ⟨st2, hst, hltv⟩ | ⟨st2, lt2, hst, hltv, htp⟩
    · subst hst hltv
      rfl
    · subst hst hltv
      show varIntStringCmp st2 lt2 = Except.ok (-1)
      exact metaVarIntString _ st2 lt2 htp
  rw [if_neg hd201x] at hrun
  rcases prefixByte_head d t [] ts tl hb hrun hlt with
    ⟨st2, hst, hltv⟩ | ⟨st2, lt2, hst, hltv, htp⟩
  · subst hst hltv
    have hd255 : d < 256 := hb d (by simp)
    simp only [databaseMetaCmp]
    rw [if_pos (show d ≠ d + 1 by omega)]
    rw [natCmp_of_lt (show d < d + 1 by omega)]
  · exfalso
    obtain ⟨h1, c3, q4, p4, hq4, -⟩ := htp
    exact List.noConfusion hq4

/-- An indexeddb-keys body started with an empty queue either errors or is
ordered strictly; chain-ending ties are impossible with no continuation. -/
theorem idbBody (rest : List Nat) (ts tl : List Nat) (hb2 : isBytes rest)
    (hrun : prefixEncodedIDBKeys rest [] = (ts, tl)) (hlt : tl ≠ []) :
    compareEncodedIDBKeys ts tl = .error () ∨
    ∃ u v, compareEncodedIDBKeys ts tl = .ok (u, v, -1) := by
  have hI := (engineAll rest hb2).2.2.2.2.2
  rcases hI [] ts tl hrun hlt (ts.length + tl.length + 1) with
    h | h | ⟨u, v, h⟩ | ⟨st2, lt2, h, htp⟩
  · left
    unfold compareEncodedIDBKeys
    rw [h]
    rfl
  · left
    unfold compareEncodedIDBKeys
    rw [h]
    rfl
  · right
    refine ⟨u, v, ?_⟩
    unfold compareEncodedIDBKeys
    rw [h]
    rfl
  · exfalso
    obtain ⟨h1, c, q2, p2, hq, -⟩ := htp
    exact List.noConfusion hq

/-- Compare is at most zero once CompareE errors or returns a nonpositive
value. -/
theorem Compare_le_zero_of (s l : List Nat)
    (h : CompareE s l = .error () ∨ ∃ r, CompareE s l = .ok r ∧ r ≤ 0) :
    Compare s l ≤ 0 := by
  unfold Compare
  rcases h with h | ⟨r, h, hr⟩
  · rw [h]
  · rw [h]
    show r ≤ 0
    exact hr

theorem decodeKeyPrefix_encode_kp (kp : KeyPrefix) (rest : List Nat)
    (hd0 : -(2 ^ 63) ≤ kp.databaseId) (hd : kp.databaseId < 2 ^ 63)
    (hs0 : -(2 ^ 63) ≤ kp.objectStoreId) (hs : kp.objectStoreId < 2 ^ 63)
    (hi0 : 0 ≤ kp.indexId) (hi : kp.indexId < 2 ^ 32) :
    decodeKeyPrefix (encodeKeyPrefix kp ++ rest) = .ok (rest, kp) := by
  rcases kp with ⟨d, s, i⟩
  exact decodeKeyPrefix_encodeKeyPrefix d s i rest hd0 hd hs0 hs hi0 hi

theorem decodeKeyPrefix_encode_nil (kp : KeyPrefix)
    (hd0 : -(2 ^ 63) ≤ kp.databaseId) (hd : kp.databaseId < 2 ^ 63)
    (hs0 : -(2 ^ 63) ≤ kp.objectStoreId) (hs : kp.objectStoreId < 2 ^ 63)
    (hi0 : 0 ≤ kp.indexId) (hi : kp.indexId < 2 ^ 32) :
    decodeKeyPrefix (encodeKeyPrefix kp) = .ok ([], kp) := by
  have h := decodeKeyPrefix_encode_kp kp [] hd0 hd hs0 hs hi0 hi
  simpa using h

/-- succKeyPrefix keeps the decoded field ranges. -/
theorem succKeyPrefix_bounds (k ks : KeyPrefix) (h : succKeyPrefix k = some ks)
    (hd0 : -(2 ^ 63) ≤ k.databaseId) (hd : k.databaseId < 2 ^ 63)
    (hs0 : -(2 ^ 63) ≤ k.objectStoreId) (hs : k.objectStoreId < 2 ^ 63)
    (hi0 : 0 ≤ k.indexId) :
    -(2 ^ 63) ≤ ks.databaseId ∧ ks.databaseId < 2 ^ 63 ∧
    -(2 ^ 63) ≤ ks.objectStoreId ∧ ks.objectStoreId < 2 ^ 63 ∧
    0 ≤ ks.indexId ∧ ks.indexId < 2 ^ 32 := by
  unfold succKeyPrefix at h
  split at h
  · rename_i hidx
    simp only [Option.some.injEq] at h
    subst h
    dsimp only
    refine ⟨hd0, hd, hs0, hs, by omega, by omega⟩
  · split at h
    · rename_i hos
      simp only [Option.some.injEq] at h
      subst h
      dsimp only
      refine ⟨hd0, hd, by omega, by omega, by omega, by omega⟩
    · split at h
      · rename_i hdb
        simp only [Option.some.injEq] at h
        subst h
        dsimp only
        refine ⟨by omega, by omega, by omega, by omega, by omega, by omega⟩
      · exact Option.noConfusion h

theorem toInt64_range (v : Nat) (h : v < 2 ^ 64) :
    -(2 ^ 63) ≤ toInt64 v ∧ toInt64 v < 2 ^ 63 := by
  unfold toInt64
  split <;> constructor <;> omega

theorem leNat_lt64 (l : List Nat) (hb : isBytes l) (h : l.length ≤ 8) : leNat l < 2 ^ 64 := by
  have h1 := leNat_lt l hb
  have h2 : (2 : Nat) ^ (8 * l.length) ≤ 2 ^ 64 := Nat.pow_le_pow_right (by norm_num) (by omega)
  omega

theorem pow_sub_div_mul (E a : Nat) (ha : a ≤ E) :
    (2 ^ E - 1) / 2 ^ a * 2 ^ a = 2 ^ E - 2 ^ a := by
  have h2 : (2 : Nat) ^ E = 2 ^ a * 2 ^ (E - a) := by
    rw [← pow_add]
    congr 1
    omega
  have hA : 1 ≤ (2 : Nat) ^ a := Nat.one_le_two_pow
  have hB : 1 ≤ (2 : Nat) ^ (E - a) := Nat.one_le_two_pow
  have hmul1 : 1 ≤ (2 : Nat) ^ a * 2 ^ (E - a) := Nat.one_le_iff_ne_zero.mpr (by positivity)
  have hsplit : 2 ^ E - 1 = (2 ^ (E - a) - 1) * 2 ^ a + (2 ^ a - 1) := by
    rw [h2]
    zify [hA, hB, hmul1]
    ring
  have hdiv : (2 ^ E - 1) / 2 ^ a = 2 ^ (E - a) - 1 := by
    rw [hsplit, Nat.add_comm, Nat.add_mul_div_right _ _ (by positivity),
      Nat.div_eq_of_lt (by omega), Nat.zero_add]
  rw [hdiv]
  have hle : (2 : Nat) ^ a ≤ 2 ^ E := Nat.pow_le_pow_right (by norm_num) ha
  zify [hA, hB, hle]
  have h2i : ((2 : Int)) ^ E = 2 ^ a * 2 ^ (E - a) := by exact_mod_cast h2
  rw [h2i]
  ring

/-- Common ending of the partial-header and successor paths: a start key
below the pre-successor bound compares strictly below the encoded
successor. -/
theorem partialFinish (k1 k2 : KeyPrefix) (l : List Nat)
    (h2 : encodeKeyPrefixO (succKeyPrefix k2) = l) (hl : l ≠ [])
    (b1d0 : -(2 ^ 63) ≤ k1.databaseId) (b1d : k1.databaseId < 2 ^ 63)
    (b1s0 : -(2 ^ 63) ≤ k1.objectStoreId) (b1s : k1.objectStoreId < 2 ^ 63)
    (b1i0 : 0 ≤ k1.indexId) (b1i : k1.indexId < 2 ^ 32)
    (b2d0 : -(2 ^ 63) ≤ k2.databaseId) (b2d : k2.databaseId < 2 ^ 63)
    (b2s0 : -(2 ^ 63) ≤ k2.objectStoreId) (b2s : k2.objectStoreId < 2 ^ 63)
    (b2i0 : 0 ≤ k2.indexId)
    (hled : k1.databaseId ≤ k2.databaseId) (hles : k1.objectStoreId ≤ k2.objectStoreId)
    (hlei : k1.indexId ≤ k2.indexId) :
    CompareE (encodeKeyPrefix k1) l = .ok (-1) := by
  rcases hsucc : succKeyPrefix k2 with - | ks
  · rw [hsucc] at h2
    simp only [encodeKeyPrefixO] at h2
    exact absurd h2.symm hl
  · rw [hsucc] at h2
    simp only [encodeKeyPrefixO] at h2
    subst h2
    obtain ⟨c1, c2, c3, c4, c5, c6⟩ := succKeyPrefix_bounds k2 ks hsucc b2d0 b2d b2s0 b2s b2i0
    unfold CompareE
    rw [decodeKeyPrefix_encode_nil k1 b1d0 b1d b1s0 b1s b1i0 b1i]
    rw [decodeKeyPrefix_encode_nil ks c1 c2 c3 c4 c5 c6]
    dsimp only
    rw [compareKeyPrefix_succ k2 ks k1 hsucc hled hles hlei]
    rw [if_pos (show (-1 : Int) ≠ 0 by decide)]

/-- The complete-header path with a body limit: both sides decode back to
the same key prefix and the body grammars order the tails. -/
theorem fullCase (kp : KeyPrefix) (ts tl rest : List Nat)
    (hbrest : isBytes rest) (hrestne : rest ≠ [])
    (bd0 : -(2 ^ 63) ≤ kp.databaseId) (bd : kp.databaseId < 2 ^ 63)
    (bs0 : -(2 ^ 63) ≤ kp.objectStoreId) (bs : kp.objectStoreId < 2 ^ 63)
    (bi0 : 0 ≤ kp.indexId) (bi : kp.indexId < 2 ^ 32)
    (hpkb : prefixKeyBody rest kp = (ts, tl)) (htl : tl ≠ []) :
    CompareE (encodeKeyPrefix kp ++ ts) (encodeKeyPrefix kp ++ tl) = .error () ∨
    ∃ r, CompareE (encodeKeyPrefix kp ++ ts) (encodeKeyPrefix kp ++ tl) = .ok r ∧ r ≤ 0 := by
  unfold CompareE
  rw [decodeKeyPrefix_encode_kp kp ts bd0 bd bs0 bs bi0 bi,
    decodeKeyPrefix_encode_kp kp tl bd0 bd bs0 bs bi0 bi]
  dsimp only
  rw [compareKeyPrefix_self kp]
  rw [if_neg (show ¬((0 : Int) ≠ 0) by decide)]
  by_cases ht0 : kp.type = 0
  · rw [if_pos ht0]
    right
    exact ⟨-1, globalBody rest kp ts tl hbrest hrestne ht0 hpkb htl, by decide⟩
  rw [if_neg ht0]
  by_cases ht1 : kp.type = 1
  · rw [if_pos ht1]
    right
    exact ⟨-1, databaseBody rest kp ts tl hbrest hrestne ht1 hpkb htl, by decide⟩
  rw [if_neg ht1]
  by_cases ht236 : kp.type = 2 ∨ kp.type = 3 ∨ kp.type = 6
  · rw [if_pos ht236]
    have hpkb2 : prefixEncodedIDBKeys rest [] = (ts, tl) := by
      rcases rest with - | ⟨d, t2⟩
      · exact absurd rfl hrestne
      rw [← hpkb]
      simp only [prefixKeyBody]
      rw [if_neg ht0, if_neg ht1, if_pos (by rcases ht236 with h | h | h <;> simp [h])]
    rcases idbBody rest ts tl hbrest hpkb2 htl with h | ⟨u, v, h⟩ <;> rw [h]
    · left
      rfl
    · right
      refine ⟨-1, ?_, by decide⟩
      rfl
  rw [if_neg ht236]
  by_cases ht4 : kp.type = 4
  · rw [if_pos ht4]
    have hpkb2 : prefixEncodedIDBKeys rest [] = (ts, tl) := by
      rcases rest with - | ⟨d, t2⟩
      · exact absurd rfl hrestne
      rw [← hpkb]
      simp only [prefixKeyBody]
      rw [if_neg ht0, if_neg ht1, if_pos (by simp [ht4])]
    rcases idbBody rest ts tl hbrest hpkb2 htl with h | ⟨u, v, h⟩ <;> rw [h]
    · left
      rfl
    · right
      refine ⟨-1, ?_, by decide⟩
      dsimp only
      rw [if_pos (show (-1 : Int) ≠ 0 by decide)]
  · rw [if_neg ht4]
    left
    rfl

theorem toInt64_small (v : Nat) (h : v < 2 ^ 63) : toInt64 v = v := by
  unfold toInt64
  rw [if_pos (by exact_mod_cast h)]

theorem isBytes_take (l : List Nat) (hb : isBytes l) (n : Nat) : isBytes (l.take n) :=
  fun y hy => hb y (List.take_subset n l hy)

theorem isBytes_drop (l : List Nat) (hb : isBytes l) (n : Nat) : isBytes (l.drop n) :=
  fun y hy => hb y (List.drop_subset n l hy)

/-- Arithmetic of a partially present field: the cleared-low-bits upper
bracket dominates the low bracket and stays below MaxInt64. -/
theorem partStepFacts (w m v : Nat) (hw8 : w ≤ 8) (hm0 : 0 < m) (hmw : m < w)
    (hv : v < 2 ^ (8 * m)) :
    (if w > 1 then 2 ^ (8 * (w - 1)) else 0) + v ≤
      (if w < 8 then 2 ^ (8 * w) - 1 else 2 ^ 63 - 1) / 2 ^ (8 * m) * 2 ^ (8 * m) + v ∧
    (if w < 8 then 2 ^ (8 * w) - 1 else 2 ^ 63 - 1) / 2 ^ (8 * m) * 2 ^ (8 * m) + v < 2 ^ 63 := by
  have hw2 : 1 < w := by omega
  rw [if_pos hw2]
  by_cases hw8x : w < 8
  · rw [if_pos hw8x]
    rw [pow_sub_div_mul (8 * w) (8 * m) (by omega)]
    have p1 : (2 : Nat) ^ (8 * m) ≤ 2 ^ (8 * (w - 1)) :=
      Nat.pow_le_pow_right (by norm_num) (by omega)
    have p2 : (2 : Nat) ^ (8 * w) = 2 ^ (8 * (w - 1)) * 256 := by
      rw [show (256 : Nat) = 2 ^ 8 from rfl, ← pow_add]
      congr 1
      omega
    have p3 : (2 : Nat) ^ (8 * w) ≤ 2 ^ 56 := Nat.pow_le_pow_right (by norm_num) (by omega)
    constructor <;> omega
  · rw [if_neg hw8x]
    have hw : w = 8 := by omega
    subst hw
    rw [pow_sub_div_mul 63 (8 * m) (by omega)]
    have p1 : (2 : Nat) ^ (8 * m) ≤ 2 ^ 56 := Nat.pow_le_pow_right (by norm_num) (by omega)
    have e1 : (2 : Nat) ^ (8 * (8 - 1)) = 2 ^ 56 := by norm_num
    constructor <;> omega

/-- The same bracket facts for the index field, whose cap is below 2^32. -/
theorem partStepFactsIdx (w m v : Nat) (hw4 : w ≤ 4) (hm0 : 0 < m) (hmw : m < w)
    (hv : v < 2 ^ (8 * m)) :
    (if w > 1 then 2 ^ (8 * (w - 1)) else 0) + v ≤
      (2 ^ (8 * w) - 1) / 2 ^ (8 * m) * 2 ^ (8 * m) + v ∧
    (2 ^ (8 * w) - 1) / 2 ^ (8 * m) * 2 ^ (8 * m) + v < 2 ^ 32 := by
  have hw2 : 1 < w := by omega
  rw [if_pos hw2]
  rw [pow_sub_div_mul (8 * w) (8 * m) (by omega)]
  have p1 : (2 : Nat) ^ (8 * m) ≤ 2 ^ (8 * (w - 1)) :=
    Nat.pow_le_pow_right (by norm_num) (by omega)
  have p2 : (2 : Nat) ^ (8 * w) = 2 ^ (8 * (w - 1)) * 256 := by
    rw [show (256 : Nat) = 2 ^ 8 from rfl, ← pow_add]
    congr 1
    omega
  have p3 : (2 : Nat) ^ (8 * w) ≤ 2 ^ 32 := Nat.pow_le_pow_right (by norm_num) (by omega)
  constructor <;> omega

/-- Bracket facts for a wholly absent field. -/
theorem partZeroFacts (w : Nat) (hw1 : 1 ≤ w) (hw8 : w ≤ 8) :
    (if w > 1 then 2 ^ (8 * (w - 1)) else 0) ≤ (if w < 8 then 2 ^ (8 * w) - 1 else 2 ^ 63 - 1) ∧
    (if w < 8 then 2 ^ (8 * w) - 1 else 2 ^ 63 - 1) < 2 ^ 63 := by
  by_cases hw8x : w < 8
  · rw [if_pos hw8x]
    by_cases hw2 : w > 1
    · rw [if_pos hw2]
      have p2 : (2 : Nat) ^ (8 * w) = 2 ^ (8 * (w - 1)) * 256 := by
        rw [show (256 : Nat) = 2 ^ 8 from rfl, ← pow_add]
        congr 1
        omega
      have p3 : (2 : Nat) ^ (8 * w) ≤ 2 ^ 56 := Nat.pow_le_pow_right (by norm_num) (by omega)
      constructor <;> omega
    · rw [if_neg hw2]
      have hw : w = 1 := by omega
      subst hw
      refine ⟨by omega, by norm_num⟩
  · rw [if_neg hw8x]
    have hw : w = 8 := by omega
    subst hw
    rw [if_pos (by norm_num)]
    have e1 : (2 : Nat) ^ (8 * (8 - 1)) = 2 ^ 56 := by norm_num
    omega

/-- Bracket facts for a wholly absent index field. -/
theorem partZeroFactsIdx (w : Nat) (hw1 : 1 ≤ w) (hw4 : w ≤ 4) :
    (if w > 1 then 2 ^ (8 * (w - 1)) else 0) ≤ 2 ^ (8 * w) - 1 ∧
    2 ^ (8 * w) - 1 < 2 ^ 32 := by
  have p3 : (2 : Nat) ^ (8 * w) ≤ 2 ^ 32 := Nat.pow_le_pow_right (by norm_num) (by omega)
  by_cases hw2 : w > 1
  · rw [if_pos hw2]
    have p2 : (2 : Nat) ^ (8 * w) = 2 ^ (8 * (w - 1)) * 256 := by
      rw [show (256 : Nat) = 2 ^ 8 from rfl, ← pow_add]
      congr 1
      omega
    constructor <;> omega
  · rw [if_neg hw2]
    have hp : 0 < (2 : Nat) ^ (8 * w) := by positivity
    constructor <;> omega

/-- The partial-header path: a prefix too short for its own field widths
brackets the missing bytes and its range is strictly ordered. -/
theorem partialCase (h0 : Nat) (t : List Nat) (hb : isBytes (h0 :: t)) (s l : List Nat)
    (hshort : t.length < (h0 / 32 % 8 + 1) + (h0 / 4 % 8 + 1) + (h0 % 4 + 1))
    (hrun : prefixPartialKeyPrefix (h0 :: t) = (s, l)) (hl : l ≠ []) :
    CompareE s l = .ok (-1) := by
  have hbt : isBytes t := fun y hy => hb y (by simp [hy])
  simp only [prefixPartialKeyPrefix] at hrun
  by_cases hdb : t.length ≥ h0 / 32 % 8 + 1
  · rw [if_pos hdb] at hrun
    dsimp only at hrun
    have hbA := toInt64_range (leNat (t.take (h0 / 32 % 8 + 1)))
      (leNat_lt64 _ (isBytes_take t hbt _) (le_trans (List.length_take_le _ _) (by omega)))
    by_cases hos : (t.drop (h0 / 32 % 8 + 1)).length ≥ h0 / 4 % 8 + 1
    · rw [if_pos hos] at hrun
      dsimp only at hrun
      have hbB := toInt64_range (leNat ((t.drop (h0 / 32 % 8 + 1)).take (h0 / 4 % 8 + 1)))
        (leNat_lt64 _ (isBytes_take _ (isBytes_drop t hbt _) _)
          (le_trans (List.length_take_le _ _) (by omega)))
      by_cases hidx : ((t.drop (h0 / 32 % 8 + 1)).drop (h0 / 4 % 8 + 1)).length > 0
      · rw [if_pos hidx] at hrun
        dsimp only at hrun
        rw [Prod.mk.injEq] at hrun
        obtain ⟨h1, h2⟩ := hrun
        subst h1
        have hmlt : ((t.drop (h0 / 32 % 8 + 1)).drop (h0 / 4 % 8 + 1)).length < h0 % 4 + 1 := by
          rw [List.length_drop, List.length_drop]
          omega
        obtain ⟨hC1, hC2⟩ := partStepFactsIdx (h0 % 4 + 1) (((t.drop (h0 / 32 % 8 + 1)).drop (h0 / 4 % 8 + 1)).length) (leNat ((t.drop (h0 / 32 % 8 + 1)).drop (h0 / 4 % 8 + 1)))
          (by omega) hidx hmlt (leNat_lt _ (isBytes_drop _ (isBytes_drop t hbt _) _))
        exact partialFinish _ _ l h2 hl
          (by dsimp only; exact hbA.1) (by dsimp only; exact hbA.2)
          (by dsimp only; exact hbB.1) (by dsimp only; exact hbB.2)
          (by dsimp only; omega) (by dsimp only; omega)
          (by dsimp only; exact hbA.1) (by dsimp only; exact hbA.2)
          (by dsimp only; exact hbB.1) (by dsimp only; exact hbB.2)
          (by dsimp only; omega)
          (le_refl _) (le_refl _) (by dsimp only; omega)
      · rw [if_neg hidx] at hrun
        dsimp only at hrun
        rw [Prod.mk.injEq] at hrun
        obtain ⟨h1, h2⟩ := hrun
        subst h1
        obtain ⟨hC1, hC2⟩ := partZeroFactsIdx (h0 % 4 + 1) (by omega) (by omega)
        exact partialFinish _ _ l h2 hl
          (by dsimp only; exact hbA.1) (by dsimp only; exact hbA.2)
          (by dsimp only; exact hbB.1) (by dsimp only; exact hbB.2)
          (by dsimp only; omega) (by dsimp only; omega)
          (by dsimp only; exact hbA.1) (by dsimp only; exact hbA.2)
          (by dsimp only; exact hbB.1) (by dsimp only; exact hbB.2)
          (by dsimp only; omega)
          (le_refl _) (le_refl _) (by dsimp only; omega)
    · rw [if_neg hos] at hrun
      by_cases hos2 : (t.drop (h0 / 32 % 8 + 1)).length > 0
      · rw [if_pos hos2] at hrun
        dsimp only at hrun
        rw [if_neg (show ¬(([] : List Nat).length > 0) by simp)] at hrun
        rw [Prod.mk.injEq] at hrun
        obtain ⟨h1, h2⟩ := hrun
        subst h1
        obtain ⟨hB1, hB2⟩ := partStepFacts (h0 / 4 % 8 + 1) ((t.drop (h0 / 32 % 8 + 1)).length) (leNat (t.drop (h0 / 32 % 8 + 1)))
          (by omega) hos2 (by omega) (leNat_lt _ (isBytes_drop t hbt _))
        obtain ⟨hC1, hC2⟩ := partZeroFactsIdx (h0 % 4 + 1) (by omega) (by omega)
        exact partialFinish _ _ l h2 hl
          (by dsimp only; exact hbA.1) (by dsimp only; exact hbA.2)
          (by dsimp only; omega) (by dsimp only; omega)
          (by dsimp only; omega) (by dsimp only; omega)
          (by dsimp only; exact hbA.1) (by dsimp only; exact hbA.2)
          (by dsimp only; omega) (by dsimp only; omega)
          (by dsimp only; omega)
          (le_refl _) (by dsimp only; omega) (by dsimp only; omega)
      · rw [if_neg hos2] at hrun
        dsimp only at hrun
        rw [if_neg (show ¬(([] : List Nat).length > 0) by simp)] at hrun
        rw [Prod.mk.injEq] at hrun
        obtain ⟨h1, h2⟩ := hrun
        subst h1
        obtain ⟨hB1, hB2⟩ := partZeroFacts (h0 / 4 % 8 + 1) (by omega) (by omega)
        obtain ⟨hC1, hC2⟩ := partZeroFactsIdx (h0 % 4 + 1) (by omega) (by omega)
        exact partialFinish _ _ l h2 hl
          (by dsimp only; exact hbA.1) (by dsimp only; exact hbA.2)
          (by dsimp only; omega) (by dsimp only; omega)
          (by dsimp only; omega) (by dsimp only; omega)
          (by dsimp only; exact hbA.1) (by dsimp only; exact hbA.2)
          (by dsimp only; omega) (by dsimp only; omega)
          (by dsimp only; omega)
          (le_refl _) (by dsimp only; omega) (by dsimp only; omega)
  · rw [if_neg hdb] at hrun
    by_cases hdb2 : t.length > 0
    · rw [if_pos hdb2] at hrun
      dsimp only at hrun
      rw [if_neg (show ¬(([] : List Nat).length ≥ h0 / 4 % 8 + 1) by simp)] at hrun
      rw [if_neg (show ¬(([] : List Nat).length > 0) by simp)] at hrun
      dsimp only at hrun
      rw [if_neg (show ¬(([] : List Nat).length > 0) by simp)] at hrun
      dsimp only at hrun
      rw [Prod.mk.injEq] at hrun
      obtain ⟨h1, h2⟩ := hrun
      subst h1
      obtain ⟨hA1, hA2⟩ := partStepFacts (h0 / 32 % 8 + 1) (t.length) (leNat t)
        (by omega) hdb2 (by omega) (leNat_lt _ hbt)
      obtain ⟨hB1, hB2⟩ := partZeroFacts (h0 / 4 % 8 + 1) (by omega) (by omega)
      obtain ⟨hC1, hC2⟩ := partZeroFactsIdx (h0 % 4 + 1) (by omega) (by omega)
      exact partialFinish _ _ l h2 hl
        (by dsimp only; omega) (by dsimp only; omega)
        (by dsimp only; omega) (by dsimp only; omega)
        (by dsimp only; omega) (by dsimp only; omega)
        (by dsimp only; omega) (by dsimp only; omega)
        (by dsimp only; omega) (by dsimp only; omega)
        (by dsimp only; omega)
        (by dsimp only; omega) (by dsimp only; omega) (by dsimp only; omega)
    · rw [if_neg hdb2] at hrun
      dsimp only at hrun
      rw [if_neg (show ¬(([] : List Nat).length ≥ h0 / 4 % 8 + 1) by simp)] at hrun
      rw [if_neg (show ¬(([] : List Nat).length > 0) by simp)] at hrun
      dsimp only at hrun
      rw [if_neg (show ¬(([] : List Nat).length > 0) by simp)] at hrun
      dsimp only at hrun
      rw [Prod.mk.injEq] at hrun
      obtain ⟨h1, h2⟩ := hrun
      subst h1
      obtain ⟨hA1, hA2⟩ := partZeroFacts (h0 / 32 % 8 + 1) (by omega) (by omega)
      obtain ⟨hB1, hB2⟩ := partZeroFacts (h0 / 4 % 8 + 1) (by omega) (by omega)
      obtain ⟨hC1, hC2⟩ := partZeroFactsIdx (h0 % 4 + 1) (by omega) (by omega)
      exact partialFinish _ _ l h2 hl
        (by dsimp only; omega) (by dsimp only; omega)
        (by dsimp only; omega) (by dsimp only; omega)
        (by dsimp only; omega) (by dsimp only; omega)
        (by dsimp only; omega) (by dsimp only; omega)
        (by dsimp only; omega) (by dsimp only; omega)
        (by dsimp only; omega)
        (by dsimp only; omega) (by dsimp only; omega) (by dsimp only; omega)

/-- Successor-limit ending for a start that decodes to the bounded key
prefix: the limit re-encodes the successor and sorts strictly above. -/
theorem succFinish (k1 k2 : KeyPrefix) (S l ts : List Nat)
    (hdecS : decodeKeyPrefix S = .ok (ts, k1))
    (h2 : encodeKeyPrefixO (succKeyPrefix k2) = l) (hl : l ≠ [])
    (b2d0 : -(2 ^ 63) ≤ k2.databaseId) (b2d : k2.databaseId < 2 ^ 63)
    (b2s0 : -(2 ^ 63) ≤ k2.objectStoreId) (b2s : k2.objectStoreId < 2 ^ 63)
    (b2i0 : 0 ≤ k2.indexId)
    (hled : k1.databaseId ≤ k2.databaseId) (hles : k1.objectStoreId ≤ k2.objectStoreId)
    (hlei : k1.indexId ≤ k2.indexId) :
    CompareE S l = .ok (-1) := by
  rcases hsucc : succKeyPrefix k2 with - | ks
  · rw [hsucc] at h2
    simp only [encodeKeyPrefixO] at h2
    exact absurd h2.symm hl
  · rw [hsucc] at h2
    simp only [encodeKeyPrefixO] at h2
    subst h2
    obtain ⟨c1, c2, c3, c4, c5, c6⟩ := succKeyPrefix_bounds k2 ks hsucc b2d0 b2d b2s0 b2s b2i0
    unfold CompareE
    rw [hdecS]
    rw [decodeKeyPrefix_encode_nil ks c1 c2 c3 c4 c5 c6]
    dsimp only
    rw [compareKeyPrefix_succ k2 ks k1 hsucc hled hles hlei]
    rw [if_pos (show (-1 : Int) ≠ 0 by decide)]

/-- Every range Prefix produces with a present limit is well ordered under
the comparator. -/
theorem Prefix_wellordered (p : List Nat) (hb : isBytes p) (s l : List Nat)
    (hpre : Prefix p = some ⟨s, l⟩) (hl : l ≠ []) : Compare s l ≤ 0 := by
  unfold Prefix at hpre
  by_cases hp0 : p = []
  · rw [if_pos hp0] at hpre
    exact Option.noConfusion hpre
  rw [if_neg hp0] at hpre
  simp only [Option.some.injEq, GoRange.mk.injEq] at hpre
  obtain ⟨h1, h2⟩ := hpre
  rcases hkp : prefixKeyPrefix p with ⟨s0, l0⟩
  rw [hkp] at h1 h2
  dsimp only at h1 h2
  subst h1 h2
  rcases p with - | ⟨h0, t⟩
  · exact absurd rfl hp0
  simp only [prefixKeyPrefix] at hkp
  by_cases hshort :
      (h0 :: t).length < 1 + (h0 / 32 % 8 + 1) + (h0 / 4 % 8 + 1) + (h0 % 4 + 1)
  · rw [if_pos hshort] at hkp
    apply Compare_le_zero_of
    right
    refine ⟨-1, ?_, by decide⟩
    exact partialCase h0 t hb s0 l0 (by simp only [List.length_cons] at hshort; omega) hkp hl
  · rw [if_neg hshort] at hkp
    rcases hdk : decodeKeyPrefix (h0 :: t) with e | pr
    · rw [hdk] at hkp
      dsimp only at hkp
      injection hkp with h1 h2
      exact absurd h2.symm hl
    rcases pr with ⟨rest, kp⟩
    rw [hdk] at hkp
    dsimp only at hkp
    obtain ⟨bd0, bd, bs0, bs, bi0, bi, hbrest⟩ := decodeKeyPrefix_bounds (h0 :: t) rest kp hb hdk
    by_cases hrl : rest.length > 0
    · rw [if_pos hrl] at hkp
      rcases hpkb : prefixKeyBody rest kp with ⟨ts, tl⟩
      rw [hpkb] at hkp
      dsimp only at hkp
      by_cases htl : tl ≠ []
      · rw [if_pos htl] at hkp
        injection hkp with h1 h2
        subst h1 h2
        exact Compare_le_zero_of _ _ (fullCase kp ts tl rest hbrest
          (List.length_pos.mp hrl) bd0 bd bs0 bs bi0 bi hpkb htl)
      · rw [if_neg htl] at hkp
        injection hkp with h1 h2
        subst h1
        apply Compare_le_zero_of
        right
        refine ⟨-1, ?_, by decide⟩
        exact succFinish kp kp _ l0 ts
          (decodeKeyPrefix_encode_kp kp ts bd0 bd bs0 bs bi0 bi) h2 hl
          bd0 bd bs0 bs bi0 le_rfl le_rfl le_rfl
    · rw [if_neg hrl] at hkp
      dsimp only at hkp
      rw [if_neg (show ¬(([] : List Nat) ≠ []) by simp)] at hkp
      injection hkp with h1 h2
      subst h1
      apply Compare_le_zero_of
      right
      refine ⟨-1, ?_, by decide⟩
      exact succFinish kp kp _ l0 []
        (decodeKeyPrefix_encode_kp kp [] bd0 bd bs0 bs bi0 bi) h2 hl
        bd0 bd bs0 bs bi0 le_rfl le_rfl le_rfl


/-- C10: for every input byte prefix on which Prefix returns a range whose
limit is present (non-nil), the bounds are well ordered under the idb_cmp1
comparator: Compare start limit ≤ 0, so the produced [start, limit)
interval is never inverted. -/
theorem C10_range_wellordered (p : List Nat) (hb : isBytes p) (s l : List Nat)
    (hpre : Prefix p = some ⟨s, l⟩) (hl : l ≠ []) : Compare s l ≤ 0 :=
  Prefix_wellordered p hb s l hpre hl

theorem C10_range_wellordered_witness :
    isBytes [0, 0, 0, 0, 100] ∧
    Prefix [0, 0, 0, 0, 100] = some ⟨[0, 0, 0, 0, 100], [0, 0, 0, 0, 101]⟩ ∧
    ([0, 0, 0, 0, 101] : List Nat) ≠ [] ∧
    Compare [0, 0, 0, 0, 100] [0, 0, 0, 0, 101] ≤ 0 := by
  have hbytes : isBytes [0, 0, 0, 0, 100] := by
    unfold isBytes
    decide
  have hpre : Prefix [0, 0, 0, 0, 100] =
      some ⟨[0, 0, 0, 0, 100], [0, 0, 0, 0, 101]⟩ := by
    simp +decide [Prefix, prefixKeyPrefix, prefixKeyBody, prefixEncodedIDBKeys, prefixBinary,
      prefixVarInt, prefixByte, prefixDouble, prefixStringWithLength, runComp, decodeKeyPrefix,
      decodeInt, decodeVarInt, decodeVarIntAux, pvCore, validVarInt, succBytes, encodeVarInt,
      encodeKeyPrefix, encodeKeyPrefixO, succKeyPrefix, KeyPrefix.type, leNat, toInt64, bitLen,
      bitLenAux, leBytes]
  exact ⟨hbytes, hpre, by decide,
    C10_range_wellordered [0, 0, 0, 0, 100] hbytes [0, 0, 0, 0, 100] [0, 0, 0, 0, 101]
      hpre (by decide)⟩

end IDB
